import Mathlib

/-!
# Time Dilation Clock (SDL-BGI_Clock_T-D.c): verification development

Shallow embedding of the numerical core of `SDL-BGI_Clock_T-D.c`:

* C `int` is a 32-bit two's complement integer: values are `Int`, and every
  arithmetic operation that can leave the range is wrapped by `wrapInt32`;
* a C `double` is a real number or NaN (`CDouble`). The velocity table, the
  dilation function and the per-sample block of the draw loop are embedded as
  the program computes them, every literal and every operation rounded to IEEE
  754 binary64 (`fl64`, round to nearest, ties to even): `Velocity_dbl`,
  `GetTimeDilation_dbl`, `time_accumulative`, `time_accumulative_temp`,
  `plotIndex`. `Velocity`, `GetTimeDilation`, `dilatedTicks` and `scaleUp`
  are the same expressions without rounding (exact arithmetic);
* a conversion from `double` to `int` has a defined result only when the
  value is a number inside the `int` range (`Option Int`, `none` = undefined).
-/

namespace TDClock

/-! ## Machine integers -/

/-- Largest value of a C `int` (limits.h, 32-bit). -/
def INT_MAX : Int := 2147483647

/-- Smallest value of a C `int` (limits.h, 32-bit). -/
def INT_MIN : Int := -2147483648

/-- Reduction of a mathematical integer to 32-bit two's complement. -/
def wrapInt32 (x : Int) : Int := (x + 2147483648) % 4294967296 - 2147483648

/-- C `a + b` on `int`. -/
def int_add (a b : Int) : Int := wrapInt32 (a + b)

/-- C `a - b` on `int`. -/
def int_sub (a b : Int) : Int := wrapInt32 (a - b)

/-- C `a * b` on `int`. -/
def int_mul (a b : Int) : Int := wrapInt32 (a * b)

/-- C `a / b` on `int`: the quotient truncated toward zero. -/
def int_div (a b : Int) : Int := wrapInt32 (Int.tdiv a b)

/-- The value is representable as a C `int`. -/
def InIntRange (x : Int) : Prop := INT_MIN ≤ x ∧ x ≤ INT_MAX

instance (x : Int) : Decidable (InIntRange x) := by
  unfold InIntRange; exact inferInstance

/-! ## The wrap step of the radius draw loop (lines 434-446) -/

/-- Result of the wrap step: the wrapped `time_accumulative_temp` that indexes
the lookup table, and `adjust3600`. -/
structure WrapResult where
  time_accumulative_temp : Int
  adjust3600 : Int
  deriving DecidableEq, Repr

/-- Lines 438-446:
`adjust3600 = (int)(time_accumulative_temp / 3600);`
`if (time_accumulative_temp >= 1) time_accumulative_temp -= (3600 * adjust3600);` -/
def wrap3600 (time_accumulative_temp : Int) : WrapResult :=
  let adjust3600 := int_div time_accumulative_temp 3600
  if time_accumulative_temp ≥ 1 then
    { time_accumulative_temp := int_sub time_accumulative_temp (int_mul 3600 adjust3600),
      adjust3600 := adjust3600 }
  else
    { time_accumulative_temp := time_accumulative_temp, adjust3600 := adjust3600 }

/-! ## Minute rollover state (lines 185-188, 394-407) -/

/-- The run state `Last_min`, `min3600`, `time_elapsed` of `main`. -/
structure DilationState where
  Last_min : Int
  min3600 : Int
  time_elapsed : Int
  deriving DecidableEq, Repr

/-- Initial values, lines 185-188. -/
def initState : DilationState := { Last_min := -1, min3600 := 0, time_elapsed := 0 }

/-- Lines 394-407: `if (Last_min == -1) Last_min = min;` followed by
`if (Last_min != min) { min3600 += 3600; Last_min = min; time_elapsed++; }`. -/
def minuteRollover (s : DilationState) (min : Int) : DilationState :=
  let s1 : DilationState := if s.Last_min = -1 then { s with Last_min := min } else s
  if s1.Last_min ≠ min then
    { Last_min := min,
      min3600 := int_add s1.min3600 3600,
      time_elapsed := int_add s1.time_elapsed 1 }
  else s1

/-- Number of frames (from the second on) whose minute differs from the minute
of the frame before. -/
def minuteChanges : List Int → Nat
  | [] => 0
  | [_] => 0
  | a :: b :: rest => (if a ≠ b then 1 else 0) + minuteChanges (b :: rest)

/-! ## Doubles -/

/-- A C `double`: a real number, or NaN. -/
inductive CDouble where
  | fin (x : ℝ)
  | nan

/-- Arithmetic with a double operand: NaN propagates. -/
def CDouble.map (g : ℝ → ℝ) : CDouble → CDouble
  | CDouble.fin x => CDouble.fin (g x)
  | CDouble.nan => CDouble.nan

/-- C `a >= b` with `b` a number: false when `a` is NaN. -/
def CDouble.ge (a : CDouble) (b : ℝ) : Prop :=
  match a with
  | CDouble.fin x => b ≤ x
  | CDouble.nan => False

/-- C `sqrt` (math.h): NaN on a negative argument. -/
noncomputable def c_sqrt (x : ℝ) : CDouble :=
  if x < 0 then CDouble.nan else CDouble.fin (Real.sqrt x)

/-- C `round` (math.h): the nearest integer, halfway cases away from zero. -/
noncomputable def c_round (x : ℝ) : Int :=
  if 0 ≤ x then Int.floor (x + 1 / 2) else Int.ceil (x - 1 / 2)

/-- Conversion of an integral `double` to `int` on assignment: defined only
when the value is in the range of `int`. -/
def double_to_int (z : Int) : Option Int := if InIntRange z then some z else none

/-- Largest finite `double` (float.h): (2^53 - 1) * 2^971. -/
def DBL_MAX : ℚ := (2 ^ 53 - 1) * 2 ^ 971

/-! ## IEEE 754 binary64 rounding -/

/-- Exponent of the binade of `x`: the largest `e` with `2^e ≤ |x|`, and -1022
throughout the subnormal range. -/
noncomputable def binade (x : ℝ) : Int := max (Int.log 2 |x|) (-1022)

/-- Spacing of the doubles in the binade of `x` (53-bit significand). -/
noncomputable def ulp (x : ℝ) : ℝ := (2 : ℝ) ^ (binade x - 52)

/-- The integer nearest to `y`, halfway cases to the even integer. -/
noncomputable def roundHalfEven (y : ℝ) : Int :=
  if y - (Int.floor y : ℝ) < 1 / 2 then Int.floor y
  else if 1 / 2 < y - (Int.floor y : ℝ) then Int.floor y + 1
  else if Int.floor y % 2 = 0 then Int.floor y
  else Int.floor y + 1

/-- The double nearest to the real number `x`, halfway cases to the even
significand: the rounding of every literal and every arithmetic operation on
`double`. A result beyond `DBL_MAX`, which the machine turns into infinity,
does not occur in the computations embedded here. -/
noncomputable def fl64 (x : ℝ) : ℝ := (roundHalfEven (x / ulp x) : ℝ) * ulp x

/-- C `sqrt` (math.h) on a double: NaN on a negative argument, else the
correctly rounded square root. -/
noncomputable def c_sqrt_dbl (x : ℝ) : CDouble :=
  if x < 0 then CDouble.nan else CDouble.fin (fl64 (Real.sqrt x))

/-! ## Velocity table and dilation function -/

/-- Lines 269-280: `Velocity[counter] =
(6.28318530717958647692 * (5725614.1910843307106714956183696 * (counter + 1)) / 60)`,
evaluated exactly, in rational arithmetic without the rounding of the machine.
The table the program holds is `Velocity_dbl`, within 1e-6 of these values. -/
def Velocity (counter : Nat) : ℚ :=
  (6.28318530717958647692 * (5725614.1910843307106714956183696 * ((counter : ℚ) + 1)) / 60)

/-- Lines 269-280 as the program computes them, in binary64: the two literals
are rounded, `counter + 1` and `60` are `int` values converted exactly, and
each product and the quotient are rounded. -/
noncomputable def Velocity_dbl (counter : Nat) : ℝ :=
  fl64 (fl64 (fl64 6.28318530717958647692
    * fl64 (fl64 5725614.1910843307106714956183696 * ((counter : ℝ) + 1))) / 60)

/-- The velocity the specification gives for radius sample `i` (0-based):
`2π × (step_radius × (i + 1)) / period` with
`step_radius = full_circumference / (2π × samples)`, full circumference
17987547480, 500 samples and a period of 60, that is
`17987547480 * (i + 1) / (500 * 60)`. -/
def specVelocity (i : Nat) : ℚ := 17987547480 * ((i : ℚ) + 1) / (500 * 60)

/-- Lines 748-772: `double C = 299792458; result4 = sqrt(1 - (v / C) * (v / C));
return result4;`, in exact arithmetic over the reals, without the rounding of
the machine. The function as the program computes it is `GetTimeDilation_dbl`. -/
noncomputable def GetTimeDilation (v : ℝ) : CDouble :=
  let C : ℝ := 299792458
  let result4 := c_sqrt (1 - (v / C) * (v / C))
  result4

/-- Lines 748-772 as the program computes them, in binary64: `C` is the double
299792458, and the quotient, the product, the difference and the square root
are each rounded. -/
noncomputable def GetTimeDilation_dbl (v : ℝ) : CDouble :=
  let C : ℝ := 299792458
  let result4 := c_sqrt_dbl (fl64 (1 - fl64 (fl64 (v / C) * fl64 (v / C))))
  result4

/-- Line 427 on a numeric dilation factor `f` and tick count `n`:
`(f / 60.0) * n`, in exact arithmetic. -/
noncomputable def dilatedTicks (f : ℝ) (n : Int) : ℝ := (f / 60.0) * (n : ℝ)

/-- Line 434, the argument of `round`: `((time_accumulative) * 0.6) * 100`, in
exact arithmetic. -/
noncomputable def scaleUp (time_accumulative : ℝ) : ℝ := ((time_accumulative) * 0.6) * 100

/-- Line 427 on a numeric dilation factor `f` and tick count `n`, in binary64:
`(f / 60.0) * n` with the quotient and the product rounded (`n` is an `int`
converted exactly). -/
noncomputable def dilatedTicks_dbl (f : ℝ) (n : Int) : ℝ := fl64 (fl64 (f / 60.0) * (n : ℝ))

/-- Line 434, the argument of `round`, in binary64:
`((time_accumulative) * 0.6) * 100` with the literal 0.6 and both products
rounded. -/
noncomputable def scaleUp_dbl (time_accumulative : ℝ) : ℝ :=
  fl64 (fl64 ((time_accumulative) * fl64 0.6) * 100)

/-- Line 427:
`time_accumulative = ((GetTimeDilation(Velocity[cnt2]) / 60.0 ) * (sec3600 + min3600));`. -/
noncomputable def time_accumulative (sec3600 min3600 : Int) (cnt2 : Nat) : CDouble :=
  (GetTimeDilation_dbl (Velocity_dbl cnt2)).map
    (fun f => dilatedTicks_dbl f (int_add sec3600 min3600))

/-- Line 434: `time_accumulative_temp = round(((time_accumulative) * 0.6) * 100);`
(`none`: the conversion to `int` is undefined, for NaN or a value out of range). -/
noncomputable def time_accumulative_temp (ta : CDouble) : Option Int :=
  match ta with
  | CDouble.fin x => double_to_int (c_round (scaleUp_dbl x))
  | CDouble.nan => none

/-- Lines 427-449 for one radius sample: the index with which
`td_plotx[cnt2]` and `td_ploty[cnt2]` are read. -/
noncomputable def plotIndex (sec3600 min3600 : Int) (cnt2 : Nat) : Option Int :=
  (time_accumulative_temp (time_accumulative sec3600 min3600 cnt2)).map
    (fun t => (wrap3600 t).time_accumulative_temp)

/-! ## The frame loop of `main` (lines 285-495), numerical part -/

/-- The variables of `main` that live across frames. -/
structure MainState where
  dil : DilationState
  time_accumulative : CDouble

/-- Initial values, lines 185-197. -/
def mainInit : MainState := { dil := initState, time_accumulative := CDouble.fin 0 }

/-- Lines 411-451, `for (cnt2 = 0; cnt2 < T_Radius; cnt2++)` with `T_Radius = 500`:
the value left in `time_accumulative`, and the indices with which the lookup
table is read, in order. -/
noncomputable def radiusDrawLoop (sec3600 min3600 : Int) (ta0 : CDouble) :
    CDouble × List (Option Int) :=
  (List.range 500).foldl
    (fun acc cnt2 =>
      (time_accumulative sec3600 min3600 cnt2, acc.2 ++ [plotIndex sec3600 min3600 cnt2]))
    (ta0, [])

/-- Line 455: `(time_accumulative >= (DBL_MAX * 0.5)) || (min3600 > INT_MAX -7200)`. -/
def typeLimitGuard (time_accumulative : CDouble) (min3600 : Int) : Prop :=
  CDouble.ge time_accumulative ((DBL_MAX : ℝ) * 0.5) ∨ min3600 > int_sub INT_MAX 7200

/-- One frame: the minute counters (lines 394-407) and the radius draw loop
(lines 411-451), for the observed minute `min` and tick position `sec3600`. -/
noncomputable def frame (s : MainState) (min sec3600 : Int) : MainState :=
  let dil := minuteRollover s.dil min
  { dil := dil,
    time_accumulative := (radiusDrawLoop sec3600 dil.min3600 s.time_accumulative).1 }

/-- The guard at the end of the frame (lines 454-459) trips and the run ends. -/
def frameBreaks (s : MainState) (min sec3600 : Int) : Prop :=
  typeLimitGuard (frame s min sec3600).time_accumulative (frame s min sec3600).dil.min3600

/-- States at the start of a frame in a run of the loop from the initial state:
each frame observes a minute in 0..59 and a `sec3600` in 0..3599, and the loop
goes on to another frame only when the guard did not trip. -/
inductive FrameStart : MainState → Prop
  | init : FrameStart mainInit
  | next {s : MainState} (min sec3600 : Int) :
      FrameStart s → 0 ≤ min → min ≤ 59 → 0 ≤ sec3600 → sec3600 ≤ 3599 →
      ¬ frameBreaks s min sec3600 → FrameStart (frame s min sec3600)

open Classical in
/-- The frame loop run on a sequence of observations (minute, sec3600), one per
frame: the states after each executed frame, in order. The frame whose guard
trips (lines 454-459) is the last one executed. -/
noncomputable def framesRun : MainState → List (Int × Int) → List MainState
  | _, [] => []
  | s, obs :: rest =>
    frame s obs.1 obs.2 ::
      (if frameBreaks s obs.1 obs.2 then [] else framesRun (frame s obs.1 obs.2) rest)

/-- The test of line 401 succeeds: the frame executes `min3600 += 3600`. -/
def minuteChanged (s : DilationState) (min : Int) : Prop :=
  (if s.Last_min = -1 then min else s.Last_min) ≠ min

instance (s : DilationState) (min : Int) : Decidable (minuteChanged s min) := by
  unfold minuteChanged; exact inferInstance

/-- Neither `int` addition of the frame wraps: `min3600 += 3600` (when it is
executed) and `sec3600 + min3600` yield the mathematical sum. -/
def frameNoWrap (s : DilationState) (min sec3600 : Int) : Prop :=
  (minuteChanged s min → int_add s.min3600 3600 = s.min3600 + 3600) ∧
  int_add sec3600 (minuteRollover s min).min3600
    = sec3600 + (minuteRollover s min).min3600

instance (s : DilationState) (min sec3600 : Int) : Decidable (frameNoWrap s min sec3600) := by
  unfold frameNoWrap; exact inferInstance

/-! ## Coordinate table generators (lines 516-606) -/

/-- Conversion of a `double` to `int` on assignment: the fractional part is
discarded (truncation toward zero). -/
noncomputable def c_trunc (x : ℝ) : Int := if 0 ≤ x then Int.floor x else Int.ceil x

/-- A `double` stored into an `int` array cell (`none`: the conversion is
undefined, the value being out of the range of `int`). -/
noncomputable def store_double (x : ℝ) : Option Int := double_to_int (c_trunc x)

/-- The x coordinate of a loop body, `midx - (radius * cos((i * 3.14) / d))`,
as stored in an `int` cell. -/
noncomputable def arcX (radius midx : Int) (i : Nat) (d : ℝ) : Option Int :=
  store_double ((midx : ℝ) - ((radius : ℝ) * Real.cos (((i : ℝ) * 3.14) / d)))

/-- The y coordinate of a loop body, `midy - (radius * sin((i * 3.14) / d))`,
as stored in an `int` cell. -/
noncomputable def arcY (radius midy : Int) (i : Nat) (d : ℝ) : Option Int :=
  store_double ((midy : ℝ) - ((radius : ℝ) * Real.sin (((i : ℝ) * 3.14) / d)))

/-- The arrays `secx`, `secy` (a cell is `none` while its value is
indeterminate), the cursor `j`, and the indices written so far, in order. -/
structure PointTable where
  secx : Nat → Option Int
  secy : Nat → Option Int
  j : Nat
  written : List Nat

/-- The statement `secx[j] = x, secy[j++] = y;`. -/
def PointTable.put (t : PointTable) (x y : Option Int) : PointTable :=
  { secx := Function.update t.secx t.j x,
    secy := Function.update t.secy t.j y,
    j := t.j + 1,
    written := t.written ++ [t.j] }

/-- A loop `for (i ...) { secx[j] = midx - (radius * cos((i * 3.14) / d));
secy[j++] = midy - (radius * sin((i * 3.14) / d)); }` over the values `is` of `i`. -/
noncomputable def arcLoop (radius midx midy : Int) (d : ℝ) (is : List Nat)
    (t : PointTable) : PointTable :=
  is.foldl (fun t i => t.put (arcX radius midx i d) (arcY radius midy i d)) t

/-- Lines 516-554, `Calc3600(radius, midx, midy, secx, secy)`. -/
noncomputable def Calc3600 (radius midx midy : Int) (secx secy : Nat → Option Int) :
    PointTable :=
  let t : PointTable := { secx := secx, secy := secy, j := 0, written := [] }
  let t := t.put (some midx) (some (int_sub midy radius))
  let t := arcLoop radius midx midy 1800 (List.range' 901 899) t
  let t := t.put (some (int_add midx radius)) (some midy)
  let t := arcLoop radius midx midy 1800 (List.range' 1801 899) t
  let t := t.put (some midx) (some (int_add midy radius))
  let t := arcLoop radius midx midy 1800 (List.range' 2701 899) t
  let t := t.put (some (int_sub midx radius)) (some midy)
  let t := arcLoop radius midx midy 1800 (List.range' 1 899) t
  t

/-- The arrays of rows `secx`, `secy` of `Calc3600_td`, the cursor `j`, and the
cells (row, index) written so far, in order. -/
structure RadiusTable where
  secx : Nat → Nat → Option Int
  secy : Nat → Nat → Option Int
  j : Nat
  written : List (Nat × Nat)

/-- The statement `secx[td_count1][j] = x, secy[td_count1][j++] = y;`. -/
def RadiusTable.put (t : RadiusTable) (td_count1 : Nat) (x y : Option Int) : RadiusTable :=
  { secx := Function.update t.secx td_count1 (Function.update (t.secx td_count1) t.j x),
    secy := Function.update t.secy td_count1 (Function.update (t.secy td_count1) t.j y),
    j := t.j + 1,
    written := t.written ++ [(td_count1, t.j)] }

/-- A loop `for (i ...) { secx[td_count1][j] = midx - (td_count1 * cos((i * 3.14) / 1800));
secy[td_count1][j++] = midy - (td_count1 * sin((i * 3.14) / 1800)); }`. -/
noncomputable def arcLoop_td (td_count1 : Nat) (midx midy : Int) (is : List Nat)
    (t : RadiusTable) : RadiusTable :=
  is.foldl
    (fun t i => t.put td_count1 (arcX (td_count1 : Int) midx i 1800)
      (arcY (td_count1 : Int) midy i 1800)) t

/-- Lines 569-603, the body of the loop over `td_count1` in `Calc3600_td`. -/
noncomputable def Calc3600_td_body (midx midy : Int) (t : RadiusTable) (td_count1 : Nat) :
    RadiusTable :=
  let t : RadiusTable := { t with j := 0 }
  let t := t.put td_count1 (some midx) (some (int_sub midy (td_count1 : Int)))
  let t := arcLoop_td td_count1 midx midy (List.range' 901 899) t
  let t := t.put td_count1 (some (int_add midx (td_count1 : Int))) (some midy)
  let t := arcLoop_td td_count1 midx midy (List.range' 1801 899) t
  let t := t.put td_count1 (some midx) (some (int_add midy (td_count1 : Int)))
  let t := arcLoop_td td_count1 midx midy (List.range' 2701 899) t
  let t := t.put td_count1 (some (int_sub midx (td_count1 : Int))) (some midy)
  let t := arcLoop_td td_count1 midx midy (List.range' 1 899) t
  t

/-- Lines 561-606, `Calc3600_td(radius, midx, midy, secx, secy)`:
`radius = radius;` and then the loop `for (td_count1 = 0; td_count1 < 500; td_count1++)`. -/
noncomputable def Calc3600_td (radius midx midy : Int) (secx secy : Nat → Nat → Option Int) :
    RadiusTable :=
  let _radius := radius
  (List.range 500).foldl (Calc3600_td_body midx midy)
    { secx := secx, secy := secy, j := 0, written := [] }

/-- The 3600 points of `Calc3600` in the order in which they are written: each
quadrant is one cardinal point followed by 899 loop points. -/
noncomputable def Calc3600_points (radius midx midy : Int) : List (Option Int × Option Int) :=
  [(some midx, some (int_sub midy radius))]
    ++ (List.range' 901 899).map (fun i => (arcX radius midx i 1800, arcY radius midy i 1800))
    ++ [(some (int_add midx radius), some midy)]
    ++ (List.range' 1801 899).map (fun i => (arcX radius midx i 1800, arcY radius midy i 1800))
    ++ [(some midx, some (int_add midy radius))]
    ++ (List.range' 2701 899).map (fun i => (arcX radius midx i 1800, arcY radius midy i 1800))
    ++ [(some (int_sub midx radius), some midy)]
    ++ (List.range' 1 899).map (fun i => (arcX radius midx i 1800, arcY radius midy i 1800))

/-- A sequence of statements `secx[j] = x, secy[j++] = y;`. -/
def PointTable.putAll (t : PointTable) (vs : List (Option Int × Option Int)) : PointTable :=
  vs.foldl (fun t v => t.put v.1 v.2) t

/-- A sequence of statements `secx[td_count1][j] = x, secy[td_count1][j++] = y;`. -/
def RadiusTable.putAll (t : RadiusTable) (td_count1 : Nat)
    (vs : List (Option Int × Option Int)) : RadiusTable :=
  vs.foldl (fun t v => t.put td_count1 v.1 v.2) t

/-! ## Coordinate table generators (lines 612-741) -/

/-- Lines 612-650, `Calc360(radius, midx, midy, secx, secy)`. -/
noncomputable def Calc360 (radius midx midy : Int) (secx secy : Nat → Option Int) :
    PointTable :=
  let t : PointTable := { secx := secx, secy := secy, j := 0, written := [] }
  let t := t.put (some midx) (some (int_sub midy radius))
  let t := arcLoop radius midx midy 180 (List.range' 91 89) t
  let t := t.put (some (int_add midx radius)) (some midy)
  let t := arcLoop radius midx midy 180 (List.range' 181 89) t
  let t := t.put (some midx) (some (int_add midy radius))
  let t := arcLoop radius midx midy 180 (List.range' 271 89) t
  let t := t.put (some (int_sub midx radius)) (some midy)
  let t := arcLoop radius midx midy 180 (List.range' 1 89) t
  t

/-- Lines 662-702, `minSecCalc(radius, midx, midy, secx, secy)`: the loops run
`for (i = 96; i < 180; i = i + 6)`, `for (i = 186; i < 270; i = i + 6)`,
`for (i = 276; i < 360; i = i + 6)` and `for (i = 6; i < 90; i = i + 6)`. -/
noncomputable def minSecCalc (radius midx midy : Int) (secx secy : Nat → Option Int) :
    PointTable :=
  let t : PointTable := { secx := secx, secy := secy, j := 0, written := [] }
  let t := t.put (some midx) (some (int_sub midy radius))
  let t := arcLoop radius midx midy 180 (List.range' 96 14 6) t
  let t := t.put (some (int_add midx radius)) (some midy)
  let t := arcLoop radius midx midy 180 (List.range' 186 14 6) t
  let t := t.put (some midx) (some (int_add midy radius))
  let t := arcLoop radius midx midy 180 (List.range' 276 14 6) t
  let t := t.put (some (int_sub midx radius)) (some midy)
  let t := arcLoop radius midx midy 180 (List.range' 6 14 6) t
  t

/-- The arrays `x`, `y` of `calcPoints` (a cell is `none` while its value is
indeterminate). -/
structure HourPoints where
  x : Nat → Option Int
  y : Nat → Option Int

/-- C `a + b` on `int` where `b` may be indeterminate. -/
def int_add_cell (a : Int) (b : Option Int) : Option Int := b.map (fun v => int_add a v)

/-- C `a - b` on `int` where `b` may be indeterminate. -/
def int_sub_cell (a : Int) (b : Option Int) : Option Int := b.map (fun v => int_sub a v)

/-- Lines 725 and 734: `(int) ((radius / 2) * sqrt(3))`, with `radius / 2` the
`int` quotient. -/
noncomputable def halfRadiusSqrt3 (radius : Int) : Option Int :=
  store_double (((int_div radius 2 : Int) : ℝ) * Real.sqrt 3)

/-- Lines 714-741, `calcPoints(radius, midx, midy, x, y)`. -/
noncomputable def calcPoints (radius midx midy : Int) (x y : Nat → Option Int) : HourPoints :=
  let x := Function.update x 0 (some midx)
  let y := Function.update y 0 (some (int_sub midy radius))
  let x := Function.update x 6 (some midx)
  let y := Function.update y 6 (some (int_add midy radius))
  let x := Function.update x 3 (some (int_add midx radius))
  let y := Function.update y 3 (some midy)
  let x := Function.update x 9 (some (int_sub midx radius))
  let y := Function.update y 9 (some midy)
  let x1 : Option Int := halfRadiusSqrt3 radius
  let y1 : Int := int_div radius 2
  let x := Function.update x 2 (int_add_cell midx x1)
  let y := Function.update y 2 (some (int_sub midy y1))
  let x := Function.update x 4 (int_add_cell midx x1)
  let y := Function.update y 4 (some (int_add midy y1))
  let x := Function.update x 8 (int_sub_cell midx x1)
  let y := Function.update y 8 (some (int_add midy y1))
  let x := Function.update x 10 (int_sub_cell midx x1)
  let y := Function.update y 10 (some (int_sub midy y1))
  let x1 : Int := int_div radius 2
  let y1 : Option Int := halfRadiusSqrt3 radius
  let x := Function.update x 1 (some (int_add midx x1))
  let y := Function.update y 1 (int_sub_cell midy y1)
  let x := Function.update x 5 (some (int_add midx x1))
  let y := Function.update y 5 (int_add_cell midy y1)
  let x := Function.update x 7 (some (int_sub midx x1))
  let y := Function.update y 7 (int_add_cell midy y1)
  let x := Function.update x 11 (some (int_sub midx x1))
  let y := Function.update y 11 (int_sub_cell midy y1)
  { x := x, y := y }

/-- The point (x, y) held at index `k` of the arrays `secx`, `secy`. -/
def PointTable.point (t : PointTable) (k : Nat) : Option Int × Option Int :=
  (t.secx k, t.secy k)

/-- The point (x, y) held at index `k` of the arrays `x`, `y`. -/
def HourPoints.point (t : HourPoints) (k : Nat) : Option Int × Option Int :=
  (t.x k, t.y k)

/-- The point (x, y) held at index `k` of row `r`. -/
def RadiusTable.point (t : RadiusTable) (r k : Nat) : Option Int × Option Int :=
  (t.secx r k, t.secy r k)

/-- The entries 0, N/4, N/2 and 3N/4 of a table of `N` points. -/
def cardinalPoints (point : Nat → Option Int × Option Int) (N : Nat) :
    List (Option Int × Option Int) :=
  [point 0, point (N / 4), point (N / 2), point (3 * N / 4)]

/-- The points of a four-quadrant generator in the order in which they are
written: each quadrant is one cardinal point followed by the loop points for
the values `q1`, `q2`, `q3`, `q4` of `i`. -/
noncomputable def quadrantPoints (radius midx midy : Int) (d : ℝ) (q1 q2 q3 q4 : List Nat) :
    List (Option Int × Option Int) :=
  [(some midx, some (int_sub midy radius))]
    ++ q1.map (fun i => (arcX radius midx i d, arcY radius midy i d))
    ++ [(some (int_add midx radius), some midy)]
    ++ q2.map (fun i => (arcX radius midx i d, arcY radius midy i d))
    ++ [(some midx, some (int_add midy radius))]
    ++ q3.map (fun i => (arcX radius midx i d, arcY radius midy i d))
    ++ [(some (int_sub midx radius), some midy)]
    ++ q4.map (fun i => (arcX radius midx i d, arcY radius midy i d))

/-! ## The tick position of the real clock (lines 374-384) -/

/-- Line 376: `msec = (int)(tv.tv_usec /16667);`. -/
def msec_of_usec (tv_usec : Int) : Int := wrapInt32 (Int.tdiv tv_usec 16667)

/-- Line 380: `sec3600 = (data->tm_sec * 60 +msec) % 3600;` (`%` is the
remainder of the truncated division). -/
def sec3600_of_time (tm_sec msec : Int) : Int :=
  Int.tmod (int_add (int_mul tm_sec 60) msec) 3600

/-! ## Basic facts on machine integers -/

theorem wrapInt32_of_inRange {x : Int} (h : InIntRange x) : wrapInt32 x = x := by
  unfold InIntRange INT_MIN INT_MAX at h
  unfold wrapInt32
  omega

theorem wrapInt32_add_wrap (a b : Int) : wrapInt32 (wrapInt32 a + b) = wrapInt32 (a + b) := by
  unfold wrapInt32
  omega

theorem wrapInt32_inRange (x : Int) : InIntRange (wrapInt32 x) := by
  unfold InIntRange INT_MIN INT_MAX wrapInt32
  omega

/-! ## Rounding to binary64 -/

theorem roundHalfEven_close (y : ℝ) : |(roundHalfEven y : ℝ) - y| ≤ 1 / 2 := by
  have h1 := Int.floor_le y
  have h2 := Int.lt_floor_add_one y
  unfold roundHalfEven
  split_ifs with ha hb hc
  · rw [abs_le]; constructor <;> linarith
  · rw [abs_le]; push_cast; constructor <;> linarith
  · rw [abs_le]; constructor <;> linarith
  · rw [abs_le]; push_cast; constructor <;> linarith

theorem roundHalfEven_eq_of_close (y : ℝ) (m : Int) (h : |y - (m : ℝ)| < 1 / 2) :
    roundHalfEven y = m := by
  have hc := roundHalfEven_close y
  rw [abs_lt] at h
  rw [abs_le] at hc
  have h1 : ((roundHalfEven y - m : Int) : ℝ) < 1 := by push_cast; linarith
  have h2 : (-1 : ℝ) < ((roundHalfEven y - m : Int) : ℝ) := by push_cast; linarith
  have h3 : roundHalfEven y - m < 1 := by exact_mod_cast h1
  have h4 : -1 < roundHalfEven y - m := by exact_mod_cast h2
  omega

theorem roundHalfEven_intCast (m : Int) : roundHalfEven (m : ℝ) = m :=
  roundHalfEven_eq_of_close _ m (by simp)

theorem roundHalfEven_zero : roundHalfEven 0 = 0 := by
  have h := roundHalfEven_intCast 0
  simpa using h

theorem cast_two_pow_53 : (((2 : Int) ^ 53 : Int) : ℝ) = (2 : ℝ) ^ (53 : Int) := by norm_num

theorem cast_two_pow_52 : (((2 : Int) ^ 52 : Int) : ℝ) = (2 : ℝ) ^ (52 : Int) := by norm_num

theorem zpow_53_mul (b : Int) : (2 : ℝ) ^ (53 : Int) * (2 : ℝ) ^ (b - 52) = (2 : ℝ) ^ (b + 1) := by
  rw [← zpow_add₀ (by norm_num : (2 : ℝ) ≠ 0)]
  congr 1
  ring

theorem zpow_52_mul (b : Int) : (2 : ℝ) ^ (52 : Int) * (2 : ℝ) ^ (b - 52) = (2 : ℝ) ^ b := by
  rw [← zpow_add₀ (by norm_num : (2 : ℝ) ≠ 0)]
  congr 1
  ring

theorem roundHalfEven_mono {y z : ℝ} (h : y ≤ z) : roundHalfEven y ≤ roundHalfEven z := by
  by_contra hlt
  push_neg at hlt
  have hy := abs_le.mp (roundHalfEven_close y)
  have hz := abs_le.mp (roundHalfEven_close z)
  have h1 : (roundHalfEven z : ℝ) + 1 ≤ (roundHalfEven y : ℝ) := by exact_mod_cast hlt
  have hyz : y = z := by linarith [hy.1, hy.2, hz.1, hz.2]
  rw [hyz] at hlt
  exact lt_irrefl _ hlt

theorem ulp_pos (x : ℝ) : 0 < ulp x := by
  unfold ulp
  positivity

theorem binade_eq (x : ℝ) (k : Int) (hk : -1022 ≤ k) (hlo : (2 : ℝ) ^ k ≤ |x|)
    (hhi : |x| < (2 : ℝ) ^ (k + 1)) : binade x = k := by
  have hpos : 0 < |x| := lt_of_lt_of_le (by positivity) hlo
  have h1 : k ≤ Int.log 2 |x| := by
    rw [← Int.zpow_le_iff_le_log (by norm_num) hpos]
    simpa using hlo
  have h2 : Int.log 2 |x| < k + 1 := by
    rw [← Int.lt_zpow_iff_log_lt (by norm_num) hpos]
    simpa using hhi
  unfold binade
  omega

theorem abs_lt_zpow_binade (x : ℝ) : |x| < (2 : ℝ) ^ (binade x + 1) := by
  have h := Int.lt_zpow_succ_log_self (by norm_num : 1 < 2) (|x|)
  have h2 : ((2 : ℕ) : ℝ) ^ (Int.log 2 |x| + 1) ≤ (2 : ℝ) ^ (binade x + 1) := by
    rw [Nat.cast_ofNat]
    apply zpow_le_zpow_right₀ (by norm_num)
    unfold binade
    omega
  exact lt_of_lt_of_le h h2

theorem zpow_binade_le (x : ℝ) (h : -1022 < binade x) (hx : x ≠ 0) :
    (2 : ℝ) ^ binade x ≤ |x| := by
  have hpos : 0 < |x| := abs_pos.mpr hx
  have hb : binade x = Int.log 2 |x| := by
    unfold binade at h ⊢
    omega
  rw [hb]
  have := Int.zpow_log_le_self (by norm_num : 1 < 2) hpos
  simpa using this

theorem binade_mono {x y : ℝ} (hx : 0 < |x|) (h : |x| ≤ |y|) : binade x ≤ binade y := by
  have := Int.log_mono_right (b := 2) hx h
  unfold binade
  omega

theorem fl64_zero : fl64 0 = 0 := by
  unfold fl64
  rw [zero_div, roundHalfEven_zero]
  simp

theorem fl64_nonneg {x : ℝ} (h : 0 ≤ x) : 0 ≤ fl64 x := by
  unfold fl64
  have h1 : 0 ≤ x / ulp x := div_nonneg h (le_of_lt (ulp_pos x))
  have h2 : roundHalfEven 0 ≤ roundHalfEven (x / ulp x) := roundHalfEven_mono h1
  rw [roundHalfEven_zero] at h2
  have h3 : (0 : ℝ) ≤ (roundHalfEven (x / ulp x) : ℝ) := by exact_mod_cast h2
  exact mul_nonneg h3 (le_of_lt (ulp_pos x))

/-- Evaluation of a rounding. -/
theorem fl64_eval (x : ℝ) (k m : Int) (hk : -1022 ≤ k) (hlo : (2 : ℝ) ^ k ≤ |x|)
    (hhi : |x| < (2 : ℝ) ^ (k + 1))
    (hclose : |x - (m : ℝ) * (2 : ℝ) ^ (k - 52)| < (2 : ℝ) ^ (k - 52) / 2) :
    fl64 x = (m : ℝ) * (2 : ℝ) ^ (k - 52) := by
  have hb := binade_eq x k hk hlo hhi
  have hu : ulp x = (2 : ℝ) ^ (k - 52) := by unfold ulp; rw [hb]
  have hupos : (0 : ℝ) < (2 : ℝ) ^ (k - 52) := by positivity
  unfold fl64
  rw [hu]
  have hr : roundHalfEven (x / (2 : ℝ) ^ (k - 52)) = m := by
    apply roundHalfEven_eq_of_close
    have : x / (2 : ℝ) ^ (k - 52) - (m : ℝ)
        = (x - (m : ℝ) * (2 : ℝ) ^ (k - 52)) / (2 : ℝ) ^ (k - 52) := by
      rw [sub_div, mul_div_assoc, div_self (ne_of_gt hupos), mul_one]
    rw [this, abs_div, abs_of_pos hupos, div_lt_iff₀ hupos]
    linarith
  rw [hr]

theorem fl64_le_zpow {x : ℝ} (h0 : 0 ≤ x) : fl64 x ≤ (2 : ℝ) ^ (binade x + 1) := by
  have hu := ulp_pos x
  have hlt := abs_lt_zpow_binade x
  rw [abs_of_nonneg h0] at hlt
  have hq : x / ulp x ≤ (((2 : Int) ^ 53 : Int) : ℝ) := by
    rw [div_le_iff₀ hu, cast_two_pow_53]
    unfold ulp
    rw [zpow_53_mul]
    exact le_of_lt hlt
  have hr := roundHalfEven_mono hq
  rw [roundHalfEven_intCast] at hr
  have hr2 : (roundHalfEven (x / ulp x) : ℝ) ≤ (((2 : Int) ^ 53 : Int) : ℝ) := by
    exact_mod_cast hr
  rw [cast_two_pow_53] at hr2
  unfold fl64
  calc (roundHalfEven (x / ulp x) : ℝ) * ulp x
      ≤ (2 : ℝ) ^ (53 : Int) * ulp x := mul_le_mul_of_nonneg_right hr2 (le_of_lt hu)
    _ = (2 : ℝ) ^ (binade x + 1) := by
      unfold ulp
      rw [zpow_53_mul]

theorem zpow_le_fl64 {x : ℝ} (h0 : 0 < x) (hb : -1022 < binade x) :
    (2 : ℝ) ^ binade x ≤ fl64 x := by
  have hu := ulp_pos x
  have hle := zpow_binade_le x hb (ne_of_gt h0)
  rw [abs_of_pos h0] at hle
  have hq : (((2 : Int) ^ 52 : Int) : ℝ) ≤ x / ulp x := by
    rw [le_div_iff₀ hu, cast_two_pow_52]
    unfold ulp
    rw [zpow_52_mul]
    exact hle
  have hr := roundHalfEven_mono hq
  rw [roundHalfEven_intCast] at hr
  have hr2 : (((2 : Int) ^ 52 : Int) : ℝ) ≤ (roundHalfEven (x / ulp x) : ℝ) := by
    exact_mod_cast hr
  rw [cast_two_pow_52] at hr2
  unfold fl64
  calc (2 : ℝ) ^ binade x = (2 : ℝ) ^ (52 : Int) * ulp x := by
        unfold ulp
        rw [zpow_52_mul]
    _ ≤ (roundHalfEven (x / ulp x) : ℝ) * ulp x :=
        mul_le_mul_of_nonneg_right hr2 (le_of_lt hu)

/-- Rounding is monotone on the non-negative numbers. -/
theorem fl64_mono {x y : ℝ} (h0 : 0 ≤ x) (h : x ≤ y) : fl64 x ≤ fl64 y := by
  rcases eq_or_lt_of_le h0 with hx0 | hxpos
  · rw [← hx0, fl64_zero]
    exact fl64_nonneg (le_trans h0 h)
  · have hypos : 0 < y := lt_of_lt_of_le hxpos h
    have hbm : binade x ≤ binade y := by
      apply binade_mono (abs_pos.mpr (ne_of_gt hxpos))
      rw [abs_of_pos hxpos, abs_of_pos hypos]
      exact h
    rcases eq_or_lt_of_le hbm with heq | hlt
    · have hu : ulp x = ulp y := by unfold ulp; rw [heq]
      unfold fl64
      rw [hu]
      have hq : x / ulp y ≤ y / ulp y := div_le_div_of_nonneg_right h (le_of_lt (ulp_pos y))
      have hr := roundHalfEven_mono hq
      have hr2 : (roundHalfEven (x / ulp y) : ℝ) ≤ (roundHalfEven (y / ulp y) : ℝ) := by
        exact_mod_cast hr
      exact mul_le_mul_of_nonneg_right hr2 (le_of_lt (ulp_pos y))
    · have h1 := fl64_le_zpow h0
      have hby : -1022 < binade y := by
        have : -1022 ≤ binade x := by unfold binade; omega
        omega
      have h2 := zpow_le_fl64 hypos hby
      have h3 : (2 : ℝ) ^ (binade x + 1) ≤ (2 : ℝ) ^ binade y :=
        zpow_le_zpow_right₀ (by norm_num) (by omega)
      linarith

/-- Error of a rounding. -/
theorem fl64_error (x : ℝ) : |fl64 x - x| ≤ |x| / 2 ^ 53 + 1 / 2 ^ 1075 := by
  by_cases hx : x = 0
  · rw [hx, fl64_zero]
    simp
  have hu := ulp_pos x
  have hc := roundHalfEven_close (x / ulp x)
  have h1 : |fl64 x - x| ≤ ulp x / 2 := by
    unfold fl64
    have : (roundHalfEven (x / ulp x) : ℝ) * ulp x - x
        = ((roundHalfEven (x / ulp x) : ℝ) - x / ulp x) * ulp x := by
      rw [sub_mul, div_mul_cancel₀ x (ne_of_gt hu)]
    rw [this, abs_mul, abs_of_pos hu]
    calc |(roundHalfEven (x / ulp x) : ℝ) - x / ulp x| * ulp x ≤ 1 / 2 * ulp x :=
          mul_le_mul_of_nonneg_right hc (le_of_lt hu)
      _ = ulp x / 2 := by ring
  have h2 : ulp x ≤ |x| / 2 ^ 52 + 1 / 2 ^ 1074 := by
    by_cases hb : -1022 < binade x
    · have hle := zpow_binade_le x hb hx
      have hux : ulp x = (2 : ℝ) ^ binade x / 2 ^ 52 := by
        unfold ulp
        rw [zpow_sub₀ (by norm_num : (2 : ℝ) ≠ 0)]
        norm_num
      rw [hux]
      have hpos : (0 : ℝ) < 1 / 2 ^ 1074 := by positivity
      have : (2 : ℝ) ^ binade x / 2 ^ 52 ≤ |x| / 2 ^ 52 :=
        div_le_div_of_nonneg_right hle (by positivity)
      linarith
    · have hbe : binade x = -1022 := by
        have : -1022 ≤ binade x := by unfold binade; omega
        omega
      have hux : ulp x = 1 / 2 ^ 1074 := by
        unfold ulp
        rw [hbe]
        norm_num [zpow_neg]
      rw [hux]
      have : 0 ≤ |x| / 2 ^ 52 := by positivity
      linarith
  calc |fl64 x - x| ≤ ulp x / 2 := h1
    _ ≤ (|x| / 2 ^ 52 + 1 / 2 ^ 1074) / 2 := by linarith
    _ = |x| / 2 ^ 53 + 1 / 2 ^ 1075 := by ring

theorem fl64_eval_pos (x y : ℝ) (k m : Int) (hk : -1022 ≤ k) (hlo : (2 : ℝ) ^ k ≤ x)
    (hhi : x < (2 : ℝ) ^ (k + 1)) (hy : y = (m : ℝ) * (2 : ℝ) ^ (k - 52))
    (h1 : y - (2 : ℝ) ^ (k - 52) / 2 < x) (h2 : x < y + (2 : ℝ) ^ (k - 52) / 2) :
    fl64 x = y := by
  have hx : 0 < x := lt_of_lt_of_le (by positivity) hlo
  rw [hy]
  apply fl64_eval x k m hk
  · rw [abs_of_pos hx]; exact hlo
  · rw [abs_of_pos hx]; exact hhi
  · rw [← hy, abs_lt]
    constructor <;> linarith

theorem fl64_sqrt_eval (r y : ℝ) (k m : Int) (hk : -1022 ≤ k)
    (hy : y = (m : ℝ) * (2 : ℝ) ^ (k - 52)) (hm1 : 2 ^ 52 < m) (hm2 : m < 2 ^ 53)
    (h1 : (y - (2 : ℝ) ^ (k - 52) / 2) ^ 2 < r) (h2 : r < (y + (2 : ℝ) ^ (k - 52) / 2) ^ 2) :
    fl64 (Real.sqrt r) = y := by
  have hu : (0 : ℝ) < (2 : ℝ) ^ (k - 52) := by positivity
  have hm1r : ((2 : ℝ) ^ (52 : Int)) + 1 ≤ (m : ℝ) := by
    have : (2 : Int) ^ 52 + 1 ≤ m := by omega
    have h : (((2 : Int) ^ 52 + 1 : Int) : ℝ) ≤ (m : ℝ) := by exact_mod_cast this
    rw [Int.cast_add, cast_two_pow_52] at h
    simpa using h
  have hm2r : (m : ℝ) + 1 ≤ (2 : ℝ) ^ (53 : Int) := by
    have : m + 1 ≤ (2 : Int) ^ 53 := by omega
    have h : ((m + 1 : Int) : ℝ) ≤ (((2 : Int) ^ 53 : Int) : ℝ) := by exact_mod_cast this
    rw [cast_two_pow_53] at h
    simpa using h
  have hk0 : (2 : ℝ) ^ k = (2 : ℝ) ^ (52 : Int) * (2 : ℝ) ^ (k - 52) := (zpow_52_mul k).symm
  have hk1 : (2 : ℝ) ^ (k + 1) = (2 : ℝ) ^ (53 : Int) * (2 : ℝ) ^ (k - 52) := (zpow_53_mul k).symm
  have hpos : 0 < y - (2 : ℝ) ^ (k - 52) / 2 := by
    rw [hy]
    have h52 : (0 : ℝ) < (2 : ℝ) ^ (52 : Int) := by positivity
    nlinarith
  have hs1 : y - (2 : ℝ) ^ (k - 52) / 2 < Real.sqrt r := by
    rw [Real.lt_sqrt (le_of_lt hpos)]
    exact h1
  have hs2 : Real.sqrt r < y + (2 : ℝ) ^ (k - 52) / 2 := by
    rw [Real.sqrt_lt' (by linarith)]
    exact h2
  apply fl64_eval_pos (Real.sqrt r) y k m hk _ _ hy hs1 hs2
  · rw [hk0]
    rw [hy] at hs1
    nlinarith
  · rw [hk1]
    rw [hy] at hs2
    nlinarith

theorem roundHalfEven_tie_above (m : Int) (hm : m % 2 = 0) :
    roundHalfEven ((m : ℝ) + 1 / 2) = m := by
  have hf : Int.floor ((m : ℝ) + 1 / 2) = m := by
    rw [Int.floor_eq_iff]
    constructor <;> linarith
  unfold roundHalfEven
  rw [hf]
  have h1 : ¬ ((m : ℝ) + 1 / 2 - (m : ℝ) < 1 / 2) := by
    rw [add_sub_cancel_left]; exact lt_irrefl _
  have h2 : ¬ ((1 : ℝ) / 2 < (m : ℝ) + 1 / 2 - (m : ℝ)) := by
    rw [add_sub_cancel_left]; exact lt_irrefl _
  rw [if_neg h1, if_neg h2, if_pos hm]

theorem roundHalfEven_tie_below (m : Int) (hm : m % 2 = 0) :
    roundHalfEven ((m : ℝ) - 1 / 2) = m := by
  have hf : Int.floor ((m : ℝ) - 1 / 2) = m - 1 := by
    rw [Int.floor_eq_iff]
    push_cast
    constructor <;> linarith
  unfold roundHalfEven
  rw [hf]
  have h1 : ¬ ((m : ℝ) - 1 / 2 - ((m - 1 : Int) : ℝ) < 1 / 2) := by
    push_cast
    intro h
    linarith
  have h2 : ¬ ((1 : ℝ) / 2 < (m : ℝ) - 1 / 2 - ((m - 1 : Int) : ℝ)) := by
    push_cast
    intro h
    linarith
  have h3 : ¬ ((m - 1) % 2 = 0) := by omega
  rw [if_neg h1, if_neg h2, if_neg h3]
  omega

theorem fl64_eval_tie_above (x y : ℝ) (k m : Int) (hk : -1022 ≤ k) (hlo : (2 : ℝ) ^ k ≤ x)
    (hhi : x < (2 : ℝ) ^ (k + 1)) (hy : y = (m : ℝ) * (2 : ℝ) ^ (k - 52))
    (hm : m % 2 = 0) (htie : x = y + (2 : ℝ) ^ (k - 52) / 2) : fl64 x = y := by
  have hx : 0 < x := lt_of_lt_of_le (by positivity) hlo
  have hb := binade_eq x k hk (by rw [abs_of_pos hx]; exact hlo)
    (by rw [abs_of_pos hx]; exact hhi)
  have hu : ulp x = (2 : ℝ) ^ (k - 52) := by unfold ulp; rw [hb]
  have hupos : (0 : ℝ) < (2 : ℝ) ^ (k - 52) := by positivity
  have hq : x / (2 : ℝ) ^ (k - 52) = (m : ℝ) + 1 / 2 := by
    rw [htie, hy, add_div, mul_div_assoc, div_self (ne_of_gt hupos), mul_one, div_div,
      mul_comm, ← div_div, div_self (ne_of_gt hupos)]
  unfold fl64
  rw [hu, hq, roundHalfEven_tie_above m hm, hy]

theorem fl64_eval_tie_below (x y : ℝ) (k m : Int) (hk : -1022 ≤ k) (hlo : (2 : ℝ) ^ k ≤ x)
    (hhi : x < (2 : ℝ) ^ (k + 1)) (hy : y = (m : ℝ) * (2 : ℝ) ^ (k - 52))
    (hm : m % 2 = 0) (htie : x = y - (2 : ℝ) ^ (k - 52) / 2) : fl64 x = y := by
  have hx : 0 < x := lt_of_lt_of_le (by positivity) hlo
  have hb := binade_eq x k hk (by rw [abs_of_pos hx]; exact hlo)
    (by rw [abs_of_pos hx]; exact hhi)
  have hu : ulp x = (2 : ℝ) ^ (k - 52) := by unfold ulp; rw [hb]
  have hupos : (0 : ℝ) < (2 : ℝ) ^ (k - 52) := by positivity
  have hq : x / (2 : ℝ) ^ (k - 52) = (m : ℝ) - 1 / 2 := by
    rw [htie, hy, sub_div, mul_div_assoc, div_self (ne_of_gt hupos), mul_one, div_div,
      mul_comm, ← div_div, div_self (ne_of_gt hupos)]
  unfold fl64
  rw [hu, hq, roundHalfEven_tie_below m hm, hy]

/-! ## Roundings of the program evaluated -/

theorem fl64_two_pi : fl64 (6.28318530717958647692) = 884279719003555 / 2 ^ 47 :=
  fl64_eval_pos _ _ (2) 7074237752028440 (by norm_num) (by norm_num) (by norm_num) (by norm_num)
    (by norm_num) (by norm_num)

theorem fl64_radius_step : fl64 (5725614.1910843307106714956183696) = 3073915712527587 / 2 ^ 29 :=
  fl64_eval_pos _ _ (22) 6147831425055174 (by norm_num) (by norm_num) (by norm_num) (by norm_num)
    (by norm_num) (by norm_num)

theorem fl64_lit_06 : fl64 (0.6) = 5404319552844595 / 2 ^ 53 :=
  fl64_eval_pos _ _ (-1) 5404319552844595 (by norm_num) (by norm_num) (by norm_num) (by norm_num)
    (by norm_num) (by norm_num)

theorem fl64_inv60 : fl64 (1 / 60.0) = 4803839602528529 / 2 ^ 58 :=
  fl64_eval_pos _ _ (-6) 4803839602528529 (by norm_num) (by norm_num) (by norm_num) (by norm_num)
    (by norm_num) (by norm_num)

theorem fl64_step_499 : fl64 (3073915712527587 / 2 ^ 29 * (499 + 1)) = 6003741626030443 / 2 ^ 21 :=
  fl64_eval_pos _ _ (31) 6003741626030443 (by norm_num) (by norm_num) (by norm_num) (by norm_num)
    (by norm_num) (by norm_num)

theorem fl64_circ_499 : fl64 (884279719003555 / 2 ^ 47 * (6003741626030443 / 2 ^ 21)) = 17987547480 :=
  fl64_eval_pos _ _ (34) 4715327646597120 (by norm_num) (by norm_num) (by norm_num) (by norm_num)
    (by norm_num) (by norm_num)

theorem fl64_vel_499 : fl64 (17987547480 / 60) = 299792458 :=
  fl64_eval_pos _ _ (28) 5029682823036928 (by norm_num) (by norm_num) (by norm_num) (by norm_num)
    (by norm_num) (by norm_num)

theorem fl64_step_0 : fl64 (3073915712527587 / 2 ^ 29 * (0 + 1)) = 3073915712527587 / 2 ^ 29 :=
  fl64_eval_pos _ _ (22) 6147831425055174 (by norm_num) (by norm_num) (by norm_num) (by norm_num)
    (by norm_num) (by norm_num)

theorem fl64_circ_0 : fl64 (884279719003555 / 2 ^ 47 * (3073915712527587 / 2 ^ 29)) = 4828495510115451 / 2 ^ 27 :=
  fl64_eval_pos _ _ (25) 4828495510115451 (by norm_num) (by norm_num) (by norm_num) (by norm_num)
    (by norm_num) (by norm_num)

theorem fl64_vel_0 : fl64 (4828495510115451 / 2 ^ 27 / 60) = 2575197605394907 / 2 ^ 32 :=
  fl64_eval_pos _ _ (19) 5150395210789814 (by norm_num) (by norm_num) (by norm_num) (by norm_num)
    (by norm_num) (by norm_num)

theorem fl64_step_2 : fl64 (3073915712527587 / 2 ^ 29 * (2 + 1)) = 1152718392197845 / 2 ^ 26 :=
  fl64_eval_tie_above _ _ (24) 4610873568791380 (by norm_num) (by norm_num) (by norm_num) (by norm_num)
    (by decide) (by norm_num)

theorem fl64_circ_2 : fl64 (884279719003555 / 2 ^ 47 * (1152718392197845 / 2 ^ 26)) = 7242743265173175 / 2 ^ 26 :=
  fl64_eval_pos _ _ (26) 7242743265173175 (by norm_num) (by norm_num) (by norm_num) (by norm_num)
    (by norm_num) (by norm_num)

theorem fl64_vel_2 : fl64 (7242743265173175 / 2 ^ 26 / 60) = 482849551011545 / 2 ^ 28 :=
  fl64_eval_pos _ _ (20) 7725592816184720 (by norm_num) (by norm_num) (by norm_num) (by norm_num)
    (by norm_num) (by norm_num)

theorem fl64_step_41 : fl64 (3073915712527587 / 2 ^ 29 * (41 + 1)) = 2017257186346229 / 2 ^ 23 :=
  fl64_eval_pos _ _ (27) 8069028745384916 (by norm_num) (by norm_num) (by norm_num) (by norm_num)
    (by norm_num) (by norm_num)

theorem fl64_circ_41 : fl64 (884279719003555 / 2 ^ 47 * (2017257186346229 / 2 ^ 23)) = 6337400357026529 / 2 ^ 22 :=
  fl64_eval_pos _ _ (30) 6337400357026529 (by norm_num) (by norm_num) (by norm_num) (by norm_num)
    (by norm_num) (by norm_num)

theorem fl64_vel_41 : fl64 (6337400357026529 / 2 ^ 22 / 60) = 6759893714161631 / 2 ^ 28 :=
  fl64_eval_pos _ _ (24) 6759893714161631 (by norm_num) (by norm_num) (by norm_num) (by norm_num)
    (by norm_num) (by norm_num)

theorem fl64_three_vel_0 : fl64 (3 * (2575197605394907 / 2 ^ 32)) = 7725592816184721 / 2 ^ 32 :=
  fl64_eval_pos _ _ (20) 7725592816184721 (by norm_num) (by norm_num) (by norm_num) (by norm_num)
    (by norm_num) (by norm_num)

theorem fl64_q_41 : fl64 (6759893714161631 / 2 ^ 28 / 299792458) = 3026418949592973 / 2 ^ 55 :=
  fl64_eval_pos _ _ (-4) 6052837899185946 (by norm_num) (by norm_num) (by norm_num) (by norm_num)
    (by norm_num) (by norm_num)

theorem fl64_p_41 : fl64 (3026418949592973 / 2 ^ 55 * (3026418949592973 / 2 ^ 55)) = 8135014136505911 / 2 ^ 60 :=
  fl64_eval_pos _ _ (-8) 8135014136505911 (by norm_num) (by norm_num) (by norm_num) (by norm_num)
    (by norm_num) (by norm_num)

theorem fl64_r_41 : fl64 (1 - 8135014136505911 / 2 ^ 60) = 2235911114199885 / 2 ^ 51 :=
  fl64_eval_pos _ _ (-1) 8943644456799540 (by norm_num) (by norm_num) (by norm_num) (by norm_num)
    (by norm_num) (by norm_num)

theorem fl64_f_41 : fl64 (Real.sqrt (2235911114199885 / 2 ^ 51)) = 8975365601798805 / 2 ^ 53 :=
  fl64_sqrt_eval _ _ (-1) 8975365601798805 (by norm_num) (by norm_num) (by norm_num) (by norm_num)
    (by norm_num) (by norm_num)

theorem fl64_t0_41 : fl64 (8975365601798805 / 2 ^ 53 / 60.0) = 598357706786587 / 2 ^ 55 :=
  fl64_eval_pos _ _ (-6) 4786861654292696 (by norm_num) (by norm_num) (by norm_num) (by norm_num)
    (by norm_num) (by norm_num)

theorem fl64_t1_41 : fl64 (598357706786587 / 2 ^ 55 * ((15833507 : Int) : ℝ)) = 2103673 / 2 ^ 3 :=
  fl64_eval_pos _ _ (18) 4517603368239104 (by norm_num) (by norm_num) (by norm_num) (by norm_num)
    (by norm_num) (by norm_num)

theorem fl64_t2_41 : fl64 (2103673 / 2 ^ 3 * (5404319552844595 / 2 ^ 53)) = 5421124041886925 / 2 ^ 35 :=
  fl64_eval_pos _ _ (17) 5421124041886925 (by norm_num) (by norm_num) (by norm_num) (by norm_num)
    (by norm_num) (by norm_num)

theorem fl64_t3_41 : fl64 (5421124041886925 / 2 ^ 35 * 100) = 31555095 / 2 ^ 1 :=
  fl64_eval_pos _ _ (23) 8470506315448320 (by norm_num) (by norm_num) (by norm_num) (by norm_num)
    (by norm_num) (by norm_num)

theorem fl64_u1 : fl64 (4803839602528529 / 2 ^ 58 * 2147483647) = 4803839600291567 / 2 ^ 27 :=
  fl64_eval_pos _ _ (25) 4803839600291567 (by norm_num) (by norm_num) (by norm_num) (by norm_num)
    (by norm_num) (by norm_num)

theorem fl64_u2 : fl64 (4803839600291567 / 2 ^ 27 * (5404319552844595 / 2 ^ 53)) = 720575940043735 / 2 ^ 25 :=
  fl64_eval_pos _ _ (24) 5764607520349880 (by norm_num) (by norm_num) (by norm_num) (by norm_num)
    (by norm_num) (by norm_num)

theorem fl64_u3 : fl64 (720575940043735 / 2 ^ 25 * 100) = 2147483647 :=
  fl64_eval_tie_below _ _ (30) 9007199250546688 (by norm_num) (by norm_num) (by norm_num) (by norm_num)
    (by decide) (by norm_num)

theorem fl64_one : fl64 (1) = 1 :=
  fl64_eval_pos _ _ (0) 4503599627370496 (by norm_num) (by norm_num) (by norm_num) (by norm_num)
    (by norm_num) (by norm_num)

theorem fl64_near_one : fl64 (1 - 1 / 2 ^ 56) = 1 :=
  fl64_eval_pos _ _ (-1) 9007199254740992 (by norm_num) (by norm_num) (by norm_num) (by norm_num)
    (by norm_num) (by norm_num)

theorem fl64_two_pow_neg_28 : fl64 (1 / 2 ^ 28) = 1 / 2 ^ 28 :=
  fl64_eval_pos _ _ (-28) 4503599627370496 (by norm_num) (by norm_num) (by norm_num) (by norm_num)
    (by norm_num) (by norm_num)

theorem fl64_two_pow_neg_56 : fl64 (1 / 2 ^ 56) = 1 / 2 ^ 56 :=
  fl64_eval_pos _ _ (-56) 4503599627370496 (by norm_num) (by norm_num) (by norm_num) (by norm_num)
    (by norm_num) (by norm_num)

/-! ## The wrap step -/

theorem wrap3600_of_nonneg {raw : Int} (h0 : 0 ≤ raw) (h1 : raw ≤ INT_MAX) :
    wrap3600 raw = { time_accumulative_temp := raw % 3600, adjust3600 := raw / 3600 } := by
  have hdiv : Int.tdiv raw 3600 = raw / 3600 := Int.tdiv_eq_ediv h0 (by decide)
  unfold INT_MAX at h1
  have hq : int_div raw 3600 = raw / 3600 := by
    unfold int_div wrapInt32
    rw [hdiv]
    omega
  unfold wrap3600
  simp only [hq]
  split
  · have : int_sub raw (int_mul 3600 (raw / 3600)) = raw % 3600 := by
      unfold int_sub int_mul wrapInt32
      omega
    rw [this]
  · have : raw = 0 := by omega
    subst this
    rfl

/-- C2: for every `int` raw_index ≥ 0 the wrap step leaves
index = raw_index mod 3600, which lies in [0, 3599], with
adjust3600 = floor(raw_index / 3600) and raw_index = index + 3600 * adjust3600;
raw_index 0 maps to index 0. -/
theorem wrap3600_spec (raw : Int) (h0 : 0 ≤ raw) (h1 : raw ≤ INT_MAX) :
    (wrap3600 raw).time_accumulative_temp = raw % 3600 ∧
    0 ≤ (wrap3600 raw).time_accumulative_temp ∧
    (wrap3600 raw).time_accumulative_temp ≤ 3599 ∧
    (wrap3600 raw).adjust3600 = raw / 3600 ∧
    (wrap3600 raw).adjust3600 = Int.floor ((raw : ℚ) / 3600) ∧
    raw = (wrap3600 raw).time_accumulative_temp + 3600 * (wrap3600 raw).adjust3600 ∧
    (wrap3600 0).time_accumulative_temp = 0 := by
  rw [wrap3600_of_nonneg h0 h1]
  refine ⟨rfl, ?_, ?_, rfl, ?_, ?_, by decide⟩
  · show 0 ≤ raw % 3600
    omega
  · show raw % 3600 ≤ 3599
    omega
  · show raw / 3600 = Int.floor ((raw : ℚ) / 3600)
    have h := Rat.floor_intCast_div_natCast raw 3600
    simpa using h.symm
  · show raw = raw % 3600 + 3600 * (raw / 3600)
    omega

theorem wrap3600_spec_witness :
    (0 : Int) ≤ 7325 ∧ (7325 : Int) ≤ INT_MAX ∧
    (wrap3600 7325).time_accumulative_temp = 7325 % 3600 := by
  have h := wrap3600_spec 7325 (by decide) (by decide)
  exact ⟨by decide, by decide, h.1⟩

/-! ## The minute-rollover block -/

theorem minuteRollover_tracking (s : DilationState) (min : Int) (hs : s.Last_min ≠ -1) :
    minuteRollover s min =
      if s.Last_min ≠ min then
        { Last_min := min, min3600 := int_add s.min3600 3600,
          time_elapsed := int_add s.time_elapsed 1 }
      else s := by
  unfold minuteRollover
  simp [hs]

theorem minuteRollover_first (min : Int) :
    minuteRollover initState min = { Last_min := min, min3600 := 0, time_elapsed := 0 } := by
  unfold minuteRollover initState
  simp

/-! ## Velocity table -/

theorem Velocity_eq (i : Nat) :
    Velocity i = ((i : ℚ) + 1) * Velocity 0 := by
  unfold Velocity
  push_cast
  ring

theorem Velocity_zero_bounds :
    (599584.916 : ℚ) < Velocity 0 ∧ Velocity 0 < 599584.916 + 1 / 10 ^ 26 := by
  unfold Velocity
  constructor <;> norm_num

/-- C5: evaluated in exact rational arithmetic, every entry Velocity[i],
i in 0..499, differs by less than 1e-3 from the specified value
17987547480 * (i + 1) / (500 * 60); in particular Velocity[499] is within 1e-3
of the speed of light 299792458. -/
theorem Velocity_calibration (i : Nat) (hi : i < 500) :
    |Velocity i - specVelocity i| < 1 / 1000 ∧
    |Velocity 499 - 299792458| < 1 / 1000 := by
  have hq : (i : ℚ) + 1 ≤ 500 := by
    have : (i : ℚ) ≤ 499 := by exact_mod_cast Nat.le_of_lt_succ hi
    linarith
  have hp : (0 : ℚ) < (i : ℚ) + 1 := by positivity
  obtain ⟨hlo, hhi⟩ := Velocity_zero_bounds
  have hspec : specVelocity i = ((i : ℚ) + 1) * 599584.916 := by
    unfold specVelocity
    norm_num
    ring
  constructor
  · rw [Velocity_eq i, hspec, abs_lt]
    constructor <;> nlinarith
  · rw [Velocity_eq 499, abs_lt]
    constructor <;> norm_num <;> linarith

theorem Velocity_calibration_witness :
    (499 : Nat) < 500 ∧ |Velocity 499 - specVelocity 499| < 1 / 1000 :=
  ⟨by decide, (Velocity_calibration 499 (by decide)).1⟩

/-! ## The dilation function -/

theorem GetTimeDilation_of_abs_le (v : ℝ) (h : |v| ≤ 299792458) :
    GetTimeDilation v = CDouble.fin (Real.sqrt (1 - (v / 299792458) * (v / 299792458))) := by
  have h1 : |v / 299792458| ≤ 1 := by
    rw [abs_div, abs_of_pos (by norm_num : (0 : ℝ) < 299792458)]
    exact (div_le_one (by norm_num)).mpr h
  have h2 : (v / 299792458) * (v / 299792458) ≤ 1 := by
    have := abs_le.mp h1
    nlinarith [this.1, this.2]
  unfold GetTimeDilation c_sqrt
  simp only []
  rw [if_neg (by linarith)]

/-- In exact arithmetic over the reals, GetTimeDilation(0) = 1,
GetTimeDilation(C) = 0 with C = 299792458, and the function is strictly
decreasing on [0, C). -/
theorem GetTimeDilation_decreasing (v1 v2 : ℝ) (h0 : 0 ≤ v1) (h12 : v1 < v2)
    (h2 : v2 < 299792458) :
    GetTimeDilation 0 = CDouble.fin 1 ∧
    GetTimeDilation 299792458 = CDouble.fin 0 ∧
    ∃ x1 x2 : ℝ, GetTimeDilation v1 = CDouble.fin x1 ∧
      GetTimeDilation v2 = CDouble.fin x2 ∧ x2 < x1 := by
  refine ⟨?_, ?_, ?_⟩
  · rw [GetTimeDilation_of_abs_le 0 (by norm_num)]
    norm_num
  · rw [GetTimeDilation_of_abs_le 299792458 (by norm_num)]
    norm_num
  · have hv2 : 0 ≤ v2 := le_trans h0 (le_of_lt h12)
    have ha1 : |v1| ≤ 299792458 := by rw [abs_of_nonneg h0]; linarith
    have ha2 : |v2| ≤ 299792458 := by rw [abs_of_nonneg hv2]; linarith
    refine ⟨_, _, GetTimeDilation_of_abs_le v1 ha1, GetTimeDilation_of_abs_le v2 ha2, ?_⟩
    have hq1 : 0 ≤ v1 / 299792458 := by positivity
    have hq12 : v1 / 299792458 < v2 / 299792458 :=
      div_lt_div_of_pos_right h12 (by norm_num)
    have hq2 : v2 / 299792458 < 1 := (div_lt_one (by norm_num)).mpr h2
    apply Real.sqrt_lt_sqrt
    · nlinarith
    · nlinarith

theorem GetTimeDilation_decreasing_witness :
    (0 : ℝ) ≤ 0 ∧ (0 : ℝ) < 149896229 ∧ (149896229 : ℝ) < 299792458 ∧
    ∃ x1 x2 : ℝ, GetTimeDilation 0 = CDouble.fin x1 ∧
      GetTimeDilation 149896229 = CDouble.fin x2 ∧ x2 < x1 :=
  ⟨le_refl 0, by norm_num, by norm_num,
    (GetTimeDilation_decreasing 0 149896229 (le_refl 0) (by norm_num) (by norm_num)).2.2⟩

theorem scaleUp_dilatedTicks_eq (f : ℝ) (n : Int) :
    scaleUp (dilatedTicks f n) = f * (n : ℝ) := by
  unfold scaleUp dilatedTicks
  norm_num
  ring

theorem Velocity_499_gt : (299792458 : ℚ) < Velocity 499 := by
  unfold Velocity
  norm_num

/-! ## The velocity table and the dilation function in binary64 -/

theorem Velocity_dbl_499 : Velocity_dbl 499 = 299792458 := by
  unfold Velocity_dbl
  rw [fl64_two_pi, fl64_radius_step, Nat.cast_ofNat, fl64_step_499, fl64_circ_499,
    fl64_vel_499]

theorem Velocity_dbl_0 : Velocity_dbl 0 = 2575197605394907 / 2 ^ 32 := by
  unfold Velocity_dbl
  rw [fl64_two_pi, fl64_radius_step, Nat.cast_zero, fl64_step_0, fl64_circ_0, fl64_vel_0]

theorem Velocity_dbl_2 : Velocity_dbl 2 = 482849551011545 / 2 ^ 28 := by
  unfold Velocity_dbl
  rw [fl64_two_pi, fl64_radius_step, Nat.cast_ofNat, fl64_step_2, fl64_circ_2, fl64_vel_2]

theorem Velocity_dbl_41 : Velocity_dbl 41 = 6759893714161631 / 2 ^ 28 := by
  unfold Velocity_dbl
  rw [fl64_two_pi, fl64_radius_step, Nat.cast_ofNat, fl64_step_41, fl64_circ_41, fl64_vel_41]

theorem Velocity_dbl_mono {i j : Nat} (h : i ≤ j) : Velocity_dbl i ≤ Velocity_dbl j := by
  have ha : 0 ≤ fl64 6.28318530717958647692 := fl64_nonneg (by norm_num)
  have hb : 0 ≤ fl64 5725614.1910843307106714956183696 := fl64_nonneg (by norm_num)
  have hi : (0 : ℝ) ≤ (i : ℝ) + 1 := by positivity
  have hij : (i : ℝ) + 1 ≤ (j : ℝ) + 1 := by
    have : (i : ℝ) ≤ (j : ℝ) := by exact_mod_cast h
    linarith
  have h1 : fl64 (fl64 5725614.1910843307106714956183696 * ((i : ℝ) + 1))
      ≤ fl64 (fl64 5725614.1910843307106714956183696 * ((j : ℝ) + 1)) :=
    fl64_mono (mul_nonneg hb hi) (mul_le_mul_of_nonneg_left hij hb)
  have h1n : 0 ≤ fl64 (fl64 5725614.1910843307106714956183696 * ((i : ℝ) + 1)) :=
    fl64_nonneg (mul_nonneg hb hi)
  have h2 : fl64 (fl64 6.28318530717958647692
        * fl64 (fl64 5725614.1910843307106714956183696 * ((i : ℝ) + 1)))
      ≤ fl64 (fl64 6.28318530717958647692
        * fl64 (fl64 5725614.1910843307106714956183696 * ((j : ℝ) + 1))) :=
    fl64_mono (mul_nonneg ha h1n) (mul_le_mul_of_nonneg_left h1 ha)
  have h2n : 0 ≤ fl64 (fl64 6.28318530717958647692
        * fl64 (fl64 5725614.1910843307106714956183696 * ((i : ℝ) + 1))) :=
    fl64_nonneg (mul_nonneg ha h1n)
  unfold Velocity_dbl
  exact fl64_mono (div_nonneg h2n (by norm_num)) (div_le_div_of_nonneg_right h2 (by norm_num))

theorem Velocity_dbl_nonneg (i : Nat) : 0 ≤ Velocity_dbl i := by
  have ha : 0 ≤ fl64 6.28318530717958647692 := fl64_nonneg (by norm_num)
  have hb : 0 ≤ fl64 5725614.1910843307106714956183696 := fl64_nonneg (by norm_num)
  have hi : (0 : ℝ) ≤ (i : ℝ) + 1 := by positivity
  unfold Velocity_dbl
  exact fl64_nonneg (div_nonneg (fl64_nonneg (mul_nonneg ha (fl64_nonneg (mul_nonneg hb hi))))
    (by norm_num))

theorem Velocity_dbl_le (i : Nat) (hi : i < 500) : Velocity_dbl i ≤ 299792458 := by
  rw [← Velocity_dbl_499]
  exact Velocity_dbl_mono (by omega)

/-- The radicand computed in binary64 for a velocity between 0 and C lies
between 0 and 1. -/
theorem radicand_dbl_bounds (v : ℝ) (h0 : 0 ≤ v) (h1 : v ≤ 299792458) :
    0 ≤ fl64 (1 - fl64 (fl64 (v / 299792458) * fl64 (v / 299792458))) ∧
    fl64 (1 - fl64 (fl64 (v / 299792458) * fl64 (v / 299792458))) ≤ 1 := by
  have hq0 : 0 ≤ v / 299792458 := div_nonneg h0 (by norm_num)
  have hq1 : v / 299792458 ≤ 1 := (div_le_one (by norm_num)).mpr h1
  have hfq0 : 0 ≤ fl64 (v / 299792458) := fl64_nonneg hq0
  have hfq1 : fl64 (v / 299792458) ≤ 1 := by
    have := fl64_mono hq0 hq1
    rwa [fl64_one] at this
  have hp0 : 0 ≤ fl64 (v / 299792458) * fl64 (v / 299792458) := mul_nonneg hfq0 hfq0
  have hp1 : fl64 (v / 299792458) * fl64 (v / 299792458) ≤ 1 := by nlinarith
  have hfp0 : 0 ≤ fl64 (fl64 (v / 299792458) * fl64 (v / 299792458)) := fl64_nonneg hp0
  have hfp1 : fl64 (fl64 (v / 299792458) * fl64 (v / 299792458)) ≤ 1 := by
    have := fl64_mono hp0 hp1
    rwa [fl64_one] at this
  constructor
  · exact fl64_nonneg (by linarith)
  · have := fl64_mono (by linarith : (0 : ℝ) ≤ 1 - fl64 (fl64 (v / 299792458)
        * fl64 (v / 299792458))) (by linarith : 1 - fl64 (fl64 (v / 299792458)
        * fl64 (v / 299792458)) ≤ 1)
    rwa [fl64_one] at this

theorem GetTimeDilation_dbl_eq (v : ℝ) (h0 : 0 ≤ v) (h1 : v ≤ 299792458) :
    GetTimeDilation_dbl v = CDouble.fin (fl64 (Real.sqrt
      (fl64 (1 - fl64 (fl64 (v / 299792458) * fl64 (v / 299792458)))))) := by
  have h := (radicand_dbl_bounds v h0 h1).1
  unfold GetTimeDilation_dbl c_sqrt_dbl
  simp only []
  rw [if_neg (not_lt.mpr h)]

theorem dilation_dbl_bounds (v : ℝ) (h0 : 0 ≤ v) (h1 : v ≤ 299792458) :
    0 ≤ fl64 (Real.sqrt (fl64 (1 - fl64 (fl64 (v / 299792458) * fl64 (v / 299792458))))) ∧
    fl64 (Real.sqrt (fl64 (1 - fl64 (fl64 (v / 299792458) * fl64 (v / 299792458))))) ≤ 1 := by
  obtain ⟨hr0, hr1⟩ := radicand_dbl_bounds v h0 h1
  constructor
  · exact fl64_nonneg (Real.sqrt_nonneg _)
  · have hs : Real.sqrt (fl64 (1 - fl64 (fl64 (v / 299792458) * fl64 (v / 299792458)))) ≤ 1 :=
      Real.sqrt_le_one.mpr hr1
    have := fl64_mono (Real.sqrt_nonneg _) hs
    rwa [fl64_one] at this

theorem GetTimeDilation_dbl_499 : GetTimeDilation_dbl (Velocity_dbl 499) = CDouble.fin 0 := by
  rw [Velocity_dbl_499, GetTimeDilation_dbl_eq 299792458 (by norm_num) (le_refl _)]
  have h1 : (299792458 : ℝ) / 299792458 = 1 := by norm_num
  rw [h1, fl64_one, mul_one, fl64_one, sub_self, fl64_zero, Real.sqrt_zero, fl64_zero]

theorem GetTimeDilation_dbl_zero : GetTimeDilation_dbl 0 = CDouble.fin 1 := by
  rw [GetTimeDilation_dbl_eq 0 (le_refl _) (by norm_num)]
  rw [zero_div, fl64_zero, mul_zero, fl64_zero, sub_zero, fl64_one, Real.sqrt_one, fl64_one]

theorem GetTimeDilation_dbl_C : GetTimeDilation_dbl 299792458 = CDouble.fin 0 := by
  rw [GetTimeDilation_dbl_eq 299792458 (by norm_num) (le_refl _)]
  have h1 : (299792458 : ℝ) / 299792458 = 1 := by norm_num
  rw [h1, fl64_one, mul_one, fl64_one, sub_self, fl64_zero, Real.sqrt_zero, fl64_zero]

theorem GetTimeDilation_dbl_one : GetTimeDilation_dbl 1 = CDouble.fin 1 := by
  rw [GetTimeDilation_dbl_eq 1 (by norm_num) (by norm_num)]
  have hq0 : (0 : ℝ) ≤ 1 / 299792458 := by norm_num
  have hq1 : (1 : ℝ) / 299792458 ≤ 1 / 2 ^ 28 := by norm_num
  have hfq0 : 0 ≤ fl64 (1 / 299792458) := fl64_nonneg hq0
  have hfq1 : fl64 (1 / 299792458) ≤ 1 / 2 ^ 28 := by
    have := fl64_mono hq0 hq1
    rwa [fl64_two_pow_neg_28] at this
  have hp0 : 0 ≤ fl64 (1 / 299792458) * fl64 (1 / 299792458) := mul_nonneg hfq0 hfq0
  have hp1 : fl64 (1 / 299792458) * fl64 (1 / 299792458) ≤ 1 / 2 ^ 56 := by
    have h := mul_le_mul hfq1 hfq1 hfq0 (by norm_num : (0 : ℝ) ≤ 1 / 2 ^ 28)
    have e : (1 : ℝ) / 2 ^ 28 * (1 / 2 ^ 28) = 1 / 2 ^ 56 := by norm_num
    rwa [e] at h
  have hfp0 : 0 ≤ fl64 (fl64 (1 / 299792458) * fl64 (1 / 299792458)) := fl64_nonneg hp0
  have hfp1 : fl64 (fl64 (1 / 299792458) * fl64 (1 / 299792458)) ≤ 1 / 2 ^ 56 := by
    have := fl64_mono hp0 hp1
    rwa [fl64_two_pow_neg_56] at this
  have hr : fl64 (1 - fl64 (fl64 (1 / 299792458) * fl64 (1 / 299792458))) = 1 := by
    apply le_antisymm
    · have := fl64_mono (by linarith [show (1 : ℝ) / 2 ^ 56 ≤ 1 by norm_num] :
        (0 : ℝ) ≤ 1 - fl64 (fl64 (1 / 299792458) * fl64 (1 / 299792458)))
        (by linarith : 1 - fl64 (fl64 (1 / 299792458) * fl64 (1 / 299792458)) ≤ 1)
      rwa [fl64_one] at this
    · have := fl64_mono (by norm_num : (0 : ℝ) ≤ 1 - 1 / 2 ^ 56)
        (by linarith : (1 : ℝ) - 1 / 2 ^ 56
          ≤ 1 - fl64 (fl64 (1 / 299792458) * fl64 (1 / 299792458)))
      rwa [fl64_near_one] at this
  rw [hr, Real.sqrt_one, fl64_one]

/-- C4 (counterexample to the claim as stated): as the program computes it,
GetTimeDilation returns 1.0 both for v = 0 and for v = 1, two velocities with
0 ≤ 0 < 1 < C, so it is not strictly decreasing on [0, C). -/
theorem GetTimeDilation_dbl_not_strict :
    ((0 : ℝ) ≤ 0 ∧ (0 : ℝ) < 1 ∧ (1 : ℝ) < 299792458) ∧
    GetTimeDilation_dbl 0 = CDouble.fin 1 ∧ GetTimeDilation_dbl 1 = CDouble.fin 1 :=
  ⟨⟨le_refl 0, by norm_num, by norm_num⟩, GetTimeDilation_dbl_zero, GetTimeDilation_dbl_one⟩

/-- C4 (as amended): as the program computes it in binary64 double arithmetic,
GetTimeDilation(0) = 1, GetTimeDilation(C) = 0 with C = 299792458, and the
function is non-increasing on [0, C]: for 0 ≤ v1 ≤ v2 ≤ C both calls return
numbers between 0 and 1 and GetTimeDilation(v2) ≤ GetTimeDilation(v1). -/
theorem GetTimeDilation_dbl_nonincreasing (v1 v2 : ℝ) (h0 : 0 ≤ v1) (h12 : v1 ≤ v2)
    (h2 : v2 ≤ 299792458) :
    GetTimeDilation_dbl 0 = CDouble.fin 1 ∧
    GetTimeDilation_dbl 299792458 = CDouble.fin 0 ∧
    ∃ x1 x2 : ℝ, GetTimeDilation_dbl v1 = CDouble.fin x1 ∧
      GetTimeDilation_dbl v2 = CDouble.fin x2 ∧ x2 ≤ x1 ∧ 0 ≤ x2 ∧ x1 ≤ 1 := by
  have hv2 : 0 ≤ v2 := le_trans h0 h12
  have hv1 : v1 ≤ 299792458 := le_trans h12 h2
  refine ⟨GetTimeDilation_dbl_zero, GetTimeDilation_dbl_C, _, _,
    GetTimeDilation_dbl_eq v1 h0 hv1, GetTimeDilation_dbl_eq v2 hv2 h2, ?_,
    (dilation_dbl_bounds v2 hv2 h2).1, (dilation_dbl_bounds v1 h0 hv1).2⟩
  have hq1 : 0 ≤ v1 / 299792458 := div_nonneg h0 (by norm_num)
  have hq12 : v1 / 299792458 ≤ v2 / 299792458 := div_le_div_of_nonneg_right h12 (by norm_num)
  have hq2 : v2 / 299792458 ≤ 1 := (div_le_one (by norm_num)).mpr h2
  have hf1 : 0 ≤ fl64 (v1 / 299792458) := fl64_nonneg hq1
  have hf12 : fl64 (v1 / 299792458) ≤ fl64 (v2 / 299792458) := fl64_mono hq1 hq12
  have hp12 : fl64 (v1 / 299792458) * fl64 (v1 / 299792458)
      ≤ fl64 (v2 / 299792458) * fl64 (v2 / 299792458) :=
    mul_le_mul hf12 hf12 hf1 (le_trans hf1 hf12)
  have hP12 := fl64_mono (mul_nonneg hf1 hf1) hp12
  have hr2 := (radicand_dbl_bounds v2 hv2 h2).1
  have hP2 : fl64 (fl64 (v2 / 299792458) * fl64 (v2 / 299792458)) ≤ 1 := by
    have hfq1 : fl64 (v2 / 299792458) ≤ 1 := by
      have := fl64_mono (le_trans hq1 hq12) hq2
      rwa [fl64_one] at this
    have hp1 : fl64 (v2 / 299792458) * fl64 (v2 / 299792458) ≤ 1 := by
      nlinarith [le_trans hf1 hf12]
    have := fl64_mono (mul_nonneg (le_trans hf1 hf12) (le_trans hf1 hf12)) hp1
    rwa [fl64_one] at this
  have hR := fl64_mono (by linarith : (0 : ℝ) ≤ 1 - fl64 (fl64 (v2 / 299792458)
      * fl64 (v2 / 299792458))) (by linarith : 1 - fl64 (fl64 (v2 / 299792458)
      * fl64 (v2 / 299792458)) ≤ 1 - fl64 (fl64 (v1 / 299792458) * fl64 (v1 / 299792458)))
  exact fl64_mono (Real.sqrt_nonneg _) (Real.sqrt_le_sqrt hR)

theorem GetTimeDilation_dbl_nonincreasing_witness :
    ((0 : ℝ) ≤ 1 ∧ (1 : ℝ) ≤ 149896229 ∧ (149896229 : ℝ) ≤ 299792458) ∧
    ∃ x1 x2 : ℝ, GetTimeDilation_dbl 1 = CDouble.fin x1 ∧
      GetTimeDilation_dbl 149896229 = CDouble.fin x2 ∧ x2 ≤ x1 ∧ 0 ≤ x2 ∧ x1 ≤ 1 :=
  ⟨⟨by norm_num, by norm_num, by norm_num⟩,
    (GetTimeDilation_dbl_nonincreasing 1 149896229 (by norm_num) (by norm_num)
      (by norm_num)).2.2⟩

/-- A natural number below 2^53 is a double. -/
theorem fl64_natCast (n : Nat) (h : n < 2 ^ 53) : fl64 (n : ℝ) = (n : ℝ) := by
  rcases Nat.eq_zero_or_pos n with h0 | hpos
  · rw [h0, Nat.cast_zero, fl64_zero]
  have hx : (0 : ℝ) < (n : ℝ) := by exact_mod_cast hpos
  have hx1 : (1 : ℝ) ≤ (n : ℝ) := by exact_mod_cast hpos
  have hlog0 : 0 ≤ Int.log 2 ((n : ℝ)) := by
    rw [← Int.zpow_le_iff_le_log (by norm_num) hx]
    simpa using hx1
  have hlog53 : Int.log 2 ((n : ℝ)) < 53 := by
    rw [← Int.lt_zpow_iff_log_lt (by norm_num) hx]
    have : (n : ℝ) < (2 : ℝ) ^ (53 : ℕ) := by exact_mod_cast h
    simpa using this
  have hb : binade (n : ℝ) = Int.log 2 ((n : ℝ)) := by
    unfold binade
    rw [abs_of_pos hx]
    omega
  have hlo : (2 : ℝ) ^ (Int.log 2 ((n : ℝ))) ≤ |(n : ℝ)| := by
    rw [abs_of_pos hx]
    have := Int.zpow_log_le_self (by norm_num : 1 < 2) hx
    simpa using this
  have hhi : |(n : ℝ)| < (2 : ℝ) ^ (Int.log 2 ((n : ℝ)) + 1) := by
    rw [abs_of_pos hx]
    have := Int.lt_zpow_succ_log_self (by norm_num : 1 < 2) ((n : ℝ))
    simpa using this
  obtain ⟨d, hd⟩ : ∃ d : Nat, (d : Int) = 52 - Int.log 2 ((n : ℝ)) :=
    ⟨(52 - Int.log 2 ((n : ℝ))).toNat, Int.toNat_of_nonneg (by omega)⟩
  have hval : (((n : Int) * 2 ^ d : Int) : ℝ) * (2 : ℝ) ^ (Int.log 2 ((n : ℝ)) - 52)
      = (n : ℝ) := by
    push_cast
    rw [mul_assoc, ← zpow_natCast (2 : ℝ) d, ← zpow_add₀ (by norm_num : (2 : ℝ) ≠ 0), hd]
    have : 52 - Int.log 2 ((n : ℝ)) + (Int.log 2 ((n : ℝ)) - 52) = 0 := by ring
    rw [this, zpow_zero, mul_one]
  have h := fl64_eval (n : ℝ) (Int.log 2 ((n : ℝ))) ((n : Int) * 2 ^ d) (by omega) hlo hhi
    (by rw [hval, sub_self, abs_zero]; positivity)
  rw [h, hval]

/-- Every entry of the velocity table lies between 599580 (i + 1) and
599590 (i + 1). -/
theorem Velocity_dbl_between (i : Nat) (hi : i < 500) :
    (599580 : ℝ) * ((i : ℝ) + 1) ≤ Velocity_dbl i ∧
    Velocity_dbl i ≤ 599590 * ((i : ℝ) + 1) := by
  have hi1 : (1 : ℝ) ≤ (i : ℝ) + 1 := by
    have : (0 : ℝ) ≤ (i : ℝ) := Nat.cast_nonneg i
    linarith
  have hi2 : (i : ℝ) + 1 ≤ 500 := by
    have : (i : ℝ) + 1 = ((i + 1 : Nat) : ℝ) := by push_cast; ring
    rw [this]
    exact_mod_cast hi
  have cast1 : ∀ c : Nat, ((c * (i + 1) : Nat) : ℝ) = (c : ℝ) * ((i : ℝ) + 1) := by
    intro c; push_cast; ring
  have nat1 : ∀ c : Nat, c ≤ 40000000 → fl64 ((c : ℝ) * ((i : ℝ) + 1)) = (c : ℝ) * ((i : ℝ) + 1) := by
    intro c hc
    rw [← cast1 c]
    apply fl64_natCast
    have : c * (i + 1) ≤ 40000000 * 500 := Nat.mul_le_mul hc (by omega)
    have h2 : 40000000 * 500 < 2 ^ 53 := by norm_num
    omega
  -- first product
  have hw0 : (5725614 : ℝ) * ((i : ℝ) + 1)
      ≤ fl64 (3073915712527587 / 2 ^ 29 * ((i : ℝ) + 1)) := by
    have := fl64_mono (by positivity : (0 : ℝ) ≤ (5725614 : ℝ) * ((i : ℝ) + 1))
      (by nlinarith : (5725614 : ℝ) * ((i : ℝ) + 1) ≤ 3073915712527587 / 2 ^ 29 * ((i : ℝ) + 1))
    have e := nat1 5725614 (by norm_num)
    push_cast at e
    rwa [e] at this
  have hw1 : fl64 (3073915712527587 / 2 ^ 29 * ((i : ℝ) + 1))
      ≤ (5725615 : ℝ) * ((i : ℝ) + 1) := by
    have := fl64_mono (by positivity : (0 : ℝ) ≤ 3073915712527587 / 2 ^ 29 * ((i : ℝ) + 1))
      (by nlinarith : (3073915712527587 : ℝ) / 2 ^ 29 * ((i : ℝ) + 1)
        ≤ (5725615 : ℝ) * ((i : ℝ) + 1))
    have e := nat1 5725615 (by norm_num)
    push_cast at e
    rwa [e] at this
  -- second product
  have hy0 : (35974805 : ℝ) * ((i : ℝ) + 1)
      ≤ fl64 (884279719003555 / 2 ^ 47 * fl64 (3073915712527587 / 2 ^ 29 * ((i : ℝ) + 1))) := by
    have := fl64_mono (by positivity : (0 : ℝ) ≤ (35974805 : ℝ) * ((i : ℝ) + 1))
      (by nlinarith : (35974805 : ℝ) * ((i : ℝ) + 1)
        ≤ 884279719003555 / 2 ^ 47 * fl64 (3073915712527587 / 2 ^ 29 * ((i : ℝ) + 1)))
    have e := nat1 35974805 (by norm_num)
    push_cast at e
    rwa [e] at this
  have hy1 : fl64 (884279719003555 / 2 ^ 47 * fl64 (3073915712527587 / 2 ^ 29 * ((i : ℝ) + 1)))
      ≤ (35975385 : ℝ) * ((i : ℝ) + 1) := by
    have hnn : (0 : ℝ) ≤ 884279719003555 / 2 ^ 47
        * fl64 (3073915712527587 / 2 ^ 29 * ((i : ℝ) + 1)) := by
      have : (0 : ℝ) ≤ fl64 (3073915712527587 / 2 ^ 29 * ((i : ℝ) + 1)) := by linarith
      positivity
    have := fl64_mono hnn
      (by nlinarith : (884279719003555 : ℝ) / 2 ^ 47
          * fl64 (3073915712527587 / 2 ^ 29 * ((i : ℝ) + 1))
        ≤ (35975385 : ℝ) * ((i : ℝ) + 1))
    have e := nat1 35975385 (by norm_num)
    push_cast at e
    rwa [e] at this
  -- quotient
  unfold Velocity_dbl
  rw [fl64_two_pi, fl64_radius_step]
  constructor
  · have := fl64_mono (by positivity : (0 : ℝ) ≤ (599580 : ℝ) * ((i : ℝ) + 1))
      (by linarith : (599580 : ℝ) * ((i : ℝ) + 1)
        ≤ fl64 (884279719003555 / 2 ^ 47
            * fl64 (3073915712527587 / 2 ^ 29 * ((i : ℝ) + 1))) / 60)
    have e := nat1 599580 (by norm_num)
    push_cast at e
    rwa [e] at this
  · have hnn : (0 : ℝ) ≤ fl64 (884279719003555 / 2 ^ 47
        * fl64 (3073915712527587 / 2 ^ 29 * ((i : ℝ) + 1))) / 60 := by
      have : (0 : ℝ) ≤ fl64 (884279719003555 / 2 ^ 47
          * fl64 (3073915712527587 / 2 ^ 29 * ((i : ℝ) + 1))) := by linarith
      positivity
    have := fl64_mono hnn
      (by linarith : fl64 (884279719003555 / 2 ^ 47
            * fl64 (3073915712527587 / 2 ^ 29 * ((i : ℝ) + 1))) / 60
        ≤ (599590 : ℝ) * ((i : ℝ) + 1))
    have e := nat1 599590 (by norm_num)
    push_cast at e
    rwa [e] at this

/-- C16 (counterexample to the claim as stated): in the table the program
holds, Velocity[2] = 482849551011545 / 2^28 is not (2 + 1) * Velocity[0], neither
as a real product nor as the double product 7725592816184721 / 2^32; and in
exact rational arithmetic Velocity[499] is not at most 299792458. -/
theorem Velocity_table_not_linear :
    Velocity_dbl 2 ≠ 3 * Velocity_dbl 0 ∧
    Velocity_dbl 2 ≠ fl64 (3 * Velocity_dbl 0) ∧
    ¬ (Velocity 499 ≤ 299792458) := by
  refine ⟨?_, ?_, not_le.mpr Velocity_499_gt⟩
  · rw [Velocity_dbl_2, Velocity_dbl_0]
    norm_num
  · rw [Velocity_dbl_2, Velocity_dbl_0, fl64_three_vel_0]
    norm_num

/-- C16 (as amended): as the program computes the velocity table in binary64
double arithmetic, every entry meets the dilation function's precondition: for
every i in 0..499, 0 < Velocity[i] ≤ 299792458, with Velocity[499] exactly
299792458 and Velocity strictly increasing in i, so the radicand
1 - (Velocity[i]/C)^2 passed to sqrt in GetTimeDilation is never negative and
the call returns a number between 0 and 1 for every sample the main loop uses. -/
theorem Velocity_dbl_precondition (i j : Nat) (hij : i < j) (hj : j < 500) :
    0 < Velocity_dbl i ∧ Velocity_dbl i ≤ 299792458 ∧ Velocity_dbl j ≤ 299792458 ∧
    Velocity_dbl i < Velocity_dbl j ∧
    Velocity_dbl 499 = 299792458 ∧
    0 ≤ fl64 (1 - fl64 (fl64 (Velocity_dbl i / 299792458) * fl64 (Velocity_dbl i / 299792458))) ∧
    0 ≤ fl64 (1 - fl64 (fl64 (Velocity_dbl j / 299792458) * fl64 (Velocity_dbl j / 299792458))) ∧
    (∃ f : ℝ, GetTimeDilation_dbl (Velocity_dbl i) = CDouble.fin f ∧ 0 ≤ f ∧ f ≤ 1) ∧
    (∃ f : ℝ, GetTimeDilation_dbl (Velocity_dbl j) = CDouble.fin f ∧ 0 ≤ f ∧ f ≤ 1) := by
  have hi : i < 500 := by omega
  obtain ⟨hlo_i, hhi_i⟩ := Velocity_dbl_between i hi
  obtain ⟨hlo_j, _⟩ := Velocity_dbl_between j hj
  have hi0 : (0 : ℝ) ≤ (i : ℝ) := Nat.cast_nonneg i
  have hi500 : (i : ℝ) + 1 ≤ 500 := by
    have : (i : ℝ) + 1 = ((i + 1 : Nat) : ℝ) := by push_cast; ring
    rw [this]
    exact_mod_cast hi
  have hijr : (i : ℝ) + 1 ≤ (j : ℝ) := by
    have : (i : ℝ) + 1 = ((i + 1 : Nat) : ℝ) := by push_cast; ring
    rw [this]
    exact_mod_cast hij
  have hvi0 := Velocity_dbl_nonneg i
  have hvi1 := Velocity_dbl_le i hi
  have hvj0 := Velocity_dbl_nonneg j
  have hvj1 := Velocity_dbl_le j hj
  refine ⟨by linarith, hvi1, hvj1, by linarith, Velocity_dbl_499,
    (radicand_dbl_bounds _ hvi0 hvi1).1, (radicand_dbl_bounds _ hvj0 hvj1).1,
    ⟨_, GetTimeDilation_dbl_eq _ hvi0 hvi1, dilation_dbl_bounds _ hvi0 hvi1⟩,
    ⟨_, GetTimeDilation_dbl_eq _ hvj0 hvj1, dilation_dbl_bounds _ hvj0 hvj1⟩⟩

theorem Velocity_dbl_precondition_witness :
    ((498 : Nat) < 499 ∧ (499 : Nat) < 500) ∧
    0 < Velocity_dbl 498 ∧ Velocity_dbl 498 < Velocity_dbl 499 ∧
    Velocity_dbl 499 ≤ 299792458 :=
  have h := Velocity_dbl_precondition 498 499 (by decide) (by decide)
  ⟨by decide, h.1, h.2.2.2.1, h.2.2.1⟩

/-! ## The index of the radius draw loop -/

theorem c_round_bounds (y : ℝ) (n : Int) (h0 : 0 ≤ y) (h1 : y ≤ (n : ℝ)) :
    0 ≤ c_round y ∧ c_round y ≤ n := by
  unfold c_round
  rw [if_pos h0]
  constructor
  · apply Int.floor_nonneg.mpr
    linarith
  · have : Int.floor (y + 1 / 2) < n + 1 := by
      apply Int.floor_lt.mpr
      push_cast
      linarith
    omega

/-- The argument of `round` stays between 0 and INT_MAX for a dilation factor
between 0 and 1 and a tick count between 0 and INT_MAX. -/
theorem scaleUp_dbl_bounds (f : ℝ) (n : Int) (hf0 : 0 ≤ f) (hf1 : f ≤ 1) (hn0 : 0 ≤ n)
    (hn1 : n ≤ INT_MAX) :
    0 ≤ scaleUp_dbl (dilatedTicks_dbl f n) ∧
    scaleUp_dbl (dilatedTicks_dbl f n) ≤ 2147483647 := by
  have hnr0 : (0 : ℝ) ≤ (n : ℝ) := by exact_mod_cast hn0
  have hnr1 : (n : ℝ) ≤ 2147483647 := by
    unfold INT_MAX at hn1
    exact_mod_cast hn1
  have h06 : (0 : ℝ) ≤ 5404319552844595 / 2 ^ 53 := by norm_num
  -- f / 60.0
  have ha0 : 0 ≤ f / 60.0 := div_nonneg hf0 (by norm_num)
  have ha1 : f / 60.0 ≤ 1 / 60.0 := div_le_div_of_nonneg_right hf1 (by norm_num)
  have hA0 : 0 ≤ fl64 (f / 60.0) := fl64_nonneg ha0
  have hA1 : fl64 (f / 60.0) ≤ 4803839602528529 / 2 ^ 58 := by
    have := fl64_mono ha0 ha1
    rwa [fl64_inv60] at this
  -- * n
  have hb0 : 0 ≤ fl64 (f / 60.0) * (n : ℝ) := mul_nonneg hA0 hnr0
  have hb1 : fl64 (f / 60.0) * (n : ℝ) ≤ 4803839602528529 / 2 ^ 58 * 2147483647 :=
    mul_le_mul hA1 hnr1 hnr0 (by norm_num)
  have hB0 : 0 ≤ fl64 (fl64 (f / 60.0) * (n : ℝ)) := fl64_nonneg hb0
  have hB1 : fl64 (fl64 (f / 60.0) * (n : ℝ)) ≤ 4803839600291567 / 2 ^ 27 := by
    have := fl64_mono hb0 hb1
    rwa [fl64_u1] at this
  -- * 0.6
  have hc0 : 0 ≤ fl64 (fl64 (f / 60.0) * (n : ℝ)) * (5404319552844595 / 2 ^ 53) :=
    mul_nonneg hB0 h06
  have hc1 : fl64 (fl64 (f / 60.0) * (n : ℝ)) * (5404319552844595 / 2 ^ 53)
      ≤ 4803839600291567 / 2 ^ 27 * (5404319552844595 / 2 ^ 53) :=
    mul_le_mul_of_nonneg_right hB1 h06
  have hC0 : 0 ≤ fl64 (fl64 (fl64 (f / 60.0) * (n : ℝ)) * (5404319552844595 / 2 ^ 53)) :=
    fl64_nonneg hc0
  have hC1 : fl64 (fl64 (fl64 (f / 60.0) * (n : ℝ)) * (5404319552844595 / 2 ^ 53))
      ≤ 720575940043735 / 2 ^ 25 := by
    have := fl64_mono hc0 hc1
    rwa [fl64_u2] at this
  -- * 100
  have hd0 : 0 ≤ fl64 (fl64 (fl64 (f / 60.0) * (n : ℝ)) * (5404319552844595 / 2 ^ 53)) * 100 :=
    mul_nonneg hC0 (by norm_num)
  have hd1 : fl64 (fl64 (fl64 (f / 60.0) * (n : ℝ)) * (5404319552844595 / 2 ^ 53)) * 100
      ≤ 720575940043735 / 2 ^ 25 * 100 :=
    mul_le_mul_of_nonneg_right hC1 (by norm_num)
  unfold scaleUp_dbl dilatedTicks_dbl
  rw [fl64_lit_06]
  constructor
  · exact fl64_nonneg hd0
  · have := fl64_mono hd0 hd1
    rwa [fl64_u3] at this

/-- C1: for every sec3600 in [0, 3599], every non-negative min3600 (a multiple
of 3600 or not) with sec3600 + min3600 ≤ INT_MAX, and every radius sample i in
0..499, the per-sample block of the main loop, computed as the program computes
it in binary64 double arithmetic, produces an index to read td_plotx[i] and
td_ploty[i], and that index lies in [0, 3599]. -/
theorem plotIndex_in_table (sec3600 min3600 : Int) (i : Nat)
    (hs0 : 0 ≤ sec3600) (hs1 : sec3600 ≤ 3599) (hm0 : 0 ≤ min3600)
    (hsum : sec3600 + min3600 ≤ INT_MAX) (hi : i < 500) :
    ∃ k : Int, plotIndex sec3600 min3600 i = some k ∧ 0 ≤ k ∧ k ≤ 3599 := by
  have hv0 := Velocity_dbl_nonneg i
  have hv1 := Velocity_dbl_le i hi
  obtain ⟨hf0, hf1⟩ := dilation_dbl_bounds (Velocity_dbl i) hv0 hv1
  have hn : int_add sec3600 min3600 = sec3600 + min3600 := by
    unfold int_add
    apply wrapInt32_of_inRange
    unfold InIntRange INT_MIN
    exact ⟨by omega, hsum⟩
  obtain ⟨ht0, ht1⟩ := scaleUp_dbl_bounds _ (sec3600 + min3600) hf0 hf1 (by omega) hsum
  obtain ⟨hr0, hr1⟩ := c_round_bounds _ 2147483647 ht0 (by exact_mod_cast ht1)
  have hr : InIntRange (c_round (scaleUp_dbl (dilatedTicks_dbl (fl64 (Real.sqrt
      (fl64 (1 - fl64 (fl64 (Velocity_dbl i / 299792458) * fl64 (Velocity_dbl i / 299792458))))))
      (sec3600 + min3600)))) := by
    unfold InIntRange INT_MIN INT_MAX
    exact ⟨by omega, hr1⟩
  have hw := wrap3600_of_nonneg hr0 (show c_round _ ≤ INT_MAX from hr1)
  refine ⟨(c_round (scaleUp_dbl (dilatedTicks_dbl (fl64 (Real.sqrt
      (fl64 (1 - fl64 (fl64 (Velocity_dbl i / 299792458) * fl64 (Velocity_dbl i / 299792458))))))
      (sec3600 + min3600)))) % 3600, ?_, by omega, by omega⟩
  unfold plotIndex time_accumulative
  rw [GetTimeDilation_dbl_eq _ hv0 hv1, hn]
  show Option.map _ (double_to_int (c_round (scaleUp_dbl (dilatedTicks_dbl _ _)))) = _
  unfold double_to_int
  rw [if_pos hr]
  show some (wrap3600 _).time_accumulative_temp = _
  rw [hw]

theorem plotIndex_in_table_witness :
    ((0 : Int) ≤ 3599 ∧ (3599 : Int) ≤ 3599 ∧ (0 : Int) ≤ 2147479200 ∧
      (3599 : Int) + 2147479200 ≤ INT_MAX ∧ (499 : Nat) < 500) ∧
    ∃ k : Int, plotIndex 3599 2147479200 499 = some k ∧ 0 ≤ k ∧ k ≤ 3599 :=
  ⟨by decide,
    plotIndex_in_table 3599 2147479200 499 (by decide) (by decide) (by decide) (by decide)
      (by decide)⟩

theorem time_accumulative_499 (sec3600 min3600 : Int) :
    time_accumulative sec3600 min3600 499 = CDouble.fin 0 := by
  unfold time_accumulative
  rw [GetTimeDilation_dbl_499]
  show CDouble.fin (dilatedTicks_dbl 0 _) = _
  unfold dilatedTicks_dbl
  rw [zero_div, fl64_zero, zero_mul, fl64_zero]

/-! ## Scaling before rounding, in binary64 -/

theorem fl64_error_le (x B : ℝ) (h0 : 0 ≤ x) (hB : x ≤ B) :
    |fl64 x - x| ≤ B / 2 ^ 53 + 1 / 2 ^ 1075 := by
  have h := fl64_error x
  rw [abs_of_nonneg h0] at h
  have : x / 2 ^ 53 ≤ B / 2 ^ 53 := div_le_div_of_nonneg_right hB (by positivity)
  linarith

theorem c_round_close (x y : ℝ) (hx : 0 ≤ x) (hy : 0 ≤ y) (h : |x - y| ≤ 1) :
    |c_round x - c_round y| ≤ 1 := by
  obtain ⟨h1, h2⟩ := abs_le.mp h
  unfold c_round
  rw [if_pos hx, if_pos hy]
  have hxy : Int.floor (x + 1 / 2) ≤ Int.floor (y + 1 / 2) + 1 := by
    rw [← Int.floor_add_one]
    exact Int.floor_le_floor (by linarith)
  have hyx : Int.floor (y + 1 / 2) ≤ Int.floor (x + 1 / 2) + 1 := by
    rw [← Int.floor_add_one]
    exact Int.floor_le_floor (by linarith)
  rw [abs_le]
  constructor <;> omega

/-- The argument of `round` as the program computes it is within 1/500000 of
the exact product f * n, for a dilation factor between 0 and 1 and a tick count
between 0 and INT_MAX. -/
theorem scaleUp_dbl_error (f : ℝ) (n : Int) (hf0 : 0 ≤ f) (hf1 : f ≤ 1) (hn0 : 0 ≤ n)
    (hn1 : n ≤ INT_MAX) :
    |scaleUp_dbl (dilatedTicks_dbl f n) - f * (n : ℝ)| ≤ 1 / 500000 := by
  have hnr0 : (0 : ℝ) ≤ (n : ℝ) := by exact_mod_cast hn0
  have hnr1 : (n : ℝ) ≤ 2147483647 := by
    unfold INT_MAX at hn1
    exact_mod_cast hn1
  have h06 : (0 : ℝ) ≤ 5404319552844595 / 2 ^ 53 := by norm_num
  have hT0 : (0 : ℝ) ≤ 1 / 2 ^ 1075 := by positivity
  have hT1 : (1 : ℝ) / 2 ^ 1075 ≤ 1 / 2 ^ 100 :=
    one_div_le_one_div_of_le (by positivity) (pow_le_pow_right₀ (by norm_num) (by norm_num))
  -- f / 60.0
  have ha0 : 0 ≤ f / 60.0 := div_nonneg hf0 (by norm_num)
  have ha1 : f / 60.0 ≤ 1 / 60.0 := div_le_div_of_nonneg_right hf1 (by norm_num)
  have hA0 : 0 ≤ fl64 (f / 60.0) := fl64_nonneg ha0
  have hA1 : fl64 (f / 60.0) ≤ 4803839602528529 / 2 ^ 58 := by
    have := fl64_mono ha0 ha1
    rwa [fl64_inv60] at this
  have eA := abs_le.mp (fl64_error_le _ _ ha0 ha1)
  -- * n
  have hb0 : 0 ≤ fl64 (f / 60.0) * (n : ℝ) := mul_nonneg hA0 hnr0
  have hb1 : fl64 (f / 60.0) * (n : ℝ) ≤ 4803839602528529 / 2 ^ 58 * 2147483647 :=
    mul_le_mul hA1 hnr1 hnr0 (by norm_num)
  have hB0 : 0 ≤ fl64 (fl64 (f / 60.0) * (n : ℝ)) := fl64_nonneg hb0
  have hB1 : fl64 (fl64 (f / 60.0) * (n : ℝ)) ≤ 4803839600291567 / 2 ^ 27 := by
    have := fl64_mono hb0 hb1
    rwa [fl64_u1] at this
  have eB := abs_le.mp (fl64_error_le _ _ hb0 hb1)
  -- * 0.6
  have hc0 : 0 ≤ fl64 (fl64 (f / 60.0) * (n : ℝ)) * (5404319552844595 / 2 ^ 53) :=
    mul_nonneg hB0 h06
  have hc1 : fl64 (fl64 (f / 60.0) * (n : ℝ)) * (5404319552844595 / 2 ^ 53)
      ≤ 4803839600291567 / 2 ^ 27 * (5404319552844595 / 2 ^ 53) :=
    mul_le_mul_of_nonneg_right hB1 h06
  have hC0 : 0 ≤ fl64 (fl64 (fl64 (f / 60.0) * (n : ℝ)) * (5404319552844595 / 2 ^ 53)) :=
    fl64_nonneg hc0
  have hC1 : fl64 (fl64 (fl64 (f / 60.0) * (n : ℝ)) * (5404319552844595 / 2 ^ 53))
      ≤ 720575940043735 / 2 ^ 25 := by
    have := fl64_mono hc0 hc1
    rwa [fl64_u2] at this
  have eC := abs_le.mp (fl64_error_le _ _ hc0 hc1)
  -- * 100
  have hd0 : 0 ≤ fl64 (fl64 (fl64 (f / 60.0) * (n : ℝ)) * (5404319552844595 / 2 ^ 53)) * 100 :=
    mul_nonneg hC0 (by norm_num)
  have hd1 : fl64 (fl64 (fl64 (f / 60.0) * (n : ℝ)) * (5404319552844595 / 2 ^ 53)) * 100
      ≤ 720575940043735 / 2 ^ 25 * 100 :=
    mul_le_mul_of_nonneg_right hC1 (by norm_num)
  have eD := abs_le.mp (fl64_error_le _ _ hd0 hd1)
  -- the error of the quotient, carried through the product with n
  have hfn0 : 0 ≤ f * (n : ℝ) := mul_nonneg hf0 hnr0
  have hfn1 : f * (n : ℝ) ≤ 2147483647 := by
    have := mul_le_mul hf1 hnr1 hnr0 (by norm_num : (0 : ℝ) ≤ 1)
    linarith
  have hAn1 : fl64 (f / 60.0) * (n : ℝ) - f * (n : ℝ) / 60
      ≤ 2147483647 * (1 / 60.0 / 2 ^ 53 + 1 / 2 ^ 1075) := by
    have h1 : (fl64 (f / 60.0) - f / 60.0) * (n : ℝ)
        ≤ (1 / 60.0 / 2 ^ 53 + 1 / 2 ^ 1075) * (n : ℝ) :=
      mul_le_mul_of_nonneg_right eA.2 hnr0
    have h2 : (1 / 60.0 / 2 ^ 53 + 1 / 2 ^ 1075) * (n : ℝ)
        ≤ (1 / 60.0 / 2 ^ 53 + 1 / 2 ^ 1075) * 2147483647 :=
      mul_le_mul_of_nonneg_left hnr1 (by positivity)
    have e : (fl64 (f / 60.0) - f / 60.0) * (n : ℝ)
        = fl64 (f / 60.0) * (n : ℝ) - f * (n : ℝ) / 60 := by
      norm_num
      ring
    linarith
  have hAn0 : -(2147483647 * (1 / 60.0 / 2 ^ 53 + 1 / 2 ^ 1075))
      ≤ fl64 (f / 60.0) * (n : ℝ) - f * (n : ℝ) / 60 := by
    have h1 : -(1 / 60.0 / 2 ^ 53 + 1 / 2 ^ 1075) * (n : ℝ)
        ≤ (fl64 (f / 60.0) - f / 60.0) * (n : ℝ) :=
      mul_le_mul_of_nonneg_right eA.1 hnr0
    have h2 : (1 / 60.0 / 2 ^ 53 + 1 / 2 ^ 1075) * (n : ℝ)
        ≤ (1 / 60.0 / 2 ^ 53 + 1 / 2 ^ 1075) * 2147483647 :=
      mul_le_mul_of_nonneg_left hnr1 (by positivity)
    have e : (fl64 (f / 60.0) - f / 60.0) * (n : ℝ)
        = fl64 (f / 60.0) * (n : ℝ) - f * (n : ℝ) / 60 := by
      norm_num
      ring
    linarith
  unfold scaleUp_dbl dilatedTicks_dbl
  rw [fl64_lit_06]
  obtain ⟨eB0, eB1⟩ := eB
  obtain ⟨eC0, eC1⟩ := eC
  obtain ⟨eD0, eD1⟩ := eD
  generalize fl64 (fl64 (fl64 (fl64 (f / 60.0) * (n : ℝ)) * (5404319552844595 / 2 ^ 53)) * 100)
    = d at *
  generalize fl64 (fl64 (fl64 (f / 60.0) * (n : ℝ)) * (5404319552844595 / 2 ^ 53)) = c at *
  generalize fl64 (fl64 (f / 60.0) * (n : ℝ)) = b at *
  generalize fl64 (f / 60.0) * (n : ℝ) = an at *
  generalize f * (n : ℝ) = fn at *
  generalize (1 : ℝ) / 2 ^ 1075 = T at *
  rw [abs_le]
  constructor <;> norm_num at * <;> linarith

theorem GetTimeDilation_dbl_41 :
    GetTimeDilation_dbl (Velocity_dbl 41) = CDouble.fin (8975365601798805 / 2 ^ 53) := by
  rw [Velocity_dbl_41, GetTimeDilation_dbl_eq _ (by norm_num) (by norm_num), fl64_q_41,
    fl64_p_41, fl64_r_41, fl64_f_41]

theorem time_accumulative_temp_41 :
    time_accumulative_temp (time_accumulative 707 15832800 41) = some 15777548 := by
  have hn : int_add 707 15832800 = 15833507 := by decide
  unfold time_accumulative
  rw [GetTimeDilation_dbl_41, hn]
  show double_to_int (c_round (scaleUp_dbl (dilatedTicks_dbl _ _))) = _
  unfold scaleUp_dbl dilatedTicks_dbl
  rw [fl64_t0_41, fl64_t1_41, fl64_lit_06, fl64_t2_41, fl64_t3_41]
  have hr : c_round (31555095 / 2 ^ 1 : ℝ) = 15777548 := by
    unfold c_round
    rw [if_pos (by norm_num)]
    rw [Int.floor_eq_iff]
    constructor <;> norm_num
  rw [hr]
  decide

/-- C9 (counterexample to the claim as stated): at radius sample 41 with
sec3600 = 707 and min3600 = 15832800 the dilation factor the program computes
is f = 8975365601798805 / 2^53 and the tick count is n = 15833507; the program
leaves 15777548 in time_accumulative_temp (the argument of round is
15777547.5), while round(f * n) = 15777547. -/
theorem time_accumulative_temp_not_round :
    GetTimeDilation_dbl (Velocity_dbl 41) = CDouble.fin (8975365601798805 / 2 ^ 53) ∧
    int_add 707 15832800 = 15833507 ∧
    time_accumulative_temp (time_accumulative 707 15832800 41) = some 15777548 ∧
    c_round ((8975365601798805 / 2 ^ 53 : ℝ) * ((15833507 : Int) : ℝ)) = 15777547 := by
  refine ⟨GetTimeDilation_dbl_41, by decide, time_accumulative_temp_41, ?_⟩
  unfold c_round
  rw [if_pos (by norm_num)]
  rw [Int.floor_eq_iff]
  constructor <;> norm_num

/-- C9 (as amended): over exact real arithmetic the scale-up is exactly the
inverse of the /60.0 scale-down, ((f / 60.0) * n) * 0.6 * 100 =
time_accumulative * 60 = f * n; as the program computes it in binary64 double
arithmetic, for every dilation factor 0 ≤ f ≤ 1 and every tick count
0 ≤ n ≤ INT_MAX the argument of round is within 1/500000 of f * n, and
time_accumulative_temp is an int that differs from round(f * n) by at most 1. -/
theorem scaleUp_dbl_dilatedTicks (f : ℝ) (n : Int) (hf0 : 0 ≤ f) (hf1 : f ≤ 1) (hn0 : 0 ≤ n)
    (hn1 : n ≤ INT_MAX) :
    scaleUp (dilatedTicks f n) = dilatedTicks f n * 60 ∧
    scaleUp (dilatedTicks f n) = f * (n : ℝ) ∧
    |scaleUp_dbl (dilatedTicks_dbl f n) - f * (n : ℝ)| ≤ 1 / 500000 ∧
    ∃ t : Int, time_accumulative_temp (CDouble.fin (dilatedTicks_dbl f n)) = some t ∧
      |t - c_round (f * (n : ℝ))| ≤ 1 := by
  have hnr0 : (0 : ℝ) ≤ (n : ℝ) := by exact_mod_cast hn0
  have herr := scaleUp_dbl_error f n hf0 hf1 hn0 hn1
  obtain ⟨ht0, ht1⟩ := scaleUp_dbl_bounds f n hf0 hf1 hn0 hn1
  obtain ⟨hr0, hr1⟩ := c_round_bounds _ 2147483647 ht0 (by exact_mod_cast ht1)
  have hr : InIntRange (c_round (scaleUp_dbl (dilatedTicks_dbl f n))) := by
    unfold InIntRange INT_MIN INT_MAX
    exact ⟨by omega, hr1⟩
  refine ⟨?_, scaleUp_dilatedTicks_eq f n, herr, c_round (scaleUp_dbl (dilatedTicks_dbl f n)),
    ?_, ?_⟩
  · unfold scaleUp
    norm_num
    ring
  · show double_to_int _ = _
    unfold double_to_int
    rw [if_pos hr]
  · apply c_round_close _ _ ht0 (mul_nonneg hf0 hnr0)
    linarith

theorem scaleUp_dbl_dilatedTicks_witness :
    ((0 : ℝ) ≤ 1 ∧ (1 : ℝ) ≤ 1 ∧ (0 : Int) ≤ 3599 ∧ (3599 : Int) ≤ INT_MAX) ∧
    scaleUp (dilatedTicks 1 3599) = (1 : ℝ) * ((3599 : Int) : ℝ) ∧
    |scaleUp_dbl (dilatedTicks_dbl 1 3599) - (1 : ℝ) * ((3599 : Int) : ℝ)| ≤ 1 / 500000 :=
  have h := scaleUp_dbl_dilatedTicks 1 3599 zero_le_one (le_refl 1) (by decide) (by decide)
  ⟨⟨zero_le_one, le_refl 1, by decide, by decide⟩, h.2.1, h.2.2.1⟩

/-! ## The exact readings against the binary64 computation -/

/-- The entry of the velocity table the program holds is within 1e-6 of the
exact value of the expression of line 278. -/
theorem Velocity_dbl_close (i : Nat) (hi : i < 500) :
    |Velocity_dbl i - ((Velocity i : ℚ) : ℝ)| ≤ 1 / 1000000 := by
  have hm1 : (1 : ℝ) ≤ (i : ℝ) + 1 := by
    have : (0 : ℝ) ≤ (i : ℝ) := Nat.cast_nonneg i
    linarith
  have hm2 : (i : ℝ) + 1 ≤ 499 + 1 := by
    have : (i : ℝ) ≤ 499 := by exact_mod_cast Nat.le_of_lt_succ hi
    linarith
  have hT1 : (1 : ℝ) / 2 ^ 1075 ≤ 1 / 2 ^ 100 :=
    one_div_le_one_div_of_le (by positivity) (pow_le_pow_right₀ (by norm_num) (by norm_num))
  have hT0 : (0 : ℝ) ≤ 1 / 2 ^ 1075 := by positivity
  -- step * (counter + 1)
  have hs0 : (0 : ℝ) ≤ 3073915712527587 / 2 ^ 29 * ((i : ℝ) + 1) :=
    mul_nonneg (by norm_num) (by linarith)
  have hs1 : (3073915712527587 / 2 ^ 29 : ℝ) * ((i : ℝ) + 1)
      ≤ 3073915712527587 / 2 ^ 29 * (499 + 1) :=
    mul_le_mul_of_nonneg_left hm2 (by norm_num)
  have hS0 := fl64_nonneg hs0
  have hS1 : fl64 (3073915712527587 / 2 ^ 29 * ((i : ℝ) + 1)) ≤ 6003741626030443 / 2 ^ 21 := by
    have := fl64_mono hs0 hs1
    rwa [fl64_step_499] at this
  have eS := abs_le.mp (fl64_error_le _ _ hs0 hs1)
  -- 2 pi * ...
  have hc0 : (0 : ℝ) ≤ 884279719003555 / 2 ^ 47
      * fl64 (3073915712527587 / 2 ^ 29 * ((i : ℝ) + 1)) :=
    mul_nonneg (by norm_num) hS0
  have hc1 : (884279719003555 / 2 ^ 47 : ℝ)
      * fl64 (3073915712527587 / 2 ^ 29 * ((i : ℝ) + 1))
      ≤ 884279719003555 / 2 ^ 47 * (6003741626030443 / 2 ^ 21) :=
    mul_le_mul_of_nonneg_left hS1 (by norm_num)
  have hC0 := fl64_nonneg hc0
  have hC1 : fl64 (884279719003555 / 2 ^ 47
      * fl64 (3073915712527587 / 2 ^ 29 * ((i : ℝ) + 1))) ≤ 17987547480 := by
    have := fl64_mono hc0 hc1
    rwa [fl64_circ_499] at this
  have eC := abs_le.mp (fl64_error_le _ _ hc0 hc1)
  -- / 60
  have hv0 : (0 : ℝ) ≤ fl64 (884279719003555 / 2 ^ 47
      * fl64 (3073915712527587 / 2 ^ 29 * ((i : ℝ) + 1))) / 60 :=
    div_nonneg hC0 (by norm_num)
  have hv1 : fl64 (884279719003555 / 2 ^ 47
      * fl64 (3073915712527587 / 2 ^ 29 * ((i : ℝ) + 1))) / 60 ≤ 17987547480 / 60 :=
    div_le_div_of_nonneg_right hC1 (by norm_num)
  have eV := abs_le.mp (fl64_error_le _ _ hv0 hv1)
  unfold Velocity_dbl Velocity
  rw [fl64_two_pi, fl64_radius_step]
  push_cast
  obtain ⟨eS0, eS1⟩ := eS
  obtain ⟨eC0, eC1⟩ := eC
  obtain ⟨eV0, eV1⟩ := eV
  generalize fl64 (fl64 (884279719003555 / 2 ^ 47
      * fl64 (3073915712527587 / 2 ^ 29 * ((i : ℝ) + 1))) / 60) = v at *
  generalize fl64 (884279719003555 / 2 ^ 47
      * fl64 (3073915712527587 / 2 ^ 29 * ((i : ℝ) + 1))) = c at *
  generalize fl64 (3073915712527587 / 2 ^ 29 * ((i : ℝ) + 1)) = s at *
  generalize (i : ℝ) + 1 = m at *
  generalize (1 : ℝ) / 2 ^ 1075 = T at *
  rw [abs_le]
  constructor <;> norm_num at * <;> linarith

/-- The calibration bound of the exact reading holds of the table the program
holds as well: every entry is within 1e-3 of the specified velocity. -/
theorem Velocity_dbl_calibration (i : Nat) (hi : i < 500) :
    |Velocity_dbl i - ((specVelocity i : ℚ) : ℝ)| < 1 / 1000 := by
  have h1 := abs_le.mp (Velocity_dbl_close i hi)
  have hq : (i : ℚ) + 1 ≤ 500 := by
    have : (i : ℚ) ≤ 499 := by exact_mod_cast Nat.le_of_lt_succ hi
    linarith
  have hp : (0 : ℚ) < (i : ℚ) + 1 := by positivity
  obtain ⟨hlo, hhi⟩ := Velocity_zero_bounds
  have hspec : specVelocity i = ((i : ℚ) + 1) * 599584.916 := by
    unfold specVelocity
    norm_num
    ring
  have h2 : |Velocity i - specVelocity i| ≤ 1 / 10000 := by
    rw [Velocity_eq i, hspec, abs_le]
    constructor <;> nlinarith
  have h3 : |((Velocity i : ℚ) : ℝ) - ((specVelocity i : ℚ) : ℝ)| ≤ 1 / 10000 := by
    have : ((|Velocity i - specVelocity i| : ℚ) : ℝ) ≤ ((1 / 10000 : ℚ) : ℝ) :=
      Rat.cast_le.mpr h2
    push_cast at this
    exact this
  have h4 := abs_le.mp h3
  rw [abs_lt]
  constructor <;> linarith [h1.1, h1.2, h4.1, h4.2]

theorem fl64_above_one : fl64 (1 + 1 / 2 ^ 24 / 299792458) = 1 + 1 / 2 ^ 52 :=
  fl64_eval_pos _ _ (0) 4503599627370497 (by norm_num) (by norm_num) (by norm_num) (by norm_num)
    (by norm_num) (by norm_num)

theorem fl64_above_one_sq : fl64 (1 + 1 / 2 ^ 51) = 1 + 1 / 2 ^ 51 :=
  fl64_eval_pos _ _ (0) 4503599627370498 (by norm_num) (by norm_num) (by norm_num) (by norm_num)
    (by norm_num) (by norm_num)

/-- The boundary between a number and NaN is the same in binary64 as in the
exact reading: for every velocity from the first double above C on, the
radicand the program computes is negative and GetTimeDilation returns NaN
(where the square overflows on the machine the radicand is minus infinity, and
`sqrt` yields NaN there as well). -/
theorem GetTimeDilation_dbl_of_gt (v : ℝ) (h : 299792458 + 1 / 2 ^ 24 ≤ v) :
    GetTimeDilation_dbl v = CDouble.nan := by
  have hq : (1 : ℝ) + 1 / 2 ^ 24 / 299792458 ≤ v / 299792458 := by
    rw [le_div_iff₀ (by norm_num)]
    have e : ((1 : ℝ) + 1 / 2 ^ 24 / 299792458) * 299792458 = 299792458 + 1 / 2 ^ 24 := by
      norm_num
    rw [e]
    exact h
  have hQ : 1 + 1 / 2 ^ 52 ≤ fl64 (v / 299792458) := by
    have := fl64_mono (by norm_num : (0 : ℝ) ≤ 1 + 1 / 2 ^ 24 / 299792458) hq
    rwa [fl64_above_one] at this
  have hp : (1 : ℝ) + 1 / 2 ^ 51 ≤ fl64 (v / 299792458) * fl64 (v / 299792458) := by
    have h1 := mul_le_mul hQ hQ (by norm_num) (by linarith [show (0 : ℝ) ≤ 1 / 2 ^ 52 by norm_num])
    have e : ((1 : ℝ) + 1 / 2 ^ 52) * (1 + 1 / 2 ^ 52) = 1 + 1 / 2 ^ 51 + 1 / 2 ^ 104 := by
      norm_num
    rw [e] at h1
    have : (0 : ℝ) ≤ 1 / 2 ^ 104 := by positivity
    linarith
  have hP : 1 + 1 / 2 ^ 51 ≤ fl64 (fl64 (v / 299792458) * fl64 (v / 299792458)) := by
    have := fl64_mono (by norm_num : (0 : ℝ) ≤ 1 + 1 / 2 ^ 51) hp
    rwa [fl64_above_one_sq] at this
  have hr : 1 - fl64 (fl64 (v / 299792458) * fl64 (v / 299792458)) ≤ -(1 / 2 ^ 51) := by
    linarith
  have hR : fl64 (1 - fl64 (fl64 (v / 299792458) * fl64 (v / 299792458))) < 0 := by
    have he := fl64_error (1 - fl64 (fl64 (v / 299792458) * fl64 (v / 299792458)))
    rw [abs_of_neg (by linarith [show (0 : ℝ) < 1 / 2 ^ 51 by positivity] :
      1 - fl64 (fl64 (v / 299792458) * fl64 (v / 299792458)) < 0)] at he
    have he1 := (abs_le.mp he).2
    have hT1 : (1 : ℝ) / 2 ^ 1075 ≤ 1 / 2 ^ 100 :=
      one_div_le_one_div_of_le (by positivity) (pow_le_pow_right₀ (by norm_num) (by norm_num))
    generalize fl64 (1 - fl64 (fl64 (v / 299792458) * fl64 (v / 299792458))) = R at *
    generalize 1 - fl64 (fl64 (v / 299792458) * fl64 (v / 299792458)) = r at *
    generalize (1 : ℝ) / 2 ^ 1075 = T at *
    norm_num at *
    linarith
  unfold GetTimeDilation_dbl c_sqrt_dbl
  simp only []
  rw [if_pos hR]

/-! ## The frame loop: range of `min3600` -/

theorem minuteRollover_min3600 (s : DilationState) (min : Int) :
    (minuteRollover s min).min3600
      = if minuteChanged s min then int_add s.min3600 3600 else s.min3600 := by
  obtain ⟨L, m, t⟩ := s
  unfold minuteRollover minuteChanged
  by_cases h1 : L = -1
  · simp [h1]
  · by_cases h2 : L = min
    · subst h2
      simp [h1]
    · simp [h1, h2]

theorem radiusDrawLoop_fst (sec3600 min3600 : Int) (ta0 : CDouble) :
    (radiusDrawLoop sec3600 min3600 ta0).1 = time_accumulative sec3600 min3600 499 := by
  have h : List.range 500 = List.range 499 ++ [499] := List.range_succ 499
  unfold radiusDrawLoop
  rw [h, List.foldl_append, List.foldl_cons, List.foldl_nil]

theorem frame_min3600 (s : MainState) (min sec3600 : Int) :
    (frame s min sec3600).dil.min3600 = (minuteRollover s.dil min).min3600 := rfl

theorem frame_time_accumulative (s : MainState) (min sec3600 : Int) :
    (frame s min sec3600).time_accumulative = CDouble.fin 0 := by
  unfold frame
  simp only []
  rw [radiusDrawLoop_fst, time_accumulative_499]

theorem DBL_MAX_half_pos : (0 : ℝ) < (DBL_MAX : ℝ) * 0.5 := by
  have h : (0 : ℚ) < DBL_MAX := by
    unfold DBL_MAX
    apply mul_pos
    · norm_num
    · positivity
  have hr : (0 : ℝ) < (DBL_MAX : ℝ) := by exact_mod_cast h
  linarith

theorem frameBreaks_iff (s : MainState) (min sec3600 : Int) :
    frameBreaks s min sec3600 ↔ (minuteRollover s.dil min).min3600 > INT_MAX - 7200 := by
  unfold frameBreaks typeLimitGuard
  rw [frame_time_accumulative, frame_min3600]
  have h : int_sub INT_MAX 7200 = INT_MAX - 7200 := by decide
  rw [h]
  constructor
  · rintro (h1 | h1)
    · have hpos : (0 : ℝ) < (DBL_MAX : ℝ) * 0.5 := DBL_MAX_half_pos
      have hle : (DBL_MAX : ℝ) * 0.5 ≤ 0 := h1
      exact absurd hle (not_le.mpr hpos)
    · exact h1
  · intro h1
    exact Or.inr h1

theorem FrameStart_min3600 (s : MainState) (hs : FrameStart s) :
    0 ≤ s.dil.min3600 ∧ 3600 ∣ s.dil.min3600 ∧ s.dil.min3600 ≤ INT_MAX - 7200 := by
  induction hs with
  | init => decide
  | @next s0 min sec3600 _ _ _ _ _ hnb ih =>
    obtain ⟨h0, hdvd, hle⟩ := ih
    rw [frameBreaks_iff] at hnb
    rw [frame_min3600]
    rw [minuteRollover_min3600] at hnb ⊢
    unfold INT_MAX at hle hnb ⊢
    by_cases hc : minuteChanged s0.dil min
    · rw [if_pos hc] at hnb ⊢
      have hadd : int_add s0.dil.min3600 3600 = s0.dil.min3600 + 3600 := by
        unfold int_add wrapInt32
        omega
      rw [hadd] at hnb ⊢
      refine ⟨by omega, ?_, by omega⟩
      exact Dvd.dvd.add hdvd (dvd_refl 3600)
    · rw [if_neg hc] at hnb ⊢
      exact ⟨h0, hdvd, by omega⟩

/-- The run that observes minute 5 and then minute 6 reaches the start of a
third frame, with one minute change counted. -/
theorem FrameStart_after_change : FrameStart (frame (frame mainInit 5 0) 6 0) := by
  have h1 : ¬ frameBreaks mainInit 5 0 := by
    rw [frameBreaks_iff]
    decide
  have h2 : ¬ frameBreaks (frame mainInit 5 0) 6 0 := by
    rw [frameBreaks_iff]
    decide
  exact FrameStart.next 6 0
    (FrameStart.next 5 0 FrameStart.init (by decide) (by decide) (by decide) (by decide) h1)
    (by decide) (by decide) (by decide) (by decide) h2

/-- C6: in every run of the frame loop from the initial state (each frame a
step with an observed minute in 0..59 and sec3600 in 0..3599, the run going on
only while the guard at the end of the frame has not tripped), min3600 at the
start of every frame is a non-negative multiple of 3600 that is at most
INT_MAX - 7200; the frame never decreases it; and neither min3600 += 3600 nor
sec3600 + min3600 exceeds INT_MAX = 2147483647 (no addition wraps). -/
theorem min3600_no_overflow (s : MainState) (hs : FrameStart s) (min sec3600 : Int)
    (hsec0 : 0 ≤ sec3600) (hsec1 : sec3600 ≤ 3599) :
    (0 ≤ s.dil.min3600 ∧ 3600 ∣ s.dil.min3600 ∧ s.dil.min3600 ≤ INT_MAX - 7200) ∧
    s.dil.min3600 ≤ (frame s min sec3600).dil.min3600 ∧
    s.dil.min3600 + 3600 ≤ INT_MAX ∧
    sec3600 + (frame s min sec3600).dil.min3600 ≤ INT_MAX ∧
    frameNoWrap s.dil min sec3600 ∧
    INT_MAX = 2147483647 := by
  obtain ⟨h0, hdvd, hle⟩ := FrameStart_min3600 s hs
  have hadd : int_add s.dil.min3600 3600 = s.dil.min3600 + 3600 := by
    unfold INT_MAX at hle
    unfold int_add wrapInt32
    omega
  have hroll : (minuteRollover s.dil min).min3600 = s.dil.min3600 ∨
      (minuteRollover s.dil min).min3600 = s.dil.min3600 + 3600 := by
    rw [minuteRollover_min3600]
    by_cases hc : minuteChanged s.dil min
    · rw [if_pos hc, hadd]; exact Or.inr rfl
    · rw [if_neg hc]; exact Or.inl rfl
  unfold INT_MAX at hle ⊢
  refine ⟨⟨h0, hdvd, hle⟩, ?_, by omega, ?_, ⟨fun _ => hadd, ?_⟩, rfl⟩
  · rw [frame_min3600]
    rcases hroll with h | h <;> omega
  · rw [frame_min3600]
    rcases hroll with h | h <;> omega
  · unfold int_add wrapInt32
    rcases hroll with h | h <;> rw [h] <;> omega

theorem min3600_no_overflow_witness :
    (FrameStart mainInit ∧ (0 : Int) ≤ 3599 ∧ (3599 : Int) ≤ 3599 ∧
      mainInit.dil.min3600 ≤ (frame mainInit 5 3599).dil.min3600 ∧
      3599 + (frame mainInit 5 3599).dil.min3600 ≤ INT_MAX) ∧
    (FrameStart (frame (frame mainInit 5 0) 6 0) ∧ (0 : Int) ≤ 3599 ∧ (3599 : Int) ≤ 3599 ∧
      (frame (frame mainInit 5 0) 6 0).dil.min3600
        ≤ (frame (frame (frame mainInit 5 0) 6 0) 7 3599).dil.min3600 ∧
      3599 + (frame (frame (frame mainInit 5 0) 6 0) 7 3599).dil.min3600 ≤ INT_MAX ∧
      frameNoWrap (frame (frame mainInit 5 0) 6 0).dil 7 3599) :=
  have h := min3600_no_overflow mainInit FrameStart.init 5 3599 (by decide) (by decide)
  have g := min3600_no_overflow (frame (frame mainInit 5 0) 6 0) FrameStart_after_change 7 3599
    (by decide) (by decide)
  ⟨⟨FrameStart.init, by decide, by decide, h.2.1, h.2.2.2.1⟩,
    ⟨FrameStart_after_change, by decide, by decide, g.2.1, g.2.2.2.1, g.2.2.2.2.1⟩⟩

/-! ## The frame loop: the minute counters -/

theorem frame_dil (s : MainState) (min sec3600 : Int) :
    (frame s min sec3600).dil = minuteRollover s.dil min := rfl

theorem framesRun_cons (s : MainState) (o : Int × Int) (rest : List (Int × Int)) :
    framesRun s (o :: rest) =
      frame s o.1 o.2 ::
        (if (minuteRollover s.dil o.1).min3600 > INT_MAX - 7200 then []
          else framesRun (frame s o.1 o.2) rest) := by
  rw [framesRun]
  by_cases h : frameBreaks s o.1 o.2
  · rw [if_pos h, if_pos ((frameBreaks_iff _ _ _).mp h)]
  · rw [if_neg h, if_neg (fun h1 => h ((frameBreaks_iff _ _ _).mpr h1))]

theorem minuteChanges_cons_cons (a b : Int) (rest : List Int) :
    minuteChanges (a :: b :: rest) = (if a ≠ b then 1 else 0) + minuteChanges (b :: rest) := rfl

/-- One frame of a run that is tracking the minute, with the counters in step
and `min3600` not above INT_MAX - 7200: neither counter wraps. -/
theorem minuteRollover_step (d : DilationState) (min : Int) (hL : d.Last_min ≠ -1)
    (h0 : 0 ≤ d.time_elapsed) (hm : d.min3600 = 3600 * d.time_elapsed)
    (hle : d.min3600 ≤ INT_MAX - 7200) :
    (minuteRollover d min).Last_min = min ∧
    (minuteRollover d min).time_elapsed
      = d.time_elapsed + (if d.Last_min ≠ min then 1 else 0 : Nat) ∧
    (minuteRollover d min).min3600 = 3600 * (minuteRollover d min).time_elapsed := by
  rw [minuteRollover_tracking d min hL]
  unfold INT_MAX at hle
  by_cases hc : d.Last_min ≠ min
  · rw [if_pos hc, if_pos hc]
    have h1 : int_add d.min3600 3600 = d.min3600 + 3600 := by
      unfold int_add wrapInt32
      omega
    have h2 : int_add d.time_elapsed 1 = d.time_elapsed + 1 := by
      unfold int_add wrapInt32
      omega
    refine ⟨rfl, ?_, ?_⟩
    · show int_add d.time_elapsed 1 = _
      rw [h2]
      rfl
    · show int_add d.min3600 3600 = 3600 * int_add d.time_elapsed 1
      rw [h1, h2]
      omega
  · rw [if_neg hc, if_neg hc]
    have hc1 : d.Last_min = min := not_not.mp hc
    refine ⟨hc1, ?_, hm⟩
    simp

/-- The counters after the k-th further frame of a run that is tracking the
minute. -/
theorem framesRun_tracking (obs : List (Int × Int)) :
    ∀ (s : MainState) (k : Nat) (s1 : MainState),
      (∀ o ∈ obs, 0 ≤ o.1) → s.dil.Last_min ≠ -1 → 0 ≤ s.dil.time_elapsed →
      s.dil.min3600 = 3600 * s.dil.time_elapsed → s.dil.min3600 ≤ INT_MAX - 7200 →
      (framesRun s obs)[k]? = some s1 →
      s1.dil.time_elapsed = s.dil.time_elapsed
          + (minuteChanges (s.dil.Last_min :: (obs.take (k + 1)).map Prod.fst) : Nat) ∧
      s1.dil.min3600 = 3600 * s1.dil.time_elapsed ∧
      (obs.map Prod.fst)[k]? = some s1.dil.Last_min := by
  induction obs with
  | nil =>
    intro s k s1 _ _ _ _ _ h
    simp [framesRun] at h
  | cons o rest ih =>
    intro s k s1 hobs hL h0 hm hle h
    rw [framesRun_cons] at h
    obtain ⟨e1, e2, e3⟩ := minuteRollover_step s.dil o.1 hL h0 hm hle
    cases k with
    | zero =>
      have hs1 : s1 = frame s o.1 o.2 := by
        simp at h
        exact h.symm
      rw [hs1, frame_dil]
      refine ⟨?_, e3, ?_⟩
      · rw [e2]
        simp [minuteChanges]
      · simp [e1]
    | succ k =>
      by_cases hb : (minuteRollover s.dil o.1).min3600 > INT_MAX - 7200
      · rw [if_pos hb] at h
        simp at h
      · rw [if_neg hb] at h
        have h1 : (framesRun (frame s o.1 o.2) rest)[k]? = some s1 := by
          simpa using h
        have ho : (0 : Int) ≤ o.1 := hobs o (List.mem_cons_self _ _)
        have hL1 : (frame s o.1 o.2).dil.Last_min ≠ -1 := by
          rw [frame_dil, e1]
          omega
        have h01 : 0 ≤ (frame s o.1 o.2).dil.time_elapsed := by
          rw [frame_dil, e2]
          omega
        obtain ⟨r1, r2, r3⟩ := ih (frame s o.1 o.2) k s1
          (fun p hp => hobs p (List.mem_cons_of_mem _ hp)) hL1 h01
          (by rw [frame_dil]; exact e3) (by rw [frame_dil]; exact not_lt.mp hb) h1
        rw [frame_dil, e1, e2] at r1
        refine ⟨?_, r2, ?_⟩
        · rw [r1]
          simp only [List.take_succ_cons, List.map_cons]
          rw [minuteChanges_cons_cons]
          push_cast
          ring
        · simpa using r3

/-- The k-th further frame of a run that is tracking the minute is executed
when the frames before it bring at most 596521 minute changes in all. -/
theorem framesRun_length (obs : List (Int × Int)) :
    ∀ (s : MainState) (k : Nat),
      (∀ o ∈ obs, 0 ≤ o.1) → s.dil.Last_min ≠ -1 → 0 ≤ s.dil.time_elapsed →
      s.dil.min3600 = 3600 * s.dil.time_elapsed → s.dil.min3600 ≤ INT_MAX - 7200 →
      k < obs.length →
      s.dil.time_elapsed
        + (minuteChanges (s.dil.Last_min :: (obs.take k).map Prod.fst) : Nat) ≤ 596521 →
      k < (framesRun s obs).length := by
  induction obs with
  | nil =>
    intro s k _ _ _ _ _ hk
    simp at hk
  | cons o rest ih =>
    intro s k hobs hL h0 hm hle hk hc
    rw [framesRun_cons]
    obtain ⟨e1, e2, e3⟩ := minuteRollover_step s.dil o.1 hL h0 hm hle
    cases k with
    | zero => simp
    | succ k =>
      simp only [List.take_succ_cons, List.map_cons] at hc
      rw [minuteChanges_cons_cons] at hc
      push_cast at hc
      have hge : (0 : Int) ≤ (minuteChanges (o.1 :: (rest.take k).map Prod.fst) : Nat) :=
        Int.ofNat_nonneg _
      have hb : ¬ (minuteRollover s.dil o.1).min3600 > INT_MAX - 7200 := by
        rw [e3, e2]
        unfold INT_MAX
        push_cast
        omega
      rw [if_neg hb]
      have ho : (0 : Int) ≤ o.1 := hobs o (List.mem_cons_self _ _)
      have hL1 : (frame s o.1 o.2).dil.Last_min ≠ -1 := by
        rw [frame_dil, e1]
        omega
      have h01 : 0 ≤ (frame s o.1 o.2).dil.time_elapsed := by
        rw [frame_dil, e2]
        omega
      have := ih (frame s o.1 o.2) k
        (fun p hp => hobs p (List.mem_cons_of_mem _ hp)) hL1 h01
        (by rw [frame_dil]; exact e3) (by rw [frame_dil]; exact not_lt.mp hb)
        (by simpa using hk)
        (by rw [frame_dil, e1, e2]; push_cast; omega)
      simpa using this

theorem framesRun_mainInit_cons (o : Int × Int) (rest : List (Int × Int)) :
    framesRun mainInit (o :: rest) =
      frame mainInit o.1 o.2 :: framesRun (frame mainInit o.1 o.2) rest := by
  rw [framesRun_cons]
  have h : mainInit.dil = initState := rfl
  rw [h, minuteRollover_first]
  exact congrArg _ (if_neg (show ¬ ((0 : Int) > INT_MAX - 7200) by decide))

/-- The minute counters of the run on the six observed minutes 5, 5, 5, 6, 6, 7,
whatever the tick positions. -/
theorem framesRun_six (a b c d e f : Int) :
    (framesRun mainInit [(5, a), (5, b), (5, c), (6, d), (6, e), (7, f)]).map
        (fun s => s.dil)
      = [{ Last_min := 5, min3600 := 0, time_elapsed := 0 },
         { Last_min := 5, min3600 := 0, time_elapsed := 0 },
         { Last_min := 5, min3600 := 0, time_elapsed := 0 },
         { Last_min := 6, min3600 := 3600, time_elapsed := 1 },
         { Last_min := 6, min3600 := 3600, time_elapsed := 1 },
         { Last_min := 7, min3600 := 7200, time_elapsed := 2 }] := by
  have h0 : mainInit.dil = initState := rfl
  have e1 : minuteRollover initState 5 = { Last_min := 5, min3600 := 0, time_elapsed := 0 } := by
    decide
  have e2 : minuteRollover { Last_min := 5, min3600 := 0, time_elapsed := 0 } 5
      = { Last_min := 5, min3600 := 0, time_elapsed := 0 } := by decide
  have e3 : minuteRollover { Last_min := 5, min3600 := 0, time_elapsed := 0 } 6
      = { Last_min := 6, min3600 := 3600, time_elapsed := 1 } := by decide
  have e4 : minuteRollover { Last_min := 6, min3600 := 3600, time_elapsed := 1 } 6
      = { Last_min := 6, min3600 := 3600, time_elapsed := 1 } := by decide
  have e5 : minuteRollover { Last_min := 6, min3600 := 3600, time_elapsed := 1 } 7
      = { Last_min := 7, min3600 := 7200, time_elapsed := 2 } := by decide
  have g0 : ¬ ((0 : Int) > INT_MAX - 7200) := by decide
  have g1 : ¬ ((3600 : Int) > INT_MAX - 7200) := by decide
  have g2 : ¬ ((7200 : Int) > INT_MAX - 7200) := by decide
  have hnil : ∀ s : MainState, framesRun s [] = [] := fun _ => rfl
  simp only [framesRun_cons, hnil, frame_dil, h0, e1, e2, e3, e4, e5, if_neg g0, if_neg g1,
    if_neg g2, List.map_cons, List.map_nil]

/-- C3: in the frame loop of main, started from Last_min = -1, min3600 = 0,
time_elapsed = 0 and run on any finite sequence of observations (a minute in
0..59 and a tick position per frame) for as long as the guard of line 455 has
not ended the run: the k-th frame (counted from 0) is executed when the frames
before it bring at most 596521 minute changes, and after every executed k-th
frame time_elapsed equals the number of frames from the second to the k-th
whose minute differs from the previous frame's minute, min3600 equals
3600 * time_elapsed, and Last_min equals the k-th minute; the first frame never
increments. For the minutes [5,5,5,6,6,7] min3600 runs [0,0,0,3600,3600,7200]
and time_elapsed runs [0,0,0,1,1,2]. -/
theorem framesRun_minuteCounters (obs : List (Int × Int))
    (hobs : ∀ o ∈ obs, 0 ≤ o.1 ∧ o.1 ≤ 59) (k : Nat) (hk : k < obs.length) :
    (minuteChanges ((obs.take k).map Prod.fst) ≤ 596521 →
      k < (framesRun mainInit obs).length) ∧
    (∀ s : MainState, (framesRun mainInit obs)[k]? = some s →
      s.dil.time_elapsed = (minuteChanges ((obs.take (k + 1)).map Prod.fst) : Nat) ∧
      s.dil.min3600 = 3600 * s.dil.time_elapsed ∧
      s.dil.Last_min = (obs.get ⟨k, hk⟩).1 ∧
      (k = 0 → s.dil.time_elapsed = 0 ∧ s.dil.min3600 = 0)) ∧
    (∀ a b c d e f : Int,
      (framesRun mainInit [(5, a), (5, b), (5, c), (6, d), (6, e), (7, f)]).map
          (fun s => (s.dil.min3600, s.dil.time_elapsed))
        = [(0, 0), (0, 0), (0, 0), (3600, 1), (3600, 1), (7200, 2)]) := by
  refine ⟨?_, ?_, ?_⟩
  · intro hc
    cases obs with
    | nil => simp at hk
    | cons o rest =>
      rw [framesRun_mainInit_cons]
      cases k with
      | zero => simp
      | succ k =>
        have h0 : mainInit.dil = initState := rfl
        have hd : (frame mainInit o.1 o.2).dil
            = { Last_min := o.1, min3600 := 0, time_elapsed := 0 } := by
          rw [frame_dil, h0, minuteRollover_first]
        have ho := (hobs o (List.mem_cons_self _ _)).1
        have hL : (frame mainInit o.1 o.2).dil.Last_min = o.1 := by rw [hd]
        have hte : (frame mainInit o.1 o.2).dil.time_elapsed = 0 := by rw [hd]
        have hmin : (frame mainInit o.1 o.2).dil.min3600 = 0 := by rw [hd]
        have := framesRun_length rest (frame mainInit o.1 o.2) k
          (fun p hp => (hobs p (List.mem_cons_of_mem _ hp)).1)
          (by rw [hL]; omega) (by rw [hte]) (by rw [hmin, hte]; rfl)
          (by rw [hmin]; decide) (by simpa using hk)
          (by
            rw [hL, hte]
            simp only [List.take_succ_cons, List.map_cons] at hc
            omega)
        simpa using this
  · intro s hs
    cases obs with
    | nil => simp at hk
    | cons o rest =>
      rw [framesRun_mainInit_cons] at hs
      have h0 : mainInit.dil = initState := rfl
      have hd : (frame mainInit o.1 o.2).dil
          = { Last_min := o.1, min3600 := 0, time_elapsed := 0 } := by
        rw [frame_dil, h0, minuteRollover_first]
      cases k with
      | zero =>
        have hs1 : s = frame mainInit o.1 o.2 := by
          simp at hs
          exact hs.symm
        rw [hs1, hd]
        simp [minuteChanges]
      | succ k =>
        have h1 : (framesRun (frame mainInit o.1 o.2) rest)[k]? = some s := by
          simpa using hs
        have ho := (hobs o (List.mem_cons_self _ _)).1
        have hL : (frame mainInit o.1 o.2).dil.Last_min = o.1 := by rw [hd]
        have hte : (frame mainInit o.1 o.2).dil.time_elapsed = 0 := by rw [hd]
        have hmin : (frame mainInit o.1 o.2).dil.min3600 = 0 := by rw [hd]
        obtain ⟨r1, r2, r3⟩ := framesRun_tracking rest (frame mainInit o.1 o.2) k s
          (fun p hp => (hobs p (List.mem_cons_of_mem _ hp)).1)
          (by rw [hL]; omega) (by rw [hte]) (by rw [hmin, hte]; rfl)
          (by rw [hmin]; decide) h1
        rw [hL, hte] at r1
        refine ⟨?_, r2, ?_, ?_⟩
        · rw [r1]
          simp only [List.take_succ_cons, List.map_cons]
          omega
        · have hk1 : k < (rest.map Prod.fst).length := by simpa using hk
          rw [List.getElem?_eq_getElem hk1] at r3
          have r4 := Option.some.inj r3
          rw [← r4]
          simp
        · intro h
          omega
  · intro a b c d e f
    have h := congrArg (List.map (fun d : DilationState => (d.min3600, d.time_elapsed)))
      (framesRun_six a b c d e f)
    simpa using h

theorem framesRun_minuteCounters_witness :
    ((∀ o ∈ [((5 : Int), (0 : Int)), (5, 10), (5, 3599), (6, 0), (6, 1800), (7, 59)],
        0 ≤ o.1 ∧ o.1 ≤ 59) ∧
      5 < [((5 : Int), (0 : Int)), (5, 10), (5, 3599), (6, 0), (6, 1800), (7, 59)].length) ∧
    5 < (framesRun mainInit [(5, 0), (5, 10), (5, 3599), (6, 0), (6, 1800), (7, 59)]).length ∧
    ∀ s : MainState,
      (framesRun mainInit [(5, 0), (5, 10), (5, 3599), (6, 0), (6, 1800), (7, 59)])[5]? = some s →
      s.dil.time_elapsed = 2 ∧ s.dil.min3600 = 3600 * s.dil.time_elapsed ∧ s.dil.Last_min = 7 :=
  have h := framesRun_minuteCounters [(5, 0), (5, 10), (5, 3599), (6, 0), (6, 1800), (7, 59)]
    (by decide) 5 (by decide)
  ⟨⟨by decide, by decide⟩, h.1 (by decide), fun s hs =>
    ⟨((h.2.1 s hs).1 : _), (h.2.1 s hs).2.1, (h.2.1 s hs).2.2.1⟩⟩

/-! ## The frame loop: a synthetic `min3600` inside the safety margin -/

/-- C7 (counterexample to the claim as stated): with min3600 = INT_MAX inside
the margin, an unchanged minute and sec3600 = 1, the addition
sec3600 + min3600 wraps to INT_MIN; with min3600 = INT_MAX - 100 inside the
margin and a changed minute, min3600 += 3600 wraps to -2147480149 and the guard
does not trip, so the frame does not end the run. -/
theorem frame_margin_counterexample :
    (INT_MAX - 7200 < INT_MAX ∧ INT_MAX ≤ INT_MAX) ∧
    int_add 1 INT_MAX = INT_MIN ∧
    ¬ frameNoWrap { Last_min := 5, min3600 := INT_MAX, time_elapsed := 0 } 5 1 ∧
    (INT_MAX - 7200 < INT_MAX - 100 ∧ INT_MAX - 100 ≤ INT_MAX) ∧
    (frame { dil := { Last_min := 5, min3600 := INT_MAX - 100, time_elapsed := 0 },
             time_accumulative := CDouble.fin 0 } 6 0).dil.min3600 = -2147480149 ∧
    ¬ frameNoWrap { Last_min := 5, min3600 := INT_MAX - 100, time_elapsed := 0 } 6 0 ∧
    ¬ frameBreaks { dil := { Last_min := 5, min3600 := INT_MAX - 100, time_elapsed := 0 },
                    time_accumulative := CDouble.fin 0 } 6 0 := by
  refine ⟨by decide, by decide, by decide, by decide, ?_, by decide, ?_⟩
  · rw [frame_min3600]
    decide
  · rw [frameBreaks_iff]
    decide

/-- C7 (as amended): for every synthetic min3600 inside the safety margin,
INT_MAX - 7200 < min3600 ≤ INT_MAX, at the start of a frame, every observed
minute and every sec3600 in [0, 3599]: the int additions of the frame
(min3600 += 3600 and sec3600 + min3600) are free of wraparound exactly when
min3600 + (3600 if the minute changed) + sec3600 ≤ INT_MAX, and in that case the
frame ends the run through the guard min3600 > INT_MAX - 7200. -/
theorem frame_in_margin (s : MainState) (min sec3600 : Int)
    (hlo : INT_MAX - 7200 < s.dil.min3600) (hhi : s.dil.min3600 ≤ INT_MAX)
    (hsec0 : 0 ≤ sec3600) (hsec1 : sec3600 ≤ 3599) :
    (frameNoWrap s.dil min sec3600 ↔
      s.dil.min3600 + (if minuteChanged s.dil min then 3600 else 0) + sec3600 ≤ INT_MAX) ∧
    (s.dil.min3600 + (if minuteChanged s.dil min then 3600 else 0) + sec3600 ≤ INT_MAX →
      frameBreaks s min sec3600 ∧ (frame s min sec3600).dil.min3600 > INT_MAX - 7200) := by
  unfold frameNoWrap
  rw [frameBreaks_iff, frame_min3600, minuteRollover_min3600]
  unfold INT_MAX at hlo hhi ⊢
  by_cases hc : minuteChanged s.dil min
  · simp only [if_pos hc]
    unfold int_add wrapInt32
    constructor
    · constructor
      · rintro ⟨h1, h2⟩
        have h1 := h1 hc
        omega
      · intro h
        refine ⟨fun _ => by omega, by omega⟩
    · intro h
      omega
  · simp only [if_neg hc]
    unfold int_add wrapInt32
    constructor
    · constructor
      · rintro ⟨_, h2⟩
        omega
      · intro h
        exact ⟨fun h1 => absurd h1 hc, by omega⟩
    · intro h
      omega

theorem frame_in_margin_witness :
    (INT_MAX - 7200 < INT_MAX - 7199 ∧ INT_MAX - 7199 ≤ INT_MAX) ∧
    ((0 : Int) ≤ 3599 ∧ (3599 : Int) ≤ 3599) ∧
    frameBreaks { dil := { Last_min := 5, min3600 := INT_MAX - 7199, time_elapsed := 0 },
                  time_accumulative := CDouble.fin 0 } 6 3599 :=
  ⟨by decide, by decide,
    ((frame_in_margin
      { dil := { Last_min := 5, min3600 := INT_MAX - 7199, time_elapsed := 0 },
        time_accumulative := CDouble.fin 0 } 6 3599
      (by decide) (by decide) (by decide) (by decide)).2 (by decide)).1⟩

/-! ## Coordinate tables: `Calc3600_td` against `Calc3600` -/

theorem PointTable.putAll_append (t : PointTable) (vs ws : List (Option Int × Option Int)) :
    t.putAll (vs ++ ws) = (t.putAll vs).putAll ws := by
  unfold PointTable.putAll
  rw [List.foldl_append]

theorem PointTable.putAll_singleton (t : PointTable)
    (v : Option Int × Option Int) : t.putAll [v] = t.put v.1 v.2 := rfl

theorem arcLoop_eq_putAll (radius midx midy : Int) (d : ℝ) (is : List Nat) (t : PointTable) :
    arcLoop radius midx midy d is t
      = t.putAll (is.map (fun i => (arcX radius midx i d, arcY radius midy i d))) := by
  unfold arcLoop PointTable.putAll
  rw [List.foldl_map]

theorem Calc3600_eq_putAll (radius midx midy : Int) (secx secy : Nat → Option Int) :
    Calc3600 radius midx midy secx secy
      = PointTable.putAll { secx := secx, secy := secy, j := 0, written := [] }
          (Calc3600_points radius midx midy) := by
  unfold Calc3600 Calc3600_points
  simp only [PointTable.putAll_append, arcLoop_eq_putAll, PointTable.putAll_singleton]

theorem PointTable.putAll_below (vs : List (Option Int × Option Int)) :
    ∀ (t : PointTable) (k : Nat), k < t.j →
      (t.putAll vs).secx k = t.secx k ∧ (t.putAll vs).secy k = t.secy k := by
  induction vs with
  | nil => intro t k _; exact ⟨rfl, rfl⟩
  | cons v rest ih =>
    intro t k hk
    have h := ih (t.put v.1 v.2) k (Nat.lt_succ_of_lt hk)
    have hne : k ≠ t.j := Nat.ne_of_lt hk
    show ((t.put v.1 v.2).putAll rest).secx k = _ ∧ ((t.put v.1 v.2).putAll rest).secy k = _
    rw [h.1, h.2]
    exact ⟨Function.update_noteq hne _ _, Function.update_noteq hne _ _⟩

theorem PointTable.putAll_get (vs : List (Option Int × Option Int)) :
    ∀ (t : PointTable) (k : Nat) (v : Option Int × Option Int), t.j ≤ k →
      vs[k - t.j]? = some v →
      (t.putAll vs).secx k = v.1 ∧ (t.putAll vs).secy k = v.2 := by
  induction vs with
  | nil => intro t k v _ hv; simp at hv
  | cons w rest ih =>
    intro t k v hk hv
    show ((t.put w.1 w.2).putAll rest).secx k = _ ∧ ((t.put w.1 w.2).putAll rest).secy k = _
    rcases Nat.eq_or_lt_of_le hk with heq | hlt
    · subst heq
      simp only [Nat.sub_self, List.getElem?_cons_zero, Option.some.injEq] at hv
      subst hv
      have h := PointTable.putAll_below rest (t.put w.1 w.2) t.j (Nat.lt_succ_self _)
      rw [h.1, h.2]
      exact ⟨Function.update_same _ _ _, Function.update_same _ _ _⟩
    · have hidx : k - t.j = (k - (t.j + 1)) + 1 := by omega
      rw [hidx, List.getElem?_cons_succ] at hv
      exact ih (t.put w.1 w.2) k v hlt hv

theorem Calc3600_points_length (radius midx midy : Int) :
    (Calc3600_points radius midx midy).length = 3600 := by
  unfold Calc3600_points
  simp only [List.length_append, List.length_map, List.length_range', List.length_cons,
    List.length_nil]

/-- Every cell 0..3599 written by `Calc3600` holds the point of that index,
whatever the arrays held before. -/
theorem Calc3600_get (radius midx midy : Int) (secx secy : Nat → Option Int) (k : Nat)
    (v : Option Int × Option Int) (hv : (Calc3600_points radius midx midy)[k]? = some v) :
    (Calc3600 radius midx midy secx secy).secx k = v.1 ∧
    (Calc3600 radius midx midy secx secy).secy k = v.2 := by
  rw [Calc3600_eq_putAll]
  exact PointTable.putAll_get _ _ k v (Nat.zero_le k) (by simpa using hv)

theorem RadiusTable.putAllRow_append (t : RadiusTable) (r : Nat)
    (vs ws : List (Option Int × Option Int)) :
    t.putAll r (vs ++ ws) = (t.putAll r vs).putAll r ws := by
  unfold RadiusTable.putAll
  rw [List.foldl_append]

theorem RadiusTable.putAllRow_singleton (t : RadiusTable) (r : Nat)
    (v : Option Int × Option Int) : t.putAll r [v] = t.put r v.1 v.2 := rfl

theorem arcLoop_td_eq_putAll (r : Nat) (midx midy : Int) (is : List Nat) (t : RadiusTable) :
    arcLoop_td r midx midy is t
      = t.putAll r (is.map (fun i => (arcX (r : Int) midx i 1800, arcY (r : Int) midy i 1800))) := by
  unfold arcLoop_td RadiusTable.putAll
  rw [List.foldl_map]

theorem Calc3600_td_body_eq_putAll (midx midy : Int) (t : RadiusTable) (r : Nat) :
    Calc3600_td_body midx midy t r
      = RadiusTable.putAll { t with j := 0 } r (Calc3600_points (r : Int) midx midy) := by
  unfold Calc3600_td_body Calc3600_points
  simp only [RadiusTable.putAllRow_append, arcLoop_td_eq_putAll, RadiusTable.putAllRow_singleton]

theorem RadiusTable.putAll_other_row (vs : List (Option Int × Option Int)) :
    ∀ (t : RadiusTable) (r r2 : Nat), r2 ≠ r →
      (t.putAll r vs).secx r2 = t.secx r2 ∧ (t.putAll r vs).secy r2 = t.secy r2 := by
  induction vs with
  | nil => intro t r r2 _; exact ⟨rfl, rfl⟩
  | cons v rest ih =>
    intro t r r2 hne
    have h := ih (t.put r v.1 v.2) r r2 hne
    show ((t.put r v.1 v.2).putAll r rest).secx r2 = _ ∧
      ((t.put r v.1 v.2).putAll r rest).secy r2 = _
    rw [h.1, h.2]
    exact ⟨Function.update_noteq hne _ _, Function.update_noteq hne _ _⟩

theorem RadiusTable.putAllRow_below (vs : List (Option Int × Option Int)) :
    ∀ (t : RadiusTable) (r k : Nat), k < t.j →
      (t.putAll r vs).secx r k = t.secx r k ∧ (t.putAll r vs).secy r k = t.secy r k := by
  induction vs with
  | nil => intro t r k _; exact ⟨rfl, rfl⟩
  | cons v rest ih =>
    intro t r k hk
    have h := ih (t.put r v.1 v.2) r k (Nat.lt_succ_of_lt hk)
    have hne : k ≠ t.j := Nat.ne_of_lt hk
    show ((t.put r v.1 v.2).putAll r rest).secx r k = _ ∧
      ((t.put r v.1 v.2).putAll r rest).secy r k = _
    rw [h.1, h.2]
    constructor
    · show Function.update t.secx r (Function.update (t.secx r) t.j v.1) r k = _
      rw [Function.update_same, Function.update_noteq hne]
    · show Function.update t.secy r (Function.update (t.secy r) t.j v.2) r k = _
      rw [Function.update_same, Function.update_noteq hne]

theorem RadiusTable.putAllRow_get (vs : List (Option Int × Option Int)) :
    ∀ (t : RadiusTable) (r k : Nat) (v : Option Int × Option Int), t.j ≤ k →
      vs[k - t.j]? = some v →
      (t.putAll r vs).secx r k = v.1 ∧ (t.putAll r vs).secy r k = v.2 := by
  induction vs with
  | nil => intro t r k v _ hv; simp at hv
  | cons w rest ih =>
    intro t r k v hk hv
    show ((t.put r w.1 w.2).putAll r rest).secx r k = _ ∧
      ((t.put r w.1 w.2).putAll r rest).secy r k = _
    rcases Nat.eq_or_lt_of_le hk with heq | hlt
    · subst heq
      simp only [Nat.sub_self, List.getElem?_cons_zero, Option.some.injEq] at hv
      subst hv
      have h := RadiusTable.putAllRow_below rest (t.put r w.1 w.2) r t.j (Nat.lt_succ_self _)
      rw [h.1, h.2]
      constructor
      · show Function.update t.secx r (Function.update (t.secx r) t.j w.1) r t.j = _
        rw [Function.update_same, Function.update_same]
      · show Function.update t.secy r (Function.update (t.secy r) t.j w.2) r t.j = _
        rw [Function.update_same, Function.update_same]
    · have hidx : k - t.j = (k - (t.j + 1)) + 1 := by omega
      rw [hidx, List.getElem?_cons_succ] at hv
      exact ih (t.put r w.1 w.2) r k v hlt hv

/-- The loop over `td_count1`: a row among the rows processed holds, at each
index 0..3599, the point of that index for radius = row. -/
theorem foldl_Calc3600_td_body (midx midy : Int) (rows : List Nat) :
    ∀ (t : RadiusTable) (r k : Nat) (v : Option Int × Option Int), r ∈ rows →
      (Calc3600_points (r : Int) midx midy)[k]? = some v →
      (rows.foldl (Calc3600_td_body midx midy) t).secx r k = v.1 ∧
      (rows.foldl (Calc3600_td_body midx midy) t).secy r k = v.2 := by
  induction rows using List.reverseRecOn with
  | nil => intro t r k v hr; simp at hr
  | append_singleton init a ih =>
    intro t r k v hr hv
    rw [List.foldl_append, List.foldl_cons, List.foldl_nil, Calc3600_td_body_eq_putAll]
    by_cases hra : r = a
    · subst hra
      exact RadiusTable.putAllRow_get _ _ r k v (Nat.zero_le k) (by simpa using hv)
    · have hmem : r ∈ init := by
        rcases List.mem_append.mp hr with h | h
        · exact h
        · exact absurd (List.mem_singleton.mp h) hra
      have h := RadiusTable.putAll_other_row (Calc3600_points (a : Int) midx midy)
        { init.foldl (Calc3600_td_body midx midy) t with j := 0 } a r hra
      rw [h.1, h.2]
      exact ih t r k v hmem hv

/-- C10: for every center (midx, midy), every value of the radius argument and
every r in 0..499 (row 499 included), row r written by Calc3600_td equals, at
each of the 3600 indices, the table Calc3600(r, midx, midy) writes, whatever
the arrays held before; and the result does not depend on Calc3600_td's radius
argument. -/
theorem Calc3600_td_row_eq_Calc3600 (radius radius2 midx midy : Int)
    (tdx tdy : Nat → Nat → Option Int) (secx secy : Nat → Option Int) (r k : Nat)
    (hr : r < 500) (hk : k < 3600) :
    (Calc3600_td radius midx midy tdx tdy).secx r k
      = (Calc3600 (r : Int) midx midy secx secy).secx k ∧
    (Calc3600_td radius midx midy tdx tdy).secy r k
      = (Calc3600 (r : Int) midx midy secx secy).secy k ∧
    Calc3600_td radius midx midy tdx tdy = Calc3600_td radius2 midx midy tdx tdy := by
  have hlen : k < (Calc3600_points (r : Int) midx midy).length := by
    rw [Calc3600_points_length]; exact hk
  have hv : (Calc3600_points (r : Int) midx midy)[k]?
      = some ((Calc3600_points (r : Int) midx midy)[k]) := List.getElem?_eq_getElem hlen
  have h1 := Calc3600_get (r : Int) midx midy secx secy k _ hv
  have h2 := foldl_Calc3600_td_body midx midy (List.range 500)
    { secx := tdx, secy := tdy, j := 0, written := [] } r k _ (List.mem_range.mpr hr) hv
  have htd : Calc3600_td radius midx midy tdx tdy
      = (List.range 500).foldl (Calc3600_td_body midx midy)
          { secx := tdx, secy := tdy, j := 0, written := [] } := by
    unfold Calc3600_td
    simp only []
  refine ⟨?_, ?_, rfl⟩
  · rw [h1.1, htd]; exact h2.1
  · rw [h1.2, htd]; exact h2.2

theorem Calc3600_td_row_eq_Calc3600_witness :
    (499 : Nat) < 500 ∧ (900 : Nat) < 3600 ∧
    (Calc3600_td 500 700 500 (fun _ _ => none) (fun _ _ => none)).secx 499 900
      = (Calc3600 ((499 : Nat) : Int) 700 500 (fun _ => none) (fun _ => none)).secx 900 :=
  ⟨by decide, by decide,
    (Calc3600_td_row_eq_Calc3600 500 0 700 500 (fun _ _ => none) (fun _ _ => none)
      (fun _ => none) (fun _ => none) 499 900 (by decide) (by decide)).1⟩

/-! ## The tick position of the real clock -/

/-- C14: for every tv_usec in [0, 999999], msec = tv_usec / 16667 lies in
[0, 59]; for every tm_sec in [0, 60], sec3600 = (tm_sec * 60 + msec) % 3600 lies
in [0, 3599], inside the 3600-entry table read at msecx[sec3600] and
msecy[sec3600]; and for tm_sec in [0, 59] no wrap occurs:
sec3600 = tm_sec * 60 + msec. -/
theorem sec3600_in_table (tv_usec tm_sec : Int) (hu0 : 0 ≤ tv_usec)
    (hu1 : tv_usec ≤ 999999) (hs0 : 0 ≤ tm_sec) (hs1 : tm_sec ≤ 60) :
    0 ≤ msec_of_usec tv_usec ∧ msec_of_usec tv_usec ≤ 59 ∧
    0 ≤ sec3600_of_time tm_sec (msec_of_usec tv_usec) ∧
    sec3600_of_time tm_sec (msec_of_usec tv_usec) ≤ 3599 ∧
    (tm_sec ≤ 59 →
      sec3600_of_time tm_sec (msec_of_usec tv_usec) = tm_sec * 60 + msec_of_usec tv_usec) := by
  have hdiv : Int.tdiv tv_usec 16667 = tv_usec / 16667 := Int.tdiv_eq_ediv hu0 (by decide)
  have hm : msec_of_usec tv_usec = tv_usec / 16667 := by
    unfold msec_of_usec wrapInt32
    rw [hdiv]
    omega
  have hm0 : 0 ≤ tv_usec / 16667 := by omega
  have hm1 : tv_usec / 16667 ≤ 59 := by omega
  have hsum : int_add (int_mul tm_sec 60) (tv_usec / 16667) = tm_sec * 60 + tv_usec / 16667 := by
    unfold int_add int_mul wrapInt32
    omega
  have hmod : sec3600_of_time tm_sec (tv_usec / 16667)
      = (tm_sec * 60 + tv_usec / 16667) % 3600 := by
    unfold sec3600_of_time
    rw [hsum]
    exact Int.tmod_eq_emod (by omega) (by decide)
  rw [hm, hmod]
  refine ⟨hm0, hm1, by omega, by omega, ?_⟩
  intro h59
  omega

theorem sec3600_in_table_witness :
    ((0 : Int) ≤ 999999 ∧ (999999 : Int) ≤ 999999 ∧ (0 : Int) ≤ 59 ∧ (59 : Int) ≤ 60) ∧
    msec_of_usec 999999 ≤ 59 ∧ sec3600_of_time 59 (msec_of_usec 999999) ≤ 3599 :=
  have h := sec3600_in_table 999999 59 (by decide) (by decide) (by decide) (by decide)
  ⟨by decide, h.2.1, h.2.2.2.1⟩

/-! ## Coordinate tables: the order of the points -/

theorem getElem?_append_cons_length {α : Type} (L R : List α) (c : α) :
    (L ++ c :: R)[L.length]? = some c := by
  rw [List.getElem?_append_right (Nat.le_refl _), Nat.sub_self]
  simp

theorem quadrantPoints_length (radius midx midy : Int) (d : ℝ) (q1 q2 q3 q4 : List Nat) :
    (quadrantPoints radius midx midy d q1 q2 q3 q4).length
      = q1.length + q2.length + q3.length + q4.length + 4 := by
  unfold quadrantPoints
  simp only [List.length_append, List.length_map, List.length_cons, List.length_nil]
  omega

theorem fourParts_get {α : Type} (c0 c1 c2 c3 : α) (A B C D : List α) :
    ([c0] ++ A ++ [c1] ++ B ++ [c2] ++ C ++ [c3] ++ D)[0]? = some c0 ∧
    ([c0] ++ A ++ [c1] ++ B ++ [c2] ++ C ++ [c3] ++ D)[A.length + 1]? = some c1 ∧
    ([c0] ++ A ++ [c1] ++ B ++ [c2] ++ C ++ [c3] ++ D)[A.length + B.length + 2]? = some c2 ∧
    ([c0] ++ A ++ [c1] ++ B ++ [c2] ++ C ++ [c3] ++ D)[A.length + B.length + C.length + 3]?
      = some c3 := by
  refine ⟨by simp, ?_, ?_, ?_⟩
  · have h : [c0] ++ A ++ [c1] ++ B ++ [c2] ++ C ++ [c3] ++ D
        = ([c0] ++ A) ++ c1 :: (B ++ [c2] ++ C ++ [c3] ++ D) := by simp
    have hl : A.length + 1 = ([c0] ++ A).length := by simp
    rw [h, hl]
    exact getElem?_append_cons_length _ _ _
  · have h : [c0] ++ A ++ [c1] ++ B ++ [c2] ++ C ++ [c3] ++ D
        = ([c0] ++ A ++ [c1] ++ B) ++ c2 :: (C ++ [c3] ++ D) := by simp
    have hl : A.length + B.length + 2 = ([c0] ++ A ++ [c1] ++ B).length := by
      simp; omega
    rw [h, hl]
    exact getElem?_append_cons_length _ _ _
  · have h : [c0] ++ A ++ [c1] ++ B ++ [c2] ++ C ++ [c3] ++ D
        = ([c0] ++ A ++ [c1] ++ B ++ [c2] ++ C) ++ c3 :: D := by simp
    have hl : A.length + B.length + C.length + 3
        = ([c0] ++ A ++ [c1] ++ B ++ [c2] ++ C).length := by
      simp; omega
    rw [h, hl]
    exact getElem?_append_cons_length _ _ _

/-- The cardinal points of a four-quadrant generator sit at the start of each
quadrant. -/
theorem quadrantPoints_cardinals (radius midx midy : Int) (d : ℝ) (q1 q2 q3 q4 : List Nat) :
    (quadrantPoints radius midx midy d q1 q2 q3 q4)[0]?
      = some (some midx, some (int_sub midy radius)) ∧
    (quadrantPoints radius midx midy d q1 q2 q3 q4)[q1.length + 1]?
      = some (some (int_add midx radius), some midy) ∧
    (quadrantPoints radius midx midy d q1 q2 q3 q4)[q1.length + q2.length + 2]?
      = some (some midx, some (int_add midy radius)) ∧
    (quadrantPoints radius midx midy d q1 q2 q3 q4)[q1.length + q2.length + q3.length + 3]?
      = some (some (int_sub midx radius), some midy) := by
  have h := fourParts_get (some midx, some (int_sub midy radius))
    (some (int_add midx radius), some midy) (some midx, some (int_add midy radius))
    (some (int_sub midx radius), some midy)
    (q1.map (fun i => (arcX radius midx i d, arcY radius midy i d)))
    (q2.map (fun i => (arcX radius midx i d, arcY radius midy i d)))
    (q3.map (fun i => (arcX radius midx i d, arcY radius midy i d)))
    (q4.map (fun i => (arcX radius midx i d, arcY radius midy i d)))
  simp only [List.length_map] at h
  exact h

theorem Calc3600_points_eq (radius midx midy : Int) :
    Calc3600_points radius midx midy
      = quadrantPoints radius midx midy 1800 (List.range' 901 899) (List.range' 1801 899)
          (List.range' 2701 899) (List.range' 1 899) := by
  unfold Calc3600_points quadrantPoints
  rfl

theorem Calc360_eq_putAll (radius midx midy : Int) (secx secy : Nat → Option Int) :
    Calc360 radius midx midy secx secy
      = PointTable.putAll { secx := secx, secy := secy, j := 0, written := [] }
          (quadrantPoints radius midx midy 180 (List.range' 91 89) (List.range' 181 89)
            (List.range' 271 89) (List.range' 1 89)) := by
  unfold Calc360 quadrantPoints
  simp only [PointTable.putAll_append, arcLoop_eq_putAll, PointTable.putAll_singleton]

theorem minSecCalc_eq_putAll (radius midx midy : Int) (secx secy : Nat → Option Int) :
    minSecCalc radius midx midy secx secy
      = PointTable.putAll { secx := secx, secy := secy, j := 0, written := [] }
          (quadrantPoints radius midx midy 180 (List.range' 96 14 6) (List.range' 186 14 6)
            (List.range' 276 14 6) (List.range' 6 14 6)) := by
  unfold minSecCalc quadrantPoints
  simp only [PointTable.putAll_append, arcLoop_eq_putAll, PointTable.putAll_singleton]

/-- A table filled from index 0 with a list of points holds, at each index of
the list, the point of that index. -/
theorem PointTable.putAll_point (secx secy : Nat → Option Int)
    (vs : List (Option Int × Option Int)) (k : Nat) (v : Option Int × Option Int)
    (hv : vs[k]? = some v) :
    (PointTable.putAll { secx := secx, secy := secy, j := 0, written := [] } vs).point k = v := by
  have h := PointTable.putAll_get vs { secx := secx, secy := secy, j := 0, written := [] }
    k v (Nat.zero_le k) (by simpa using hv)
  unfold PointTable.point
  rw [h.1, h.2]

theorem Calc3600_cardinals (radius midx midy : Int) (secx secy : Nat → Option Int) :
    (Calc3600 radius midx midy secx secy).point 0 = (some midx, some (int_sub midy radius)) ∧
    (Calc3600 radius midx midy secx secy).point 900 = (some (int_add midx radius), some midy) ∧
    (Calc3600 radius midx midy secx secy).point 1800 = (some midx, some (int_add midy radius)) ∧
    (Calc3600 radius midx midy secx secy).point 2700
      = (some (int_sub midx radius), some midy) := by
  obtain ⟨h0, h1, h2, h3⟩ := quadrantPoints_cardinals radius midx midy 1800
    (List.range' 901 899) (List.range' 1801 899) (List.range' 2701 899) (List.range' 1 899)
  simp only [List.length_range'] at h1 h2 h3
  rw [Calc3600_eq_putAll, Calc3600_points_eq]
  exact ⟨PointTable.putAll_point _ _ _ _ _ h0, PointTable.putAll_point _ _ _ _ _ h1,
    PointTable.putAll_point _ _ _ _ _ h2, PointTable.putAll_point _ _ _ _ _ h3⟩

theorem Calc360_cardinals (radius midx midy : Int) (secx secy : Nat → Option Int) :
    (Calc360 radius midx midy secx secy).point 0 = (some midx, some (int_sub midy radius)) ∧
    (Calc360 radius midx midy secx secy).point 90 = (some (int_add midx radius), some midy) ∧
    (Calc360 radius midx midy secx secy).point 180 = (some midx, some (int_add midy radius)) ∧
    (Calc360 radius midx midy secx secy).point 270
      = (some (int_sub midx radius), some midy) := by
  obtain ⟨h0, h1, h2, h3⟩ := quadrantPoints_cardinals radius midx midy 180
    (List.range' 91 89) (List.range' 181 89) (List.range' 271 89) (List.range' 1 89)
  simp only [List.length_range'] at h1 h2 h3
  rw [Calc360_eq_putAll]
  exact ⟨PointTable.putAll_point _ _ _ _ _ h0, PointTable.putAll_point _ _ _ _ _ h1,
    PointTable.putAll_point _ _ _ _ _ h2, PointTable.putAll_point _ _ _ _ _ h3⟩

theorem minSecCalc_cardinals (radius midx midy : Int) (secx secy : Nat → Option Int) :
    (minSecCalc radius midx midy secx secy).point 0
      = (some midx, some (int_sub midy radius)) ∧
    (minSecCalc radius midx midy secx secy).point 15
      = (some (int_add midx radius), some midy) ∧
    (minSecCalc radius midx midy secx secy).point 30
      = (some midx, some (int_add midy radius)) ∧
    (minSecCalc radius midx midy secx secy).point 45
      = (some (int_sub midx radius), some midy) := by
  obtain ⟨h0, h1, h2, h3⟩ := quadrantPoints_cardinals radius midx midy 180
    (List.range' 96 14 6) (List.range' 186 14 6) (List.range' 276 14 6) (List.range' 6 14 6)
  simp only [List.length_range'] at h1 h2 h3
  rw [minSecCalc_eq_putAll]
  exact ⟨PointTable.putAll_point _ _ _ _ _ h0, PointTable.putAll_point _ _ _ _ _ h1,
    PointTable.putAll_point _ _ _ _ _ h2, PointTable.putAll_point _ _ _ _ _ h3⟩

theorem calcPoints_cardinals (radius midx midy : Int) (x y : Nat → Option Int) :
    (calcPoints radius midx midy x y).point 0 = (some midx, some (int_sub midy radius)) ∧
    (calcPoints radius midx midy x y).point 3 = (some (int_add midx radius), some midy) ∧
    (calcPoints radius midx midy x y).point 6 = (some midx, some (int_add midy radius)) ∧
    (calcPoints radius midx midy x y).point 9 = (some (int_sub midx radius), some midy) := by
  unfold HourPoints.point calcPoints
  simp [Function.update]

theorem calcPoints_cardinalPoints (radius midx midy : Int) (x y : Nat → Option Int) :
    cardinalPoints (calcPoints radius midx midy x y).point 12
      = [(some midx, some (int_sub midy radius)), (some (int_add midx radius), some midy),
         (some midx, some (int_add midy radius)), (some (int_sub midx radius), some midy)] := by
  obtain ⟨h0, h1, h2, h3⟩ := calcPoints_cardinals radius midx midy x y
  unfold cardinalPoints
  rw [show 12 / 4 = 3 from rfl, show 12 / 2 = 6 from rfl, show 3 * 12 / 4 = 9 from rfl,
    h0, h1, h2, h3]

theorem minSecCalc_cardinalPoints (radius midx midy : Int) (x y : Nat → Option Int) :
    cardinalPoints (minSecCalc radius midx midy x y).point 60
      = [(some midx, some (int_sub midy radius)), (some (int_add midx radius), some midy),
         (some midx, some (int_add midy radius)), (some (int_sub midx radius), some midy)] := by
  obtain ⟨h0, h1, h2, h3⟩ := minSecCalc_cardinals radius midx midy x y
  unfold cardinalPoints
  rw [show 60 / 4 = 15 from rfl, show 60 / 2 = 30 from rfl, show 3 * 60 / 4 = 45 from rfl,
    h0, h1, h2, h3]

theorem Calc360_cardinalPoints (radius midx midy : Int) (x y : Nat → Option Int) :
    cardinalPoints (Calc360 radius midx midy x y).point 360
      = [(some midx, some (int_sub midy radius)), (some (int_add midx radius), some midy),
         (some midx, some (int_add midy radius)), (some (int_sub midx radius), some midy)] := by
  obtain ⟨h0, h1, h2, h3⟩ := Calc360_cardinals radius midx midy x y
  unfold cardinalPoints
  rw [show 360 / 4 = 90 from rfl, show 360 / 2 = 180 from rfl, show 3 * 360 / 4 = 270 from rfl,
    h0, h1, h2, h3]

theorem Calc3600_cardinalPoints (radius midx midy : Int) (x y : Nat → Option Int) :
    cardinalPoints (Calc3600 radius midx midy x y).point 3600
      = [(some midx, some (int_sub midy radius)), (some (int_add midx radius), some midy),
         (some midx, some (int_add midy radius)), (some (int_sub midx radius), some midy)] := by
  obtain ⟨h0, h1, h2, h3⟩ := Calc3600_cardinals radius midx midy x y
  unfold cardinalPoints
  rw [show 3600 / 4 = 900 from rfl, show 3600 / 2 = 1800 from rfl, show 3 * 3600 / 4 = 2700 from rfl,
    h0, h1, h2, h3]

/-- C11: for every radius and center, each table generator with N points
(calcPoints N = 12, minSecCalc N = 60, Calc360 N = 360, Calc3600 N = 3600)
starts at 12 o'clock and proceeds clockwise through the cardinal points: entry 0
is (midx, midy - radius), entry N/4 is (midx + radius, midy), entry N/2 is
(midx, midy + radius) and entry 3N/4 is (midx - radius, midy), in screen
coordinates with y growing downwards; the sums and differences are those of the
C `int` expressions of the source. -/
theorem cardinal_points (radius midx midy : Int) (x y : Nat → Option Int) :
    cardinalPoints (calcPoints radius midx midy x y).point 12
      = [(some midx, some (int_sub midy radius)), (some (int_add midx radius), some midy),
         (some midx, some (int_add midy radius)), (some (int_sub midx radius), some midy)] ∧
    cardinalPoints (minSecCalc radius midx midy x y).point 60
      = [(some midx, some (int_sub midy radius)), (some (int_add midx radius), some midy),
         (some midx, some (int_add midy radius)), (some (int_sub midx radius), some midy)] ∧
    cardinalPoints (Calc360 radius midx midy x y).point 360
      = [(some midx, some (int_sub midy radius)), (some (int_add midx radius), some midy),
         (some midx, some (int_add midy radius)), (some (int_sub midx radius), some midy)] ∧
    cardinalPoints (Calc3600 radius midx midy x y).point 3600
      = [(some midx, some (int_sub midy radius)), (some (int_add midx radius), some midy),
         (some midx, some (int_add midy radius)), (some (int_sub midx radius), some midy)] :=
  ⟨calcPoints_cardinalPoints radius midx midy x y, minSecCalc_cardinalPoints radius midx midy x y,
    Calc360_cardinalPoints radius midx midy x y, Calc3600_cardinalPoints radius midx midy x y⟩

/-! ## Coordinate tables: the cells written -/

theorem PointTable.putAll_written (vs : List (Option Int × Option Int)) :
    ∀ t : PointTable,
      (t.putAll vs).written = t.written ++ List.range' t.j vs.length ∧
      (t.putAll vs).j = t.j + vs.length := by
  induction vs with
  | nil => intro t; simp [PointTable.putAll]
  | cons v rest ih =>
    intro t
    obtain ⟨h1, h2⟩ := ih (t.put v.1 v.2)
    have hput : t.putAll (v :: rest) = (t.put v.1 v.2).putAll rest := rfl
    rw [hput, h1, h2]
    constructor
    · show (t.written ++ [t.j]) ++ List.range' (t.j + 1) rest.length = _
      rw [List.length_cons, List.range'_succ, List.append_assoc]
      rfl
    · show t.j + 1 + rest.length = _
      rw [List.length_cons]
      omega

theorem putAll_from_zero_written (secx secy : Nat → Option Int)
    (vs : List (Option Int × Option Int)) :
    (PointTable.putAll { secx := secx, secy := secy, j := 0, written := [] } vs).written
      = List.range vs.length ∧
    (PointTable.putAll { secx := secx, secy := secy, j := 0, written := [] } vs).j
      = vs.length := by
  obtain ⟨h1, h2⟩ := PointTable.putAll_written vs
    { secx := secx, secy := secy, j := 0, written := [] }
  rw [h1, h2, List.range_eq_range']
  simp

theorem RadiusTable.putAllRow_written (vs : List (Option Int × Option Int)) :
    ∀ (t : RadiusTable) (r : Nat),
      (t.putAll r vs).written
        = t.written ++ (List.range' t.j vs.length).map (fun k => (r, k)) ∧
      (t.putAll r vs).j = t.j + vs.length := by
  induction vs with
  | nil => intro t r; simp [RadiusTable.putAll]
  | cons v rest ih =>
    intro t r
    obtain ⟨h1, h2⟩ := ih (t.put r v.1 v.2) r
    have hput : t.putAll r (v :: rest) = (t.put r v.1 v.2).putAll r rest := rfl
    rw [hput, h1, h2]
    constructor
    · show (t.written ++ [(r, t.j)]) ++ (List.range' (t.j + 1) rest.length).map _ = _
      rw [List.length_cons, List.range'_succ, List.append_assoc]
      rfl
    · show t.j + 1 + rest.length = _
      rw [List.length_cons]
      omega

theorem Calc3600_td_body_written (midx midy : Int) (t : RadiusTable) (r : Nat) :
    (Calc3600_td_body midx midy t r).written
      = t.written ++ (List.range 3600).map (fun k => (r, k)) := by
  rw [Calc3600_td_body_eq_putAll]
  obtain ⟨h1, _⟩ := RadiusTable.putAllRow_written (Calc3600_points (r : Int) midx midy)
    { t with j := 0 } r
  rw [h1, Calc3600_points_length, List.range_eq_range']

theorem foldl_Calc3600_td_body_written (midx midy : Int) (rows : List Nat) :
    ∀ t : RadiusTable,
      (rows.foldl (Calc3600_td_body midx midy) t).written
        = t.written ++ rows.flatMap (fun r => (List.range 3600).map (fun k => (r, k))) := by
  induction rows with
  | nil => intro t; simp
  | cons a rest ih =>
    intro t
    rw [List.foldl_cons, ih, Calc3600_td_body_written, List.flatMap_cons, List.append_assoc]

/-- C15: each table generator writes exactly the indices of its table and
nothing beyond: the indices written by Calc3600 are, in order, 0, 1, ..., 3599
(each exactly once) and it ends with j = 3600; likewise minSecCalc writes
0..59 (j = 60) and Calc360 writes 0..359 (j = 360); and the cells written by
Calc3600_td are, for each row 0..499 in turn, the indices 0..3599 of that row,
each exactly once. -/
theorem generators_write_exactly_their_table (radius midx midy : Int)
    (secx secy : Nat → Option Int) (tdx tdy : Nat → Nat → Option Int) :
    ((Calc3600 radius midx midy secx secy).written = List.range 3600 ∧
      (Calc3600 radius midx midy secx secy).j = 3600) ∧
    ((minSecCalc radius midx midy secx secy).written = List.range 60 ∧
      (minSecCalc radius midx midy secx secy).j = 60) ∧
    ((Calc360 radius midx midy secx secy).written = List.range 360 ∧
      (Calc360 radius midx midy secx secy).j = 360) ∧
    (Calc3600_td radius midx midy tdx tdy).written
      = (List.range 500).flatMap (fun r => (List.range 3600).map (fun k => (r, k))) := by
  refine ⟨?_, ?_, ?_, ?_⟩
  · have h := putAll_from_zero_written secx secy (Calc3600_points radius midx midy)
    rw [Calc3600_points_length] at h
    rw [Calc3600_eq_putAll]
    exact h
  · have h := putAll_from_zero_written secx secy
      (quadrantPoints radius midx midy 180 (List.range' 96 14 6) (List.range' 186 14 6)
        (List.range' 276 14 6) (List.range' 6 14 6))
    rw [quadrantPoints_length] at h
    simp only [List.length_range'] at h
    rw [minSecCalc_eq_putAll]
    exact h
  · have h := putAll_from_zero_written secx secy
      (quadrantPoints radius midx midy 180 (List.range' 91 89) (List.range' 181 89)
        (List.range' 271 89) (List.range' 1 89))
    rw [quadrantPoints_length] at h
    simp only [List.length_range'] at h
    rw [Calc360_eq_putAll]
    exact h
  · have htd : Calc3600_td radius midx midy tdx tdy
        = (List.range 500).foldl (Calc3600_td_body midx midy)
            { secx := tdx, secy := tdy, j := 0, written := [] } := by
      unfold Calc3600_td
      simp only []
    rw [htd, foldl_Calc3600_td_body_written]
    exact List.nil_append _

/-! ## Coordinate tables: conversion of the coordinates to `int` -/

theorem sqrt3_bounds : (1.7320 : ℝ) < Real.sqrt 3 ∧ Real.sqrt 3 < 1.7321 := by
  constructor
  · rw [Real.lt_sqrt (by norm_num)]
    norm_num
  · rw [Real.sqrt_lt' (by norm_num)]
    norm_num

theorem c_trunc_of_nonneg (x : ℝ) (s : Int) (h0 : (s : ℝ) ≤ x) (h1 : x < (s : ℝ) + 1)
    (hs : 0 ≤ s) : c_trunc x = s := by
  have hx : 0 ≤ x := le_trans (by exact_mod_cast hs) h0
  unfold c_trunc
  rw [if_pos hx]
  exact Int.floor_eq_iff.mpr ⟨h0, h1⟩

/-- The conversion discards less than one unit. -/
theorem c_trunc_error (x : ℝ) : |(c_trunc x : ℝ) - x| < 1 := by
  unfold c_trunc
  split
  · have h1 := Int.floor_le x
    have h2 := Int.lt_floor_add_one x
    rw [abs_lt]
    constructor <;> linarith
  · have h1 := Int.le_ceil x
    have h2 := Int.ceil_lt_add_one x
    rw [abs_lt]
    constructor <;> linarith

theorem store_double_intCast (z : Int) (h : InIntRange z) : store_double (z : ℝ) = some z := by
  have hz : c_trunc (z : ℝ) = z := by
    unfold c_trunc
    split
    · exact Int.floor_intCast z
    · exact Int.ceil_intCast z
  unfold store_double double_to_int
  rw [hz, if_pos h]

theorem halfRadiusSqrt3_450 : halfRadiusSqrt3 450 = some 389 := by
  obtain ⟨hlo, hhi⟩ := sqrt3_bounds
  have hd : int_div 450 2 = 225 := by decide
  have ht : c_trunc (((225 : Int) : ℝ) * Real.sqrt 3) = 389 := by
    apply c_trunc_of_nonneg _ 389 _ _ (by decide)
    · push_cast; linarith
    · push_cast; linarith
  unfold halfRadiusSqrt3 store_double double_to_int
  rw [hd, ht, if_pos (by decide)]

theorem halfRadiusSqrt3_2 : halfRadiusSqrt3 2 = some 1 := by
  obtain ⟨hlo, hhi⟩ := sqrt3_bounds
  have hd : int_div 2 2 = 1 := by decide
  have ht : c_trunc (((1 : Int) : ℝ) * Real.sqrt 3) = 1 := by
    apply c_trunc_of_nonneg _ 1 _ _ (by decide)
    · push_cast; linarith
    · push_cast; linarith
  unfold halfRadiusSqrt3 store_double double_to_int
  rw [hd, ht, if_pos (by decide)]

theorem halfRadiusSqrt3_0 : halfRadiusSqrt3 0 = some 0 := by
  have hd : int_div 0 2 = 0 := by decide
  unfold halfRadiusSqrt3
  rw [hd]
  have h := store_double_intCast 0 (by decide)
  simpa using h

/-- C12 (the code at the failing input, the call `calcPoints(radius - 50, midx,
midy, x, y)` of `main` with radius 500 and center (704, 504)): the real value of
x[2] is 704 + 225 * sqrt(3) = 1093.71..., the stored value is 1093, which is
not the nearest integer: it differs from the real value by more than 1/2. -/
theorem calcPoints_truncates (x y : Nat → Option Int) :
    (calcPoints 450 704 504 x y).x 2 = some 1093 ∧
    (1 : ℝ) / 2 < |(1093 : ℝ) - (704 + 225 * Real.sqrt 3)| ∧
    |(1094 : ℝ) - (704 + 225 * Real.sqrt 3)| < 1 / 2 := by
  obtain ⟨hlo, hhi⟩ := sqrt3_bounds
  refine ⟨?_, ?_, ?_⟩
  · have hx : (calcPoints 450 704 504 x y).x 2 = int_add_cell 704 (halfRadiusSqrt3 450) := by
      unfold calcPoints
      simp [Function.update]
    rw [hx, halfRadiusSqrt3_450]
    decide
  · rw [lt_abs]
    right
    linarith
  · rw [abs_lt]
    constructor <;> linarith

/-! ## Coordinate tables: coinciding points -/

theorem arcX_radius_zero (midx : Int) (i : Nat) (d : ℝ) (h : InIntRange midx) :
    arcX 0 midx i d = some midx := by
  unfold arcX
  have : (midx : ℝ) - (((0 : Int) : ℝ) * Real.cos (((i : ℝ) * 3.14) / d)) = (midx : ℝ) := by
    push_cast
    ring
  rw [this]
  exact store_double_intCast midx h

theorem arcY_radius_zero (midy : Int) (i : Nat) (d : ℝ) (h : InIntRange midy) :
    arcY 0 midy i d = some midy := by
  unfold arcY
  have : (midy : ℝ) - (((0 : Int) : ℝ) * Real.sin (((i : ℝ) * 3.14) / d)) = (midy : ℝ) := by
    push_cast
    ring
  rw [this]
  exact store_double_intCast midy h

theorem int_add_zero_of_inRange (a : Int) (h : InIntRange a) : int_add a 0 = a := by
  unfold int_add
  rw [Int.add_zero]
  exact wrapInt32_of_inRange h

theorem int_sub_zero_of_inRange (a : Int) (h : InIntRange a) : int_sub a 0 = a := by
  unfold int_sub
  rw [Int.sub_zero]
  exact wrapInt32_of_inRange h

theorem quadrantPoints_radius_zero (midx midy : Int) (d : ℝ) (q1 q2 q3 q4 : List Nat)
    (hx : InIntRange midx) (hy : InIntRange midy) :
    ∀ v ∈ quadrantPoints 0 midx midy d q1 q2 q3 q4, v = (some midx, some midy) := by
  intro v hv
  unfold quadrantPoints at hv
  simp only [List.mem_append, List.mem_map, List.mem_singleton, arcX_radius_zero _ _ _ hx,
    arcY_radius_zero _ _ _ hy, int_add_zero_of_inRange _ hx, int_add_zero_of_inRange _ hy,
    int_sub_zero_of_inRange _ hx, int_sub_zero_of_inRange _ hy] at hv
  rcases hv with ((((((h | ⟨_, _, h⟩) | h) | ⟨_, _, h⟩) | h) | ⟨_, _, h⟩) | h) | ⟨_, _, h⟩
  all_goals first | exact h | exact h.symm

theorem PointTable.putAll_point_const (secx secy : Nat → Option Int)
    (vs : List (Option Int × Option Int)) (c : Option Int × Option Int)
    (hc : ∀ v ∈ vs, v = c) (k : Nat) (hk : k < vs.length) :
    (PointTable.putAll { secx := secx, secy := secy, j := 0, written := [] } vs).point k = c := by
  have hv : vs[k]? = some vs[k] := List.getElem?_eq_getElem hk
  rw [PointTable.putAll_point secx secy vs k _ hv]
  exact hc _ (List.getElem_mem hk)

theorem calcPoints_radius_zero (midx midy : Int) (x y : Nat → Option Int)
    (hx : InIntRange midx) (hy : InIntRange midy) (k : Nat) (hk : k < 12) :
    (calcPoints 0 midx midy x y).point k = (some midx, some midy) := by
  have hd : int_div 0 2 = 0 := by decide
  unfold HourPoints.point calcPoints
  simp only [halfRadiusSqrt3_0, hd, int_add_cell, int_sub_cell, Option.map_some',
    int_add_zero_of_inRange _ hx, int_add_zero_of_inRange _ hy,
    int_sub_zero_of_inRange _ hx, int_sub_zero_of_inRange _ hy]
  interval_cases k <;> simp [Function.update]

theorem Calc3600_td_row_zero (radius midx midy : Int) (tdx tdy : Nat → Nat → Option Int)
    (hx : InIntRange midx) (hy : InIntRange midy) (k : Nat) (hk : k < 3600) :
    (Calc3600_td radius midx midy tdx tdy).point 0 k = (some midx, some midy) := by
  have hlen : k < (Calc3600_points ((0 : Nat) : Int) midx midy).length := by
    rw [Calc3600_points_length]; exact hk
  have hv : (Calc3600_points ((0 : Nat) : Int) midx midy)[k]?
      = some ((Calc3600_points ((0 : Nat) : Int) midx midy)[k]) :=
    List.getElem?_eq_getElem hlen
  have hmem : (Calc3600_points ((0 : Nat) : Int) midx midy)[k]
      ∈ Calc3600_points ((0 : Nat) : Int) midx midy := List.getElem_mem hlen
  have hall : ∀ v ∈ Calc3600_points ((0 : Nat) : Int) midx midy, v = (some midx, some midy) := by
    rw [Calc3600_points_eq, Nat.cast_zero]
    exact quadrantPoints_radius_zero midx midy 1800 _ _ _ _ hx hy
  have hc : (Calc3600_points ((0 : Nat) : Int) midx midy)[k] = (some midx, some midy) :=
    hall _ hmem
  have h2 := foldl_Calc3600_td_body midx midy (List.range 500)
    { secx := tdx, secy := tdy, j := 0, written := [] } 0 k _
    (List.mem_range.mpr (by decide)) hv
  have htd : Calc3600_td radius midx midy tdx tdy
      = (List.range 500).foldl (Calc3600_td_body midx midy)
          { secx := tdx, secy := tdy, j := 0, written := [] } := by
    unfold Calc3600_td
    simp only []
  unfold RadiusTable.point
  rw [htd, h2.1, h2.2, ← hc]

theorem cardinalList_nodup (radius midx midy : Int) (hr0 : 0 < radius)
    (hr1 : radius ≤ INT_MAX) :
    ([(some midx, some (int_sub midy radius)), (some (int_add midx radius), some midy),
      (some midx, some (int_add midy radius)), (some (int_sub midx radius), some midy)]
        : List (Option Int × Option Int)).Nodup := by
  unfold INT_MAX at hr1
  have h1 : int_add midx radius ≠ midx := by unfold int_add wrapInt32; omega
  have h2 : int_sub midx radius ≠ midx := by unfold int_sub wrapInt32; omega
  have h3 : int_sub midy radius ≠ int_add midy radius := by
    unfold int_sub int_add wrapInt32; omega
  have h4 : int_add midx radius ≠ int_sub midx radius := by
    unfold int_sub int_add wrapInt32; omega
  simp [h1, h2, h3, h4, Ne.symm h1, Ne.symm h2, Ne.symm h3, Ne.symm h4]

/-- C13 (counterexample to the claim as stated): with radius 0 and center
(0, 0) the entries 0 and 900 of the table of Calc3600 hold the same point, and
so do the entries 0 and 6 of calcPoints; with radius 2 and center (0, 0) the
entries 1 and 2 of calcPoints both hold the point (1, -1). -/
theorem points_not_distinct_counterexample :
    (Calc3600 0 0 0 (fun _ => none) (fun _ => none)).point 0
      = (Calc3600 0 0 0 (fun _ => none) (fun _ => none)).point 900 ∧
    (calcPoints 0 0 0 (fun _ => none) (fun _ => none)).point 0
      = (calcPoints 0 0 0 (fun _ => none) (fun _ => none)).point 6 ∧
    (calcPoints 2 0 0 (fun _ => none) (fun _ => none)).point 1 = (some 1, some (-1)) ∧
    (calcPoints 2 0 0 (fun _ => none) (fun _ => none)).point 2 = (some 1, some (-1)) := by
  obtain ⟨h0, h1, _, _⟩ := Calc3600_cardinals 0 0 0 (fun _ => none) (fun _ => none)
  obtain ⟨g0, _, g2, _⟩ := calcPoints_cardinals 0 0 0 (fun _ => none) (fun _ => none)
  have hd : int_div 2 2 = 1 := by decide
  refine ⟨?_, ?_, ?_, ?_⟩
  · rw [h0, h1]
    decide
  · rw [g0, g2]
    decide
  · unfold HourPoints.point calcPoints
    simp only [halfRadiusSqrt3_2, hd]
    simp [Function.update, int_sub_cell]
    decide
  · unfold HourPoints.point calcPoints
    simp only [halfRadiusSqrt3_2, hd]
    simp [Function.update, int_add_cell]
    decide

/-- C13 (as amended): for every center (midx, midy) held in `int`: with radius
0 all N points written by each table generator (calcPoints N = 12, minSecCalc
N = 60, Calc360 N = 360, Calc3600 N = 3600, and row 0 of Calc3600_td) are
the center itself; with 0 < radius ≤ INT_MAX the four cardinal entries 0, N/4,
N/2 and 3N/4 of each table are pairwise distinct. -/
theorem points_degenerate_or_cardinals_distinct (radius midx midy : Int)
    (x y : Nat → Option Int) (tdx tdy : Nat → Nat → Option Int)
    (hx : InIntRange midx) (hy : InIntRange midy) :
    (∀ k : Nat,
      (k < 12 → (calcPoints 0 midx midy x y).point k = (some midx, some midy)) ∧
      (k < 60 → (minSecCalc 0 midx midy x y).point k = (some midx, some midy)) ∧
      (k < 360 → (Calc360 0 midx midy x y).point k = (some midx, some midy)) ∧
      (k < 3600 → (Calc3600 0 midx midy x y).point k = (some midx, some midy)) ∧
      (k < 3600 →
        (Calc3600_td radius midx midy tdx tdy).point 0 k = (some midx, some midy))) ∧
    (0 < radius → radius ≤ INT_MAX →
      (cardinalPoints (calcPoints radius midx midy x y).point 12).Nodup ∧
      (cardinalPoints (minSecCalc radius midx midy x y).point 60).Nodup ∧
      (cardinalPoints (Calc360 radius midx midy x y).point 360).Nodup ∧
      (cardinalPoints (Calc3600 radius midx midy x y).point 3600).Nodup) := by
  constructor
  · intro k
    refine ⟨calcPoints_radius_zero midx midy x y hx hy k, ?_, ?_, ?_,
      Calc3600_td_row_zero radius midx midy tdx tdy hx hy k⟩
    · intro hk
      rw [minSecCalc_eq_putAll]
      apply PointTable.putAll_point_const _ _ _ _
        (quadrantPoints_radius_zero midx midy 180 _ _ _ _ hx hy)
      rw [quadrantPoints_length]
      simp only [List.length_range']
      exact hk
    · intro hk
      rw [Calc360_eq_putAll]
      apply PointTable.putAll_point_const _ _ _ _
        (quadrantPoints_radius_zero midx midy 180 _ _ _ _ hx hy)
      rw [quadrantPoints_length]
      simp only [List.length_range']
      exact hk
    · intro hk
      rw [Calc3600_eq_putAll, Calc3600_points_eq]
      apply PointTable.putAll_point_const _ _ _ _
        (quadrantPoints_radius_zero midx midy 1800 _ _ _ _ hx hy)
      rw [quadrantPoints_length]
      simp only [List.length_range']
      exact hk
  · intro hr0 hr1
    rw [calcPoints_cardinalPoints, minSecCalc_cardinalPoints, Calc360_cardinalPoints,
      Calc3600_cardinalPoints]
    exact ⟨cardinalList_nodup radius midx midy hr0 hr1,
      cardinalList_nodup radius midx midy hr0 hr1,
      cardinalList_nodup radius midx midy hr0 hr1,
      cardinalList_nodup radius midx midy hr0 hr1⟩

theorem points_degenerate_or_cardinals_distinct_witness :
    InIntRange 704 ∧ InIntRange 504 ∧ (0 : Int) < 500 ∧ (500 : Int) ≤ INT_MAX ∧
    (Calc3600 0 704 504 (fun _ => none) (fun _ => none)).point 1234 = (some 704, some 504) ∧
    (cardinalPoints (Calc3600 500 704 504 (fun _ => none) (fun _ => none)).point 3600).Nodup :=
  have h := points_degenerate_or_cardinals_distinct 500 704 504 (fun _ => none) (fun _ => none)
    (fun _ _ => none) (fun _ _ => none) (by decide) (by decide)
  ⟨by decide, by decide, by decide, by decide, (h.1 1234).2.2.2.1 (by decide),
    (h.2 (by decide) (by decide)).2.2.2⟩

end TDClock
